import Mathlib

/-!
# CerebroShell: screen buffer, ANSI parser and input router

A shallow embedding of `src/CerebroShell.cc`.  The process-wide globals of the
program become the fields of two records (`Term` for the screen and parser,
`World` for the router around it); every function of the source that mutates
them becomes a function from the old record to the new one.

Conventions:
* a `char` is represented by its unsigned byte value (a `Nat` below 256); every
  constant the source compares a `char` with is below 128, so this agrees with
  the signed reading;
* an uncaught C++ exception and an access outside a container both end the run:
  such an operation returns `Except.error` with the reason;
* the three `float` components of a `Color` are only ever copied, never
  computed with; they are kept in hundredths (`1` is `100`, `0.78f` is `78`).
-/

namespace CerebroShell

/-! ## Faults -/

/-- Ways in which a call can fail to return. -/
inductive Fault where
  /-- Exception `std::invalid_argument` thrown by `std::stoi` and not caught. -/
  | invalid_argument
  /-- Exception `std::out_of_range` thrown by `std::stoi` and not caught. -/
  | out_of_range
  /-- Use of `operator[]` or `erase` outside the container (undefined behaviour). -/
  | out_of_bounds
deriving DecidableEq, Repr

/-! ## Colours -/

/-- The source's `struct Color { float r,g,b; }`, components in hundredths. -/
structure Color where
  r : Nat
  g : Nat
  b : Nat
deriving DecidableEq, Repr

/-- The literal `Color{1,1,1}`. -/
def white : Color := ⟨100, 100, 100⟩

/-- The literal `Color{0,0,0}`. -/
def black : Color := ⟨0, 0, 0⟩

/-- The table `map[8]` of `ansi_basic_color`. -/
def ansi_map : List Color :=
  [⟨0, 0, 0⟩, ⟨78, 0, 0⟩, ⟨0, 78, 0⟩, ⟨78, 78, 0⟩,
   ⟨0, 0, 78⟩, ⟨78, 0, 78⟩, ⟨0, 78, 78⟩, ⟨85, 85, 85⟩]

/-- Source function `ansi_basic_color`: the index is clamped to `0..7` before the lookup. -/
def ansi_basic_color (idx : Int) : Color :=
  let idx := if idx < 0 then 0 else idx
  let idx := if idx > 7 then 7 else idx
  ansi_map.getD idx.toNat black

/-! ## Screen and parser state -/

/-- Source type `enum ParseState`. -/
inductive ParseState where
  | PS_NORMAL
  | PS_ESC
  | PS_CSI
  | PS_OSC
deriving DecidableEq, Repr

/-- The globals read and written by the screen-buffer helpers and the parser.  `main`
sets `COLS` and `ROWS` once, to at least 10 and 5; where a container size is built from
them (`std::string(COLS,' ')`, `assign(COLS, ...)`) the embedding takes them non-negative. -/
structure Term where
  COLS : Int
  ROWS : Int
  termBuf : List (List Nat)
  termColor : List (List Color)
  cursor_x : Int
  cursor_y : Int
  cur_fg : Color
  cur_bg : Color
  pstate : ParseState
  esc_buf : List Nat
  osc_buf : List Nat
deriving DecidableEq, Repr

/-- Source constant `FIRST_CHAR`. -/
def FIRST_CHAR : Nat := 32

/-- Source constant `LAST_CHAR`. -/
def LAST_CHAR : Nat := 126

/-! ## Container primitives -/

/-- The assignment `buf[y][x] = v`; the indices are `int`s and must lie inside
the containers. -/
def write_at {α : Type} (buf : List (List α)) (y x : Int) (v : α) :
    Except Fault (List (List α)) :=
  if 0 ≤ y ∧ 0 ≤ x then
    match buf[y.toNat]? with
    | some row =>
      if x.toNat < row.length then .ok (buf.set y.toNat (row.set x.toNat v))
      else .error .out_of_bounds
    | none => .error .out_of_bounds
  else .error .out_of_bounds

/-- The pair of assignments `termBuf[y][x] = ch; termColor[y][x] = cur_fg;`. -/
def put_cell (s : Term) (y x : Int) (ch : Nat) : Except Fault Term :=
  match write_at s.termBuf y x ch with
  | .error e => .error e
  | .ok tb =>
    match write_at s.termColor y x s.cur_fg with
    | .error e => .error e
    | .ok tc => .ok { s with termBuf := tb, termColor := tc }

/-- The assignment `buf[r].assign(n, v)`. -/
def assign_row {α : Type} (buf : List (List α)) (r : Nat) (n : Nat) (v : α) :
    Except Fault (List (List α)) :=
  if r < buf.length then .ok (buf.set r (List.replicate n v)) else .error .out_of_bounds

/-! ## Terminal buffer helpers -/

/-- The loop of `clear_screen`: `n` rows are still to be cleared, starting at row `r`. -/
def clear_rows : Nat → Nat → Term → Except Fault Term
  | 0, _, s => .ok s
  | n + 1, r, s =>
    match assign_row s.termBuf r s.COLS.toNat 32 with
    | .error e => .error e
    | .ok tb =>
      match assign_row s.termColor r s.COLS.toNat white with
      | .error e => .error e
      | .ok tc => clear_rows n (r + 1) { s with termBuf := tb, termColor := tc }

/-- Source function `clear_screen`: rows `0 .. ROWS-1` are refilled, then the cursor goes to the origin. -/
def clear_screen (s : Term) : Except Fault Term :=
  match clear_rows s.ROWS.toNat 0 s with
  | .error e => .error e
  | .ok s1 => .ok { s1 with cursor_x := 0, cursor_y := 0 }

/-- The loop of `clear_line_from`: `n` cells are still to be blanked, starting at column `c`. -/
def clear_cells : Nat → Int → Int → Term → Except Fault Term
  | 0, _, _, s => .ok s
  | n + 1, row, c, s =>
    match put_cell s row c 32 with
    | .error e => .error e
    | .ok s1 => clear_cells n row (c + 1) s1

/-- Source function `clear_line_from(row, col)`; the loop `for(c=col; c<COLS; ++c)` runs
`COLS - col` times when that is positive and not at all otherwise. -/
def clear_line_from (s : Term) (row col : Int) : Except Fault Term :=
  if row < 0 ∨ row ≥ s.ROWS then .ok s
  else clear_cells (s.COLS - col).toNat row col s

/-- The scroll step written out twice in `put_char_local`: the first row of both
grids is erased, a fresh row is appended, and `cursor_y = ROWS-1`. -/
def evict_top_row (s : Term) : Except Fault Term :=
  match s.termBuf, s.termColor with
  | _ :: tb, _ :: tc =>
    .ok { s with
          termBuf := tb ++ [List.replicate s.COLS.toNat 32]
          termColor := tc ++ [List.replicate s.COLS.toNat white]
          cursor_y := s.ROWS - 1 }
  | _, _ => .error .out_of_bounds

/-- The `while(cursor_x < to && cursor_x < COLS)` loop of the tab branch (`tab_to`
is the source's local `to`).  The second argument bounds the number of
iterations; `put_char_local` passes `to - cursor_x`, after which the loop
condition is false. -/
def tab_loop (tab_to : Int) : Nat → Term → Except Fault Term
  | 0, s => .ok s
  | n + 1, s =>
    if s.cursor_x < tab_to ∧ s.cursor_x < s.COLS then
      match put_cell s s.cursor_y s.cursor_x 32 with
      | .error e => .error e
      | .ok s1 => tab_loop tab_to n { s1 with cursor_x := s1.cursor_x + 1 }
    else .ok s

/-- The tail of the newline and of the wrap branch: `cursor_x = 0; cursor_y++;`
followed by the scroll when the cursor has left the grid. -/
def next_line (s : Term) : Except Fault Term :=
  let s1 := { s with cursor_x := 0, cursor_y := s.cursor_y + 1 }
  if s1.cursor_y ≥ s1.ROWS then evict_top_row s1 else .ok s1

/-- Source function `put_char_local`. -/
def put_char_local (s : Term) (ch : Nat) : Except Fault Term :=
  if ch = 13 then .ok s
  else if ch = 10 then next_line s
  else if ch = 9 then
    let tab_to := (s.cursor_x.tdiv 8 + 1) * 8
    tab_loop tab_to (tab_to - s.cursor_x).toNat s
  else if ch = 127 ∨ ch = 8 then
    if s.cursor_x > 0 then
      put_cell { s with cursor_x := s.cursor_x - 1 } s.cursor_y (s.cursor_x - 1) 32
    else .ok s
  else
    let uc := if ch < FIRST_CHAR ∨ ch > LAST_CHAR then 63 else ch
    match put_cell s s.cursor_y s.cursor_x uc with
    | .error e => .error e
    | .ok s1 =>
      let s2 := { s1 with cursor_x := s1.cursor_x + 1 }
      if s2.cursor_x ≥ s2.COLS then next_line s2 else .ok s2

/-! ## Library functions used by the CSI handler -/

/-- Library function `std::isspace` in the "C" locale. -/
def isspace (c : Nat) : Bool := c = 32 ∨ (9 ≤ c ∧ c ≤ 13)

/-- Library function `std::isdigit`. -/
def isdigit (c : Nat) : Bool := 48 ≤ c ∧ c ≤ 57

/-- The value of a run of decimal digit bytes, most significant first. -/
def digits_value (ds : List Nat) : Int :=
  ds.foldl (fun (a : Int) (d : Nat) => a * 10 + ((d : Int) - 48)) 0

/-- The constant `INT_MIN` of a 32-bit `int`. -/
def INT_MIN : Int := -2147483648

/-- The constant `INT_MAX` of a 32-bit `int`. -/
def INT_MAX : Int := 2147483647

/-- Library function `std::stoi(str)` (base 10): leading white space is skipped, one sign is
accepted, the longest run of digits is converted and whatever follows is
ignored.  No digit at all throws `std::invalid_argument`; a value outside `int`
throws `std::out_of_range`. -/
def stoi (str : List Nat) : Except Fault Int :=
  let body := str.dropWhile isspace
  let signed : Bool × List Nat :=
    match body with
    | c :: t => if c = 45 then (true, t) else if c = 43 then (false, t) else (false, body)
    | [] => (false, body)
  let ds := signed.2.takeWhile isdigit
  if ds = [] then .error .invalid_argument
  else
    let v := if signed.1 then -(digits_value ds) else digits_value ds
    if v < INT_MIN ∨ v > INT_MAX then .error .out_of_range else .ok v

/-- Library function `std::getline(ss, item, delim)` on the unread part `ss` of a string stream:
it fails when nothing is left; otherwise it yields the bytes before the first
delimiter and leaves what follows that delimiter unread. -/
def getline (ss : List Nat) (delim : Nat) : Option (List Nat × List Nat) :=
  match ss with
  | [] => none
  | _ :: _ => some (ss.takeWhile (fun c => c != delim), (ss.dropWhile (fun c => c != delim)).drop 1)

/-- Library function `std::clamp(v, lo, hi)`. -/
def clamp (v lo hi : Int) : Int :=
  if v < lo then lo else if hi < v then hi else v

/-- The result of an `int` operation whose exact value is `v`, on the
two's-complement target.  It is applied where a value parsed from the input,
which ranges over all of `int`, enters arithmetic (`row-1`, `col-1`); the
other `int` expressions of the program stay within the grid bounds. -/
def int_wrap (v : Int) : Int :=
  (v + 2147483648) % 4294967296 - 2147483648

/-! ## ANSI parser -/

/-- The `while(std::getline(ss, item, ';'))` loop of the SGR branch with its
`try { stoi } catch(...) { 0 }` body; the first argument bounds the number of
items (each successful `getline` consumes at least one byte). -/
def sgr_codes : Nat → List Nat → List Int
  | 0, _ => []
  | n + 1, ss =>
    match getline ss 59 with
    | none => []
    | some (item, rest) =>
      (match stoi item with
        | .ok v => v
        | .error _ => 0) :: sgr_codes n rest

/-- The body of `for(int code : codes)` in the SGR branch. -/
def sgr_apply (s : Term) (code : Int) : Term :=
  if code = 0 then { s with cur_fg := white, cur_bg := black }
  else if code ≥ 30 ∧ code ≤ 37 then { s with cur_fg := ansi_basic_color (code - 30) }
  else if code ≥ 40 ∧ code ≤ 47 then { s with cur_bg := ansi_basic_color (code - 40) }
  else if code = 39 then { s with cur_fg := white }
  else if code = 49 then { s with cur_bg := black }
  else s

/-- The cursor-position branch (`H` / `f`) of `handle_csi_sequence`, after the
parameters have been read into `row` and `col`. -/
def set_cursor (s : Term) (row col : Int) : Term :=
  { s with
    cursor_y := clamp (int_wrap (row - 1)) 0 (s.ROWS - 1)
    cursor_x := clamp (int_wrap (col - 1)) 0 (s.COLS - 1) }

/-- The initialiser `int p = params.empty()?0:std::stoi(params);` of the `J` and
of the `K` branch. -/
def csi_param (params : List Nat) : Except Fault Int :=
  if params = [] then .ok 0 else stoi params

/-- Source function `handle_csi_sequence`. -/
def handle_csi_sequence (s : Term) (seq : List Nat) : Except Fault Term :=
  match seq.getLast? with
  | none => .ok s
  | some final_byte =>
    let params := seq.dropLast
    if final_byte = 109 then
      let params := if params = [] then [48] else params
      let codes := sgr_codes (params.length + 1) params
      let codes := if codes = [] then [0] else codes
      .ok (codes.foldl sgr_apply s)
    else if final_byte = 72 ∨ final_byte = 102 then
      if params ≠ [] then
        match getline params 59 with
        | some (a, rest) =>
          match getline rest 59 with
          | some (b, _) =>
            match stoi b with
            | .error e => .error e
            | .ok col =>
              match stoi a with
              | .error e => .error e
              | .ok row => .ok (set_cursor s row col)
          | none =>
            match stoi a with
            | .error e => .error e
            | .ok row => .ok (set_cursor s row 1)
        | none =>
          match stoi [] with
          | .error e => .error e
          | .ok row => .ok (set_cursor s row 1)
      else .ok (set_cursor s 1 1)
    else if final_byte = 74 then
      match csi_param params with
      | .error e => .error e
      | .ok p => if p = 2 then clear_screen s else .ok s
    else if final_byte = 75 then
      match csi_param params with
      | .error e => .error e
      | .ok p =>
        if p = 0 then clear_line_from s s.cursor_y s.cursor_x
        else if p = 2 then clear_line_from s s.cursor_y 0
        else .ok s
    else .ok s

/-- Source function `process_byte_ansi`. -/
def process_byte_ansi (s : Term) (ch : Nat) : Except Fault Term :=
  match s.pstate with
  | .PS_NORMAL =>
    if ch = 27 then .ok { s with pstate := .PS_ESC }
    else put_char_local s ch
  | .PS_ESC =>
    if ch = 91 then .ok { s with pstate := .PS_CSI, esc_buf := [] }
    else if ch = 93 then .ok { s with pstate := .PS_OSC, osc_buf := [] }
    else .ok { s with pstate := .PS_NORMAL }
  | .PS_CSI =>
    let s1 := { s with esc_buf := s.esc_buf ++ [ch] }
    if ch ≥ 64 ∧ ch ≤ 126 then
      match handle_csi_sequence s1 s1.esc_buf with
      | .error e => .error e
      | .ok s2 => .ok { s2 with esc_buf := [], pstate := .PS_NORMAL }
    else .ok s1
  | .PS_OSC =>
    if ch = 7 then .ok { s with pstate := .PS_NORMAL, osc_buf := [] }
    else if ch = 92 then .ok { s with pstate := .PS_NORMAL, osc_buf := [] }
    else .ok { s with osc_buf := s.osc_buf ++ [ch] }

/-- A loop `for(char c : bytes) process_byte_ansi(c);`. -/
def feed : Term → List Nat → Except Fault Term
  | s, [] => .ok s
  | s, c :: cs =>
    match process_byte_ansi s c with
    | .error e => .error e
    | .ok s1 => feed s1 cs

/-! ## Input router and AI exchange state -/

/-- The bytes of an ASCII string literal of the source. -/
def bytes (lit : String) : List Nat := lit.toList.map Char.toNat

/-- The globals of the input router and of the AI exchange, around the screen.
`pty_out` records the buffers handed to `write(master_fd, ...)`, oldest first;
`llm_calls` records the arguments of the calls of `run_llm_async`, oldest
first; `should_close` is the flag set by `glfwSetWindowShouldClose`. -/
structure World where
  term : Term
  master_fd : Int
  pty_out : List (List Nat)
  shell_buffer : List Nat
  ai_result : List Nat
  ai_ready : Bool
  pending_ai_cmd : List Nat
  awaiting_confirm : Bool
  input_blocked : Bool
  llm_calls : List (List Nat)
  should_close : Bool
deriving DecidableEq, Repr

/-- The constant `GLFW_PRESS` of GLFW/glfw3.h. -/
def GLFW_PRESS : Int := 1
/-- The constant `GLFW_REPEAT` of GLFW/glfw3.h. -/
def GLFW_REPEAT : Int := 2
/-- The constant `GLFW_KEY_Y` of GLFW/glfw3.h. -/
def GLFW_KEY_Y : Int := 89
/-- The constant `GLFW_KEY_N` of GLFW/glfw3.h. -/
def GLFW_KEY_N : Int := 78
/-- The constant `GLFW_KEY_C` of GLFW/glfw3.h. -/
def GLFW_KEY_C : Int := 67
/-- The constant `GLFW_KEY_D` of GLFW/glfw3.h. -/
def GLFW_KEY_D : Int := 68
/-- The constant `GLFW_KEY_ESCAPE` of GLFW/glfw3.h. -/
def GLFW_KEY_ESCAPE : Int := 256
/-- The constant `GLFW_KEY_ENTER` of GLFW/glfw3.h. -/
def GLFW_KEY_ENTER : Int := 257
/-- The constant `GLFW_KEY_TAB` of GLFW/glfw3.h. -/
def GLFW_KEY_TAB : Int := 258
/-- The constant `GLFW_KEY_BACKSPACE` of GLFW/glfw3.h. -/
def GLFW_KEY_BACKSPACE : Int := 259
/-- The constant `GLFW_MOD_SHIFT` of GLFW/glfw3.h. -/
def GLFW_MOD_SHIFT : Nat := 1
/-- The constant `GLFW_MOD_CONTROL` of GLFW/glfw3.h. -/
def GLFW_MOD_CONTROL : Nat := 2

/-- The test `mods & flag` on the modifier bit field. -/
def has_mod (mods flag : Nat) : Bool := Nat.land mods flag != 0

/-- Runs a screen operation on the `term` component. -/
def on_term (w : World) (f : Term → Except Fault Term) : Except Fault World :=
  match f w.term with
  | .error e => .error e
  | .ok t => .ok { w with term := t }

/-- The echo idiom `for(char c : str) process_byte_ansi(c); process_byte_ansi('\n');`. -/
def echo_line (w : World) (str : List Nat) : Except Fault World :=
  on_term w (fun t => feed t (str ++ [10]))

/-- Source function `send_key_to_pty`; a `write` on the open descriptor is recorded in
`pty_out`. -/
def send_key_to_pty (w : World) (str : List Nat) : World :=
  if w.master_fd < 0 then w else { w with pty_out := w.pty_out ++ [str] }

/-- Library function `std::string::find_first_not_of(c)`: `none` stands for `npos`. -/
def find_first_not_of : List Nat → Nat → Option Nat
  | [], _ => none
  | a :: t, c => if a = c then (find_first_not_of t c).map (fun i => i + 1) else some 0

/-- The worker's loop `while(!out.empty() && (out.back()=='\n' || ...)) out.pop_back();`. -/
def trim_trailing (out : List Nat) : List Nat :=
  out.rdropWhile (fun c => c = 10 ∨ c = 13 ∨ c = 32 ∨ c = 9)

/-- The worker's loop `while(std::getline(ss, cmdline)){ if(!cmdline.empty()) break; }`:
the value of `cmdline` after it.  The first argument bounds the number of lines read. -/
def first_line : Nat → List Nat → List Nat
  | 0, _ => []
  | n + 1, ss =>
    match getline ss 10 with
    | none => []
    | some (line, rest) => if line ≠ [] then line else first_line n rest

/-- The candidate the worker of `run_llm_async` derives from its local `out`, the string
returned by `run_llm_blocking`. -/
def candidate (out : List Nat) : List Nat :=
  let out := trim_trailing out
  let cmdline := first_line (out.length + 1) out
  if cmdline = [] then out else cmdline

/-- The end of the worker thread of `run_llm_async`, `run_llm_blocking` having returned
the string `out` (what it has captured of the backend output, see `run_llm_blocking`): under
the lock, `ai_result = cmdline; ai_ready = true;`. -/
def worker_finish (w : World) (out : List Nat) : World :=
  { w with ai_result := candidate out, ai_ready := true }

/-- Source function `run_llm_async(input_line)` as seen by the caller: a worker is started. -/
def run_llm_async (w : World) (input_line : List Nat) : World :=
  { w with llm_calls := w.llm_calls ++ [input_line] }

/-- Source function `append_to_shell_buffer`. -/
def append_to_shell_buffer (w : World) (ch : Nat) : Except Fault World :=
  on_term { w with shell_buffer := w.shell_buffer ++ [ch] } (fun t => put_char_local t ch)

/-- Source function `shell_backspace`. -/
def shell_backspace (w : World) : Except Fault World :=
  if w.shell_buffer ≠ [] then
    let w1 := { w with shell_buffer := w.shell_buffer.dropLast }
    if w1.term.cursor_x > 0 then
      on_term w1 (fun t =>
        put_cell { t with cursor_x := t.cursor_x - 1 } t.cursor_y (t.cursor_x - 1) 32)
    else .ok w1
  else .ok w

/-- The loop `for(int c=0;c<COLS;++c) termBuf[cursor_y][c] = ' ';`, `n` cells to go from column `c`. -/
def blank_chars : Nat → Int → Term → Except Fault Term
  | 0, _, t => .ok t
  | n + 1, c, t =>
    match write_at t.termBuf t.cursor_y c 32 with
    | .error e => .error e
    | .ok tb => blank_chars n (c + 1) { t with termBuf := tb }

/-- Source function `clear_input_line_visual_and_buffer`. -/
def clear_input_line_visual_and_buffer (w : World) : Except Fault World :=
  match on_term w (fun t => blank_chars t.COLS.toNat 0 t) with
  | .error e => .error e
  | .ok w1 => .ok { w1 with term := { w1.term with cursor_x := 0 }, shell_buffer := [] }

/-- Source function `char_callback(window, codepoint)`. -/
def char_callback (w : World) (codepoint : Nat) : Except Fault World :=
  if w.input_blocked then .ok w
  else if codepoint < 128 then
    if codepoint = 13 ∨ codepoint = 10 then .ok w
    else if codepoint = 127 then shell_backspace w
    else append_to_shell_buffer w codepoint
  else append_to_shell_buffer w 63

/-- The local `current_line` of branch 2 of `key_callback`: the edit buffer from its
first byte that is not a space on; the buffer itself when `find_first_not_of` returns
`npos`. -/
def current_line (shell_buffer : List Nat) : List Nat :=
  match find_first_not_of shell_buffer 32 with
  | some p => shell_buffer.drop p
  | none => shell_buffer

/-- Branch 1 of `key_callback` for the key `Y`, inside `if (!pending_ai_cmd.empty())`. -/
def confirm_yes (w : World) : Except Fault World :=
  let w1 := send_key_to_pty w (w.pending_ai_cmd ++ [10])
  match clear_input_line_visual_and_buffer w1 with
  | .error e => .error e
  | .ok w2 =>
    match echo_line w2 w2.pending_ai_cmd with
    | .error e => .error e
    | .ok w3 => echo_line w3 (bytes "[AI executed] " ++ w3.pending_ai_cmd)

/-- Branch 1 of `key_callback` for the key `N`. -/
def confirm_no (w : World) : Except Fault World :=
  match echo_line w (bytes "[AI cancelled]") with
  | .error e => .error e
  | .ok w1 =>
    let w2 := send_key_to_pty w1 [3]
    echo_line w2 (bytes "^C")

/-- Source function `key_callback(window, key, scancode, action, mods)`. -/
def key_callback (w : World) (key action : Int) (mods : Nat) : Except Fault World :=
  if ¬ (action = GLFW_PRESS ∨ action = GLFW_REPEAT) then .ok w
  else if w.awaiting_confirm then
    if key = GLFW_KEY_Y ∨ key = GLFW_KEY_N then
      let resolved : Except Fault World :=
        if key = GLFW_KEY_Y then
          if w.pending_ai_cmd ≠ [] then confirm_yes w else .ok w
        else confirm_no w
      match resolved with
      | .error e => .error e
      | .ok w1 =>
        .ok { w1 with pending_ai_cmd := [], awaiting_confirm := false, input_blocked := false }
    else .ok w
  else if key = GLFW_KEY_ENTER ∧ has_mod mods GLFW_MOD_SHIFT then
    if current_line w.shell_buffer = [] then
      echo_line w (bytes "[AI] Nothing to send (empty line).")
    else
      let w1 := { w with input_blocked := true, ai_ready := false }
      let w2 := run_llm_async w1 (current_line w.shell_buffer)
      echo_line w2 (bytes "[AI] Thinking...")
  else if key = GLFW_KEY_ENTER then
    if w.shell_buffer ≠ [] then
      let w1 := send_key_to_pty w (w.shell_buffer ++ [10])
      match echo_line w1 [] with
      | .error e => .error e
      | .ok w2 => .ok { w2 with shell_buffer := [], term := { w2.term with cursor_x := 0 } }
    else
      let w1 := send_key_to_pty w [10]
      echo_line w1 []
  else if key = GLFW_KEY_BACKSPACE then shell_backspace w
  else if key = GLFW_KEY_C ∧ has_mod mods GLFW_MOD_CONTROL then .ok (send_key_to_pty w [3])
  else if key = GLFW_KEY_D ∧ has_mod mods GLFW_MOD_CONTROL then .ok (send_key_to_pty w [4])
  else if key = GLFW_KEY_TAB then append_to_shell_buffer w 9
  else if key = GLFW_KEY_ESCAPE then .ok { w with should_close := true }
  else .ok w

/-- The block of the loop of `main` under `if AI result ready`: the result of the
worker is picked up. -/
def main_ai_pickup (w : World) : Except Fault World :=
  if w.ai_ready then
    let shown : Except Fault World :=
      if w.ai_result ≠ [] then
        let w1 := { w with input_blocked := true, pending_ai_cmd := w.ai_result,
                           awaiting_confirm := true }
        match echo_line w1 (bytes "[AI suggestion] " ++ w1.ai_result) with
        | .error e => .error e
        | .ok w2 => echo_line w2 (bytes "Execute? (y/n)")
      else .ok w
    match shown with
    | .error e => .error e
    | .ok w3 => .ok { w3 with ai_ready := false, ai_result := [] }
  else .ok w

/-! ## Specification vocabulary -/

/-- A grid has exactly `R` rows of exactly `C` cells. -/
def Dims {α : Type} (R C : Nat) (buf : List (List α)) : Prop :=
  buf.length = R ∧ ∀ row ∈ buf, row.length = C

/-- Both grids have exactly `ROWS` rows of exactly `COLS` cells (and the grid is not empty). -/
def GridOK (s : Term) : Prop :=
  0 < s.COLS ∧ 0 < s.ROWS ∧ Dims s.ROWS.toNat s.COLS.toNat s.termBuf ∧
    Dims s.ROWS.toNat s.COLS.toNat s.termColor

/-- The cursor invariant `0 ≤ x < COLS`, `0 ≤ y < ROWS`. -/
def CursorOK (s : Term) : Prop :=
  0 ≤ s.cursor_x ∧ s.cursor_x < s.COLS ∧ 0 ≤ s.cursor_y ∧ s.cursor_y < s.ROWS

/-- The content of cell `(r, c)` of a grid, when there is such a cell. -/
def cell {α : Type} (buf : List (List α)) (r c : Nat) : Option α :=
  (buf[r]?).bind (fun row => row[c]?)

/-- The grid `buf` after `buf[y][x] = v`. -/
def grid_set {α : Type} (buf : List (List α)) (y x : Nat) (v : α) : List (List α) :=
  buf.set y ((buf.getD y []).set x v)

/-- The grid `buf` after the values `vs` have been stored in row `y` from column `x` on,
one `buf[y][x] = v` after the other. -/
def grid_write {α : Type} (buf : List (List α)) (y x : Nat) : List α → List (List α)
  | [] => buf
  | v :: vs => grid_write (grid_set buf y x v) y (x + 1) vs

/-- A line followed by blanks up to `C` columns. -/
def pad_line (C : Nat) (l : List Nat) : List Nat :=
  l ++ List.replicate (C - l.length) 32

/-- Lines joined by `'\n'`. -/
def join_lines (lines : List (List Nat)) : List Nat :=
  [10].intercalate lines

/-! ## Decimal notation -/

/-- The decimal digits of `n` (as bytes) in front of `acc`; the first argument bounds
the number of digits. -/
def nat_decimal_aux : Nat → Nat → List Nat → List Nat
  | 0, _, acc => acc
  | fuel + 1, n, acc =>
    if n < 10 then (48 + n) :: acc
    else nat_decimal_aux fuel (n / 10) ((48 + n % 10) :: acc)

/-- The natural number `n` written in decimal, without leading zeros. -/
def nat_decimal (n : Nat) : List Nat := nat_decimal_aux (n + 1) n []

/-- The integer `z` written in decimal, with a leading `-` when it is negative. -/
def int_decimal (z : Int) : List Nat :=
  if z < 0 then 45 :: nat_decimal z.natAbs else nat_decimal z.natAbs

/-! ## Concrete states used as instances -/

/-- A blank 80x24 screen (every cell a white space) with the cursor at `(x, y)`,
white on black, the parser in `Normal`. -/
def screen80x24 (x y : Int) : Term :=
  { COLS := 80, ROWS := 24
    termBuf := List.replicate 24 (List.replicate 80 32)
    termColor := List.replicate 24 (List.replicate 80 white)
    cursor_x := x, cursor_y := y
    cur_fg := white, cur_bg := black
    pstate := .PS_NORMAL, esc_buf := [], osc_buf := [] }

/-- The 25 one-letter lines `A`, `B`, ..., `Y`. -/
def lines25 : List (List Nat) := (List.range 25).map (fun i => [65 + i])

/-- A router at rest around a blank 80x24 screen: the pty is open, nothing typed,
no AI exchange under way. -/
def world0 : World :=
  { term := screen80x24 0 0, master_fd := 3, pty_out := [], shell_buffer := [],
    ai_result := [], ai_ready := false, pending_ai_cmd := [], awaiting_confirm := false,
    input_blocked := false, llm_calls := [], should_close := false }

/-- A router awaiting confirmation of the pending command `ls -la`, suggested for the
request `list files`. -/
def world_confirm_ls : World :=
  { world0 with pending_ai_cmd := bytes "ls -la", awaiting_confirm := true,
                input_blocked := true, llm_calls := [bytes "list files"] }

/-- The state a run ends in; `d` when it ends in a fault. -/
def final_state (r : Except Fault World) (d : World) : World :=
  match r with
  | .ok w => w
  | .error _ => d

/-- Sequencing of two steps of a run, a fault ending the run. -/
def and_then (r : Except Fault World) (f : World → Except Fault World) : Except Fault World :=
  match r with
  | .error e => .error e
  | .ok w => f w

/-- The run: `l` and `s` are typed, then Shift+Enter is pressed (the request `ls` is
dispatched). -/
def run_dispatch : Except Fault World :=
  and_then (and_then (char_callback world0 108) (fun w => char_callback w 115))
    (fun w => key_callback w GLFW_KEY_ENTER GLFW_PRESS GLFW_MOD_SHIFT)

/-- The run `run_dispatch` continued: `run_llm_blocking` returns the empty string (the
backend has printed nothing), the worker stores its (empty) candidate, and the main loop
picks the result up. -/
def run_empty_candidate : Except Fault World :=
  and_then run_dispatch (fun w => main_ai_pickup (worker_finish w []))

/-- The run `run_dispatch` continued: Shift+Enter is pressed a second time before any
result has arrived. -/
def run_second_dispatch : Except Fault World :=
  and_then run_dispatch (fun w => key_callback w GLFW_KEY_ENTER GLFW_PRESS GLFW_MOD_SHIFT)

/-- A router awaiting confirmation of the pending command made of the four bytes
`ESC [ ; H`. -/
def world_confirm_esc : World :=
  { world0 with pending_ai_cmd := [27, 91, 59, 72], awaiting_confirm := true,
                input_blocked := true }

/-- The state `s` with every cell a white space and the cursor at the origin, all other
variables as in `s`. -/
def cleared (s : Term) : Term :=
  { s with
    termBuf := List.replicate s.ROWS.toNat (List.replicate s.COLS.toNat 32)
    termColor := List.replicate s.ROWS.toNat (List.replicate s.COLS.toNat white)
    cursor_x := 0, cursor_y := 0 }

/-! ## Capture of the backend output -/

/-- Library function `fgets(buf, size, p)` on the unread part `stream` of the pipe: it
fails at end of file; otherwise it stores the bytes up to and including the first `'\n'`,
at most `size - 1` of them, and leaves what follows unread.  A NUL byte of the stream is
stored like any other byte. -/
def fgets (size : Nat) (stream : List Nat) : Option (List Nat × List Nat) :=
  match stream with
  | [] => none
  | _ :: _ =>
    let window := stream.take (size - 1)
    let line := window.takeWhile (fun c => c != 10)
    let n := if line.length < window.length then line.length + 1 else window.length
    some (stream.take n, stream.drop n)

/-- The C string held by the buffer that `fgets` has filled: the bytes before the first
NUL.  This is what `out += buf` appends. -/
def c_str (buf : List Nat) : List Nat :=
  buf.takeWhile (fun c => c != 0)

/-- The loop `while(fgets(buf, sizeof(buf), p)){ out += buf; }` of `run_llm_blocking`,
with `sizeof(buf)` = 4096; the third argument is `out`.  The first argument bounds the
number of reads (each read takes at least one byte from the pipe). -/
def read_pipe : Nat → List Nat → List Nat → List Nat
  | 0, _, out => out
  | n + 1, stream, out =>
    match fgets 4096 stream with
    | none => out
    | some (buf, rest) => read_pipe n rest (out ++ c_str buf)

/-- Source function `run_llm_blocking`, as a function of what `popen(cmd, "r")` gives:
`none` when `popen` fails, `some printed` when the command runs and the backend prints
`printed` on its standard output. -/
def run_llm_blocking (pipe : Option (List Nat)) : List Nat :=
  match pipe with
  | none => bytes "[AI error: popen failed]"
  | some printed => read_pipe (printed.length + 1) printed []

/-- The worker thread of `run_llm_async` from its call of `run_llm_blocking` on. -/
def worker_thread (w : World) (pipe : Option (List Nat)) : World :=
  worker_finish w (run_llm_blocking pipe)

/-! ## Claim vocabulary for the worker's candidate -/

/-- The output `o` with its trailing `'\n'`, `'\r'`, space and tab characters removed
(the words of the claim, not the loop of the source). -/
def trimmed_output (o : List Nat) : List Nat :=
  (o.reverse.dropWhile (fun c => c = 10 ∨ c = 13 ∨ c = 32 ∨ c = 9)).reverse

/-- The candidate in the words of the claim: the first line of length greater than 0 of
the trimmed output, the lines being split at `'\n'`; the whole trimmed output when there
is no such line. -/
def candidate_spec (o : List Nat) : List Nat :=
  match ((trimmed_output o).splitOn 10).find? (fun l => decide (0 < l.length)) with
  | some l => l
  | none => trimmed_output o

/-! ## Further runs used as instances -/

/-- The run: two spaces are typed, then Shift+Enter is pressed. -/
def run_spaces_dispatch : Except Fault World :=
  and_then (and_then (char_callback world0 32) (fun w => char_callback w 32))
    (fun w => key_callback w GLFW_KEY_ENTER GLFW_PRESS GLFW_MOD_SHIFT)

/-- The run `run_dispatch` continued by a Backspace key while the request is in flight. -/
def run_backspace_in_flight : Except Fault World :=
  and_then run_dispatch (fun w => key_callback w GLFW_KEY_BACKSPACE GLFW_PRESS 0)

/-- The run `run_dispatch` continued by a Tab key while the request is in flight. -/
def run_tab_in_flight : Except Fault World :=
  and_then run_dispatch (fun w => key_callback w GLFW_KEY_TAB GLFW_PRESS 0)

/-- The run: `l` and `s` are typed and the shell output read so far ends with the two
bytes `ESC ]` (an OSC sequence has been opened and not yet closed). -/
def run_typed_osc_open : Except Fault World :=
  and_then (and_then (char_callback world0 108) (fun w => char_callback w 115))
    (fun w => on_term w (fun t => feed t [27, 93]))

/-- The run `run_typed_osc_open` continued by a plain Enter key. -/
def run_enter_osc_open : Except Fault World :=
  and_then run_typed_osc_open (fun w => key_callback w GLFW_KEY_ENTER GLFW_PRESS 0)

/-! ## Claim vocabulary for the SGR parameters -/

/-- The parameter string of a list of codes: their decimal notations, separated by `;`. -/
def sgr_params : List Int → List Nat
  | [] => []
  | [c] => int_decimal c
  | c :: c1 :: cs => int_decimal c ++ 59 :: sgr_params (c1 :: cs)

/-- The effect of one code on the pair (foreground, background), in the words of the
claim; the palette is the table of `ansi_basic_color`. -/
def sgr_step_spec (p : Color × Color) (code : Int) : Color × Color :=
  if code = 0 then (white, black)
  else if 30 ≤ code ∧ code ≤ 37 then (ansi_map.getD (code - 30).toNat black, p.2)
  else if 40 ≤ code ∧ code ≤ 47 then (p.1, ansi_map.getD (code - 40).toNat black)
  else if code = 39 then (white, p.2)
  else if code = 49 then (p.1, black)
  else p

/-- The left-to-right fold of `sgr_step_spec` over the codes, an empty list acting as the
single code 0. -/
def sgr_fold_spec (p : Color × Color) (codes : List Int) : Color × Color :=
  (if codes = [] then [0] else codes).foldl sgr_step_spec p

/-! ## Claim vocabulary for the cell contents -/

/-- Every cell of the grid `buf` holds a value satisfying `P`. -/
def CellsAll (P : Nat → Prop) (buf : List (List Nat)) : Prop :=
  ∀ r c v, cell buf r c = some v → P v

/-- Every cell of the character grid holds a byte in `FIRST_CHAR .. LAST_CHAR` (32..126). -/
def CharsOK (s : Term) : Prop :=
  CellsAll (fun v => FIRST_CHAR ≤ v ∧ v ≤ LAST_CHAR) s.termBuf

/-- The state `t` has the dimensions of `s`, both its grids have `ROWS` rows of `COLS`
cells, and every cell of its character grid satisfies `P`. -/
def Keeps (P : Nat → Prop) (s t : Term) : Prop :=
  t.COLS = s.COLS ∧ t.ROWS = s.ROWS ∧ GridOK t ∧ CellsAll P t.termBuf

/-! ## Shell quoting of the prompt -/

/-- Source function `shell_escape_single_quotes`: the loop appends the four bytes `'\''`
for a single quote (39) and the byte itself otherwise. -/
def shell_escape_single_quotes (s : List Nat) : List Nat :=
  s.foldl (fun (out : List Nat) (c : Nat) =>
    if c = 39 then out ++ [39, 92, 39, 39] else out ++ [c]) []

/-- The command line built by `run_llm_blocking` for `popen`. -/
def llm_command (prompt : List Nat) : List Nat :=
  bytes "echo " ++ [39] ++ shell_escape_single_quotes prompt ++ [39]
    ++ bytes " | ollama run qwen2.5:7b 2>/dev/null"

/-- The escaping in the words of the claim: each single quote is replaced by the four
characters `'\''` and every other character is copied. -/
def replace_quotes : List Nat → List Nat
  | [] => []
  | c :: t => (if c = 39 then [39, 92, 39, 39] else [c]) ++ replace_quotes t

/-- Where the reader of a shell word stands: outside quotes, between single quotes, or
just after a backslash outside quotes. -/
inductive QuoteState where
  | outside
  | inside
  | escaped
deriving DecidableEq, Repr

/-- Reading a text under the single-quote rules named by the claim: a single quote opens
and closes a quoted stretch, everything between single quotes is literal, and a
backslash followed by a single quote outside quotes is a literal single quote.  The
result is `none` for a text these rules do not cover (an unclosed quote, any other
character outside quotes). -/
def sh_unquote : QuoteState → List Nat → Option (List Nat)
  | .outside, [] => some []
  | .outside, c :: t =>
    if c = 39 then sh_unquote .inside t
    else if c = 92 then sh_unquote .escaped t
    else none
  | .inside, [] => none
  | .inside, c :: t =>
    if c = 39 then sh_unquote .outside t
    else (sh_unquote .inside t).map (fun r => c :: r)
  | .escaped, [] => none
  | .escaped, c :: t =>
    if c = 39 then (sh_unquote .outside t).map (fun r => 39 :: r)
    else none

/-! ## Runs of the router -/

/-- What can happen to the router between two frames: GLFW delivers a character or a key
event to the callbacks, a worker thread of `run_llm_async` finishes, `run_llm_blocking`
having returned `out`, or the loop of `main` reaches its result pickup. -/
inductive RouterEvent where
  | char_event (codepoint : Nat)
  | key_event (key action : Int) (mods : Nat)
  | worker_done (out : List Nat)
  | pickup
deriving DecidableEq, Repr

/-- The effect of one event. -/
def router_step (w : World) : RouterEvent → Except Fault World
  | .char_event codepoint => char_callback w codepoint
  | .key_event key action mods => key_callback w key action mods
  | .worker_done out => .ok (worker_finish w out)
  | .pickup => main_ai_pickup w

/-- The effect of a sequence of events, oldest first; a fault ends the run. -/
def router_run : World → List RouterEvent → Except Fault World
  | w, [] => .ok w
  | w, e :: es =>
    match router_step w e with
    | .error f => .error f
    | .ok w1 => router_run w1 es

/-- The confirmation-state invariant: `awaiting_confirm` implies a non-empty
`pending_ai_cmd` and `input_blocked`. -/
def ConfirmOK (w : World) : Prop :=
  w.awaiting_confirm = true → w.pending_ai_cmd ≠ [] ∧ w.input_blocked = true

/-- The events of one exchange: `l`, `s`, Shift+Enter, the worker finishing with `ls -la`
and a line feed returned by `run_llm_blocking`, and the result pickup. -/
def events_suggestion : List RouterEvent :=
  [.char_event 108, .char_event 115, .key_event GLFW_KEY_ENTER GLFW_PRESS GLFW_MOD_SHIFT,
   .worker_done (bytes "ls -la\n"), .pickup]

/-! ## Lemmas on the container primitives -/

theorem Dims.row_length {α : Type} {R C : Nat} {buf : List (List α)} (h : Dims R C buf)
    {y : Nat} (hy : y < R) : (buf.getD y []).length = C := by
  obtain ⟨hl, hr⟩ := h
  have hy2 : y < buf.length := by omega
  rw [List.getD_eq_getElem _ _ hy2]
  exact hr _ (List.getElem_mem hy2)

theorem Dims.grid_set {α : Type} {R C : Nat} {buf : List (List α)} (h : Dims R C buf)
    (y x : Nat) (v : α) (hy : y < R) : Dims R C (grid_set buf y x v) := by
  have hrow := h.row_length hy
  obtain ⟨hl, hr⟩ := h
  refine ⟨by simp [CerebroShell.grid_set, hl], ?_⟩
  intro row hrow2
  rcases List.mem_or_eq_of_mem_set hrow2 with h1 | h1
  · exact hr _ h1
  · subst h1; simpa using hrow

theorem write_at_ok {α : Type} {R C : Nat} {buf : List (List α)} (h : Dims R C buf)
    (y x : Nat) (v : α) (hy : y < R) (hx : x < C) :
    write_at buf (y : Int) (x : Int) v = .ok (grid_set buf y x v) := by
  have hrow := h.row_length hy
  have hy2 : y < buf.length := by rw [h.1]; exact hy
  rw [List.getD_eq_getElem _ _ hy2] at hrow
  simp [write_at, grid_set, List.getElem?_eq_getElem hy2, List.getD_eq_getElem _ _ hy2, hrow, hx]

theorem cell_grid_set {α : Type} {R C : Nat} {buf : List (List α)} (h : Dims R C buf)
    (y x : Nat) (v : α) (hy : y < R) (hx : x < C) (r c : Nat) :
    cell (grid_set buf y x v) r c = if r = y ∧ c = x then some v else cell buf r c := by
  have hrow := h.row_length hy
  have hy2 : y < buf.length := by rw [h.1]; exact hy
  rw [List.getD_eq_getElem _ _ hy2] at hrow
  unfold cell CerebroShell.grid_set
  rw [List.getD_eq_getElem _ _ hy2]
  by_cases hr : r = y
  · subst hr
    simp only [List.getElem?_set_self hy2, Option.some_bind, true_and]
    by_cases hc : c = x
    · subst hc; simp [List.getElem?_set_self, hrow, hx]
    · simp [List.getElem?_set_ne (Ne.symm hc), hc, List.getElem?_eq_getElem hy2]
  · simp [List.getElem?_set_ne (Ne.symm hr), hr]

/-! ## Lemmas on the screen helpers -/

theorem put_cell_ok (s : Term) (y x : Nat) (ch : Nat) (hG : GridOK s)
    (hy : (y : Int) < s.ROWS) (hx : (x : Int) < s.COLS) :
    put_cell s y x ch = .ok { s with termBuf := grid_set s.termBuf y x ch,
                                     termColor := grid_set s.termColor y x s.cur_fg } := by
  obtain ⟨_, _, hb, hc⟩ := hG
  unfold put_cell
  rw [write_at_ok hb y x ch (by omega) (by omega), write_at_ok hc y x s.cur_fg (by omega) (by omega)]

theorem GridOK.put {s : Term} (hG : GridOK s) (y x : Nat) (ch : Nat) (fg : Color)
    (hy : (y : Int) < s.ROWS) :
    GridOK { s with termBuf := grid_set s.termBuf y x ch,
                    termColor := grid_set s.termColor y x fg } := by
  obtain ⟨h1, h2, hb, hc⟩ := hG
  exact ⟨h1, h2, hb.grid_set y x ch (by omega), hc.grid_set y x fg (by omega)⟩

theorem GridOK.congr {s t : Term} (h : GridOK s) (h1 : t.COLS = s.COLS) (h2 : t.ROWS = s.ROWS)
    (h3 : t.termBuf = s.termBuf) (h4 : t.termColor = s.termColor) : GridOK t := by
  unfold GridOK at *
  rw [h1, h2, h3, h4]
  exact h

/-- The tab loop, started at column `x` with exactly `tab_to - x` iterations allowed,
blanks the cells from `x` up to `min tab_to COLS` and leaves the cursor there. -/
theorem tab_loop_spec (tab_to : Int) (n : Nat) :
    ∀ (s : Term) (x y : Nat), GridOK s → s.cursor_x = x → s.cursor_y = y →
      (y : Int) < s.ROWS → (x : Int) ≤ s.COLS → (x : Int) + n = tab_to →
      ∃ tb tc, tab_loop tab_to n s
          = .ok { s with termBuf := tb, termColor := tc, cursor_x := min tab_to s.COLS } ∧
        Dims s.ROWS.toNat s.COLS.toNat tb ∧ Dims s.ROWS.toNat s.COLS.toNat tc ∧
        (∀ r c, cell tb r c
          = if r = y ∧ x ≤ c ∧ (c : Int) < tab_to ∧ (c : Int) < s.COLS then some 32
            else cell s.termBuf r c) ∧
        (∀ r c, cell tc r c
          = if r = y ∧ x ≤ c ∧ (c : Int) < tab_to ∧ (c : Int) < s.COLS then some s.cur_fg
            else cell s.termColor r c) := by
  induction n with
  | zero =>
    intro s x y hG hx hy _ hxC hn
    refine ⟨s.termBuf, s.termColor, ?_, hG.2.2.1, hG.2.2.2, ?_, ?_⟩
    · have : min tab_to s.COLS = s.cursor_x := by omega
      simp [tab_loop, this]
    · intro r c
      split_ifs <;> first | rfl | (exfalso; omega)
    · intro r c
      split_ifs <;> first | rfl | (exfalso; omega)
  | succ n ih =>
    intro s x y hG hx hy hyR hxC hn
    by_cases hlt : (x : Int) < s.COLS
    · have hcond : s.cursor_x < tab_to ∧ s.cursor_x < s.COLS := by omega
      have hput := put_cell_ok s y x 32 hG hyR hlt
      obtain ⟨tb, tc, hrun, hdb, hdc, hcb, hcc⟩ :=
        ih { s with termBuf := grid_set s.termBuf y x 32,
                    termColor := grid_set s.termColor y x s.cur_fg,
                    cursor_x := s.cursor_x + 1 } (x + 1) y
          (hG.put y x 32 s.cur_fg hyR) (by simp [hx]) (by simpa using hy) (by simpa using hyR)
          (by simp; omega) (by push_cast; omega)
      refine ⟨tb, tc, ?_, hdb, hdc, ?_, ?_⟩
      · rw [tab_loop, if_pos hcond, hy, hx, hput]
        simpa [hx, hy] using hrun
      · intro r c
        rw [hcb r c]
        simp only []
        rw [cell_grid_set hG.2.2.1 y x 32 (by omega) (by omega)]
        split_ifs <;> first | rfl | (exfalso; omega)
      · intro r c
        rw [hcc r c]
        simp only []
        rw [cell_grid_set hG.2.2.2 y x s.cur_fg (by omega) (by omega)]
        split_ifs <;> first | rfl | (exfalso; omega)
    · have hcond : ¬ (s.cursor_x < tab_to ∧ s.cursor_x < s.COLS) := by omega
      refine ⟨s.termBuf, s.termColor, ?_, hG.2.2.1, hG.2.2.2, ?_, ?_⟩
      · have : min tab_to s.COLS = s.cursor_x := by omega
        simp [tab_loop, hcond, this]
      · intro r c
        split_ifs <;> first | rfl | (exfalso; omega)
      · intro r c
        split_ifs <;> first | rfl | (exfalso; omega)

theorem dims_replicate {α : Type} (R C : Nat) (v : α) :
    Dims R C (List.replicate R (List.replicate C v)) := by
  refine ⟨by simp, ?_⟩
  intro row hrow
  rw [List.eq_of_mem_replicate hrow]
  simp

theorem screen80x24_gridOK (x y : Int) : GridOK (screen80x24 x y) :=
  ⟨by simp [screen80x24], by simp [screen80x24], dims_replicate 24 80 32,
    dims_replicate 24 80 white⟩

/-- The loop of `clear_line_from`, run for `n` cells from column `c` of row `y` inside
the grid, blanks exactly these cells. -/
theorem clear_cells_spec (n : Nat) :
    ∀ (s : Term) (y c : Nat), GridOK s → (y : Int) < s.ROWS → (c : Int) + n ≤ s.COLS →
      ∃ tb tc, clear_cells n y c s = .ok { s with termBuf := tb, termColor := tc } ∧
        Dims s.ROWS.toNat s.COLS.toNat tb ∧ Dims s.ROWS.toNat s.COLS.toNat tc ∧
        (∀ r k, cell tb r k
          = if r = y ∧ c ≤ k ∧ k < c + n then some 32 else cell s.termBuf r k) ∧
        (∀ r k, cell tc r k
          = if r = y ∧ c ≤ k ∧ k < c + n then some s.cur_fg else cell s.termColor r k) := by
  induction n with
  | zero =>
    intro s y c hG _ _
    refine ⟨s.termBuf, s.termColor, rfl, hG.2.2.1, hG.2.2.2, ?_, ?_⟩
    · intro r k
      split_ifs <;> first | rfl | (exfalso; omega)
    · intro r k
      split_ifs <;> first | rfl | (exfalso; omega)
  | succ n ih =>
    intro s y c hG hyR hcn
    have hput := put_cell_ok s y c 32 hG hyR (by omega)
    obtain ⟨tb, tc, hrun, hdb, hdc, hcb, hcc⟩ :=
      ih { s with termBuf := grid_set s.termBuf y c 32,
                  termColor := grid_set s.termColor y c s.cur_fg } y (c + 1)
        (hG.put y c 32 s.cur_fg hyR) (by simpa using hyR) (by simp; omega)
    refine ⟨tb, tc, ?_, hdb, hdc, ?_, ?_⟩
    · rw [clear_cells, hput]
      simpa using hrun
    · intro r k
      rw [hcb r k]
      simp only []
      rw [cell_grid_set hG.2.2.1 y c 32 (by omega) (by omega)]
      split_ifs <;> first | rfl | (exfalso; omega)
    · intro r k
      rw [hcc r k]
      simp only []
      rw [cell_grid_set hG.2.2.2 y c s.cur_fg (by omega) (by omega)]
      split_ifs <;> first | rfl | (exfalso; omega)

theorem handle_csi_K (s : Term) (params : List Nat) :
    handle_csi_sequence s (params ++ [75])
      = match csi_param params with
        | .error e => .error e
        | .ok p =>
          if p = 0 then clear_line_from s s.cursor_y s.cursor_x
          else if p = 2 then clear_line_from s s.cursor_y 0
          else .ok s := by
  simp [handle_csi_sequence]

/-- A byte that `put_char_local` stores in a cell, written at `(x, y)` with room to its
right: the cell receives the byte (or `?`) in the current foreground and the cursor moves
one column to the right. -/
theorem put_char_plain (s : Term) (x y : Nat) (ch : Nat) (hG : GridOK s)
    (hx : s.cursor_x = x) (hy : s.cursor_y = y) (hx1 : (x : Int) + 1 < s.COLS)
    (hyR : (y : Int) < s.ROWS)
    (hch : ch ≠ 13 ∧ ch ≠ 10 ∧ ch ≠ 9 ∧ ch ≠ 127 ∧ ch ≠ 8) :
    put_char_local s ch
      = .ok { s with
              termBuf := grid_set s.termBuf y x
                (if ch < FIRST_CHAR ∨ ch > LAST_CHAR then 63 else ch)
              termColor := grid_set s.termColor y x s.cur_fg
              cursor_x := (x : Int) + 1 } := by
  obtain ⟨h13, h10, h9, h127, h8⟩ := hch
  have hput := put_cell_ok s y x (if ch < FIRST_CHAR ∨ ch > LAST_CHAR then 63 else ch) hG hyR
    (by omega)
  unfold put_char_local
  rw [if_neg h13, if_neg h10, if_neg h9, if_neg (by omega)]
  simp only [hx, hy, hput]
  rw [if_neg (by omega)]

theorem feed_append (s : Term) (a b : List Nat) :
    feed s (a ++ b)
      = match feed s a with
        | .error e => .error e
        | .ok s1 => feed s1 b := by
  induction a generalizing s with
  | nil => simp [feed]
  | cons c cs ih =>
    simp only [List.cons_append, feed]
    cases process_byte_ansi s c with
    | error e => rfl
    | ok s1 => exact ih s1

/-- In `Normal`, the five bytes `ESC [ 3 1 m` set the current foreground to palette entry 1. -/
theorem feed_sgr_31 (s : Term) (hN : s.pstate = .PS_NORMAL) :
    feed s [27, 91, 51, 49, 109]
      = .ok { s with cur_fg := ansi_basic_color 1, esc_buf := [], pstate := .PS_NORMAL } := by
  have h1 : sgr_codes 3 [51, 49] = [31] := by decide
  simp [feed, process_byte_ansi, hN, handle_csi_sequence, h1, sgr_apply]

/-- In `Normal`, the four bytes `ESC [ 0 m` reset the current colours. -/
theorem feed_sgr_0 (s : Term) (hN : s.pstate = .PS_NORMAL) :
    feed s [27, 91, 48, 109]
      = .ok { s with cur_fg := white, cur_bg := black, esc_buf := [], pstate := .PS_NORMAL } := by
  have h1 : sgr_codes 2 [48] = [0] := by decide
  simp [feed, process_byte_ansi, hN, handle_csi_sequence, h1, sgr_apply]

theorem process_byte_plain (s : Term) (x y : Nat) (ch : Nat) (hG : GridOK s)
    (hN : s.pstate = .PS_NORMAL) (hx : s.cursor_x = x) (hy : s.cursor_y = y)
    (hx1 : (x : Int) + 1 < s.COLS) (hyR : (y : Int) < s.ROWS)
    (hch : ch ≠ 13 ∧ ch ≠ 10 ∧ ch ≠ 9 ∧ ch ≠ 127 ∧ ch ≠ 8) (hesc : ch ≠ 27) :
    process_byte_ansi s ch
      = .ok { s with
              termBuf := grid_set s.termBuf y x
                (if ch < FIRST_CHAR ∨ ch > LAST_CHAR then 63 else ch)
              termColor := grid_set s.termColor y x s.cur_fg
              cursor_x := (x : Int) + 1 } := by
  have h := put_char_plain s x y ch hG hx hy hx1 hyR hch
  obtain ⟨COLS, ROWS, tb0, tc0, cx, cy, fg, bg, ps, eb, ob⟩ := s
  dsimp only at hN
  subst hN
  simp only [process_byte_ansi, if_neg hesc]
  exact h

/-! ## Lemmas on lines and scrolling -/

theorem Dims.grid_write {α : Type} {R C : Nat} (vs : List α) :
    ∀ {buf : List (List α)} (x : Nat), Dims R C buf → ∀ (y : Nat), y < R →
      Dims R C (grid_write buf y x vs) := by
  induction vs with
  | nil => intro buf x h y _; exact h
  | cons v vs ih =>
    intro buf x h y hy
    exact ih (x + 1) (h.grid_set y x v hy) y hy

/-- Bytes in `32..126` written from `(x, y)` on, with room to spare on the row, go into
the cells one after the other. -/
theorem feed_line (l : List Nat) :
    ∀ (s : Term) (x y : Nat), GridOK s → s.pstate = .PS_NORMAL → s.cursor_x = x →
      s.cursor_y = y → (y : Int) < s.ROWS → (x : Int) + l.length < s.COLS →
      (∀ b ∈ l, 32 ≤ b ∧ b ≤ 126) →
      feed s l = .ok { s with termBuf := grid_write s.termBuf y x l,
                              termColor := grid_write s.termColor y x (l.map (fun _ => s.cur_fg)),
                              cursor_x := (x : Int) + l.length } := by
  induction l with
  | nil =>
    intro s x y _ _ hx _ _ _ _
    obtain ⟨COLS, ROWS, tb0, tc0, cx, cy, fg, bg, ps, eb, ob⟩ := s
    dsimp only at hx
    subst hx
    simp [feed, grid_write]
  | cons b l ih =>
    intro s x y hG hN hx hy hyR hxl hb
    have hb1 := hb b (by simp)
    simp only [List.length_cons] at hxl
    push_cast at hxl
    have hplain := process_byte_plain s x y b hG hN hx hy (by omega) hyR (by omega) (by omega)
    have hbb : (if b < FIRST_CHAR ∨ b > LAST_CHAR then 63 else b) = b := by
      unfold FIRST_CHAR LAST_CHAR
      rw [if_neg (by omega)]
    rw [hbb] at hplain
    have hG1 := hG.put y x b s.cur_fg hyR
    obtain ⟨COLS, ROWS, tb0, tc0, cx, cy, fg, bg, ps, eb, ob⟩ := s
    dsimp only at hN hx hy hyR hxl hplain hG1
    subst hN hx hy
    simp only [feed, hplain]
    have hstep := ih
      { COLS := COLS, ROWS := ROWS, termBuf := grid_set tb0 y x b,
        termColor := grid_set tc0 y x fg, cursor_x := (x : Int) + 1, cursor_y := y,
        cur_fg := fg, cur_bg := bg, pstate := .PS_NORMAL, esc_buf := eb, osc_buf := ob }
      (x + 1) y (hG1.congr rfl rfl rfl rfl) rfl (by simp) rfl hyR
      (by dsimp only; push_cast; omega)
      (fun c hc => hb c (List.mem_cons_of_mem _ hc))
    rw [hstep]
    simp only [grid_write, List.map_cons, List.length_cons, Except.ok.injEq, Term.mk.injEq,
      true_and, and_true]
    push_cast
    omega

/-- A line feed above the last row only moves the cursor. -/
theorem process_newline (s : Term) (hN : s.pstate = .PS_NORMAL)
    (hlt : s.cursor_y + 1 < s.ROWS) :
    process_byte_ansi s 10 = .ok { s with cursor_x := 0, cursor_y := s.cursor_y + 1 } := by
  obtain ⟨COLS, ROWS, tb0, tc0, cx, cy, fg, bg, ps, eb, ob⟩ := s
  dsimp only at hN hlt
  subst hN
  have h : ¬ (cy + 1 ≥ ROWS) := by omega
  simp [process_byte_ansi, put_char_local, next_line, h]

/-- A line feed on the last row evicts the top row of both grids and appends a fresh one. -/
theorem process_newline_scroll (s : Term) (hG : GridOK s) (hN : s.pstate = .PS_NORMAL)
    (hge : s.cursor_y + 1 ≥ s.ROWS) :
    process_byte_ansi s 10
      = .ok { s with termBuf := s.termBuf.tail ++ [List.replicate s.COLS.toNat 32],
                     termColor := s.termColor.tail ++ [List.replicate s.COLS.toNat white],
                     cursor_x := 0, cursor_y := s.ROWS - 1 } := by
  obtain ⟨COLS, ROWS, tb0, tc0, cx, cy, fg, bg, ps, eb, ob⟩ := s
  obtain ⟨hC, hR, ⟨hbl, _⟩, ⟨hcl, _⟩⟩ := hG
  dsimp only at hN hge hC hR hbl hcl
  subst hN
  cases tb0 with
  | nil => simp at hbl; omega
  | cons r0 tb1 =>
    cases tc0 with
    | nil => simp at hcl; omega
    | cons c0 tc1 =>
      simp [process_byte_ansi, put_char_local, next_line, hge, evict_top_row]

theorem grid_set_append {α : Type} (P Q : List (List α)) (row : List α) (x : Nat) (v : α) :
    grid_set (P ++ row :: Q) P.length x v = P ++ row.set x v :: Q := by
  have hget : (P ++ row :: Q).getD P.length [] = row := by
    rw [List.getD_eq_getElem?_getD, List.getElem?_append_right (le_refl _)]
    simp
  unfold grid_set
  rw [hget]
  simp

/-- Writing `l` into a row that is blank from the write position on. -/
theorem grid_write_blank (l : List Nat) :
    ∀ (P Q : List (List Nat)) (pre : List Nat) (n : Nat), l.length ≤ n →
      grid_write (P ++ (pre ++ List.replicate n 32) :: Q) P.length pre.length l
        = P ++ (pre ++ l ++ List.replicate (n - l.length) 32) :: Q := by
  induction l with
  | nil => intro P Q pre n _; simp [grid_write]
  | cons b l ih =>
    intro P Q pre n hn
    obtain ⟨m, rfl⟩ : ∃ m, n = m + 1 := ⟨n - 1, by simp at hn; omega⟩
    have hset : (pre ++ List.replicate (m + 1) 32).set pre.length b
        = (pre ++ [b]) ++ List.replicate m 32 := by
      simp [List.replicate_succ]
    simp only [grid_write, grid_set_append, hset]
    have := ih P Q (pre ++ [b]) m (by simp at hn; omega)
    simp only [List.length_append, List.length_singleton] at this
    rw [this]
    simp

theorem join_lines_single (l : List Nat) : join_lines [l] = l := by
  simp [join_lines, List.intercalate]

theorem join_lines_cons (l0 l1 : List Nat) (rest : List (List Nat)) :
    join_lines (l0 :: l1 :: rest) = l0 ++ 10 :: join_lines (l1 :: rest) := by
  simp [join_lines, List.intercalate]

theorem join_lines_concat (l0 : List Nat) (mid : List (List Nat)) (last : List Nat) :
    join_lines (l0 :: (mid ++ [last])) = join_lines (l0 :: mid) ++ 10 :: last := by
  induction mid generalizing l0 with
  | nil => simp [join_lines_cons, join_lines_single]
  | cons l1 mid ih =>
    rw [List.cons_append, join_lines_cons, ih l1, join_lines_cons]
    simp

/-- Lines written one below the other into blank rows, without reaching the bottom:
with the rows `P` above the cursor and `n + 1` blank rows from the cursor row on, feeding
at most `n + 1` lines joined by `'\n'` fills the next rows with the padded lines. -/
theorem feed_lines (rest : List (List Nat)) :
    ∀ (l0 : List Nat) (s : Term) (P : List (List Nat)) (n : Nat), GridOK s →
      s.pstate = .PS_NORMAL → s.cursor_x = 0 → s.cursor_y = (P.length : Nat) →
      s.termBuf = P ++ List.replicate (n + 1) (List.replicate s.COLS.toNat 32) →
      rest.length ≤ n →
      (∀ l ∈ l0 :: rest, (l.length : Int) < s.COLS ∧ ∀ b ∈ l, 32 ≤ b ∧ b ≤ 126) →
      ∃ s1, feed s (join_lines (l0 :: rest)) = .ok s1 ∧ GridOK s1 ∧
        s1.pstate = .PS_NORMAL ∧ s1.COLS = s.COLS ∧ s1.ROWS = s.ROWS ∧
        s1.cursor_y = ((P.length + rest.length : Nat) : Int) ∧
        s1.termBuf = P ++ (l0 :: rest).map (pad_line s.COLS.toNat)
          ++ List.replicate (n - rest.length) (List.replicate s.COLS.toNat 32) := by
  induction rest with
  | nil =>
    intro l0 s P n hG hN hx hy hbuf _ hl
    have hl0 := hl l0 (by simp)
    have hrows : s.termBuf.length = s.ROWS.toNat := hG.2.2.1.1
    have hyR : ((P.length : Nat) : Int) < s.ROWS := by
      rw [hbuf] at hrows
      simp at hrows
      omega
    have hfeed := feed_line l0 s 0 P.length hG hN (by simpa using hx) hy hyR
      (by push_cast; omega) hl0.2
    rw [join_lines_single]
    refine ⟨_, hfeed, ?_, hN, rfl, rfl, by simpa using hy, ?_⟩
    · exact ⟨hG.1, hG.2.1, hG.2.2.1.grid_write l0 0 P.length (by omega),
        hG.2.2.2.grid_write _ 0 P.length (by omega)⟩
    · show grid_write s.termBuf P.length 0 l0 = _
      rw [hbuf, List.replicate_succ]
      have := grid_write_blank l0 P (List.replicate n (List.replicate s.COLS.toNat 32)) []
        s.COLS.toNat (by omega)
      simp only [List.nil_append, List.length_nil] at this
      rw [this]
      simp [pad_line]
  | cons l1 rest ih =>
    intro l0 s P n hG hN hx hy hbuf hn hl
    have hl0 := hl l0 (by simp)
    simp only [List.length_cons] at hn
    have hrows : s.termBuf.length = s.ROWS.toNat := hG.2.2.1.1
    have hlen : P.length + (n + 1) = s.ROWS.toNat := by
      rw [hbuf] at hrows
      simpa using hrows
    have hyR : ((P.length : Nat) : Int) < s.ROWS := by omega
    have hfeed := feed_line l0 s 0 P.length hG hN (by simpa using hx) hy hyR
      (by push_cast; omega) hl0.2
    have hd1 := hG.2.2.1.grid_write l0 0 P.length (by omega)
    have hd2 := hG.2.2.2.grid_write (l0.map (fun _ => s.cur_fg)) 0 P.length (by omega)
    have hbuf1 : grid_write s.termBuf P.length 0 l0
        = (P ++ [pad_line s.COLS.toNat l0])
          ++ List.replicate (n - 1 + 1) (List.replicate s.COLS.toNat 32) := by
      rw [hbuf, List.replicate_succ]
      have := grid_write_blank l0 P (List.replicate n (List.replicate s.COLS.toNat 32)) []
        s.COLS.toNat (by omega)
      simp only [List.nil_append, List.length_nil] at this
      rw [this]
      have hn1 : n - 1 + 1 = n := by omega
      simp [pad_line, hn1]
    obtain ⟨COLS, ROWS, tb0, tc0, cx, cy, fg, bg, ps, eb, ob⟩ := s
    dsimp only at hG hN hx hy hl hl0 hrows hlen hyR hfeed hd1 hd2 hbuf1 ⊢
    subst hN hx hy
    have hnl := process_newline
      { COLS := COLS, ROWS := ROWS, termBuf := grid_write tb0 P.length 0 l0,
        termColor := grid_write tc0 P.length 0 (l0.map (fun _ => fg)),
        cursor_x := ((0 : Nat) : Int) + l0.length, cursor_y := (P.length : Nat),
        cur_fg := fg, cur_bg := bg, pstate := .PS_NORMAL, esc_buf := eb, osc_buf := ob }
      rfl (by dsimp only; omega)
    obtain ⟨s2, hrun, hG2, hN2, hC2, hR2, hy2, hb2⟩ :=
      ih l1
        { COLS := COLS, ROWS := ROWS, termBuf := grid_write tb0 P.length 0 l0,
          termColor := grid_write tc0 P.length 0 (l0.map (fun _ => fg)),
          cursor_x := 0, cursor_y := ((P.length : Nat) : Int) + 1,
          cur_fg := fg, cur_bg := bg, pstate := .PS_NORMAL, esc_buf := eb, osc_buf := ob }
        (P ++ [pad_line COLS.toNat l0]) (n - 1) ⟨hG.1, hG.2.1, hd1, hd2⟩ rfl rfl
        (by simp) hbuf1 (by omega)
        (fun l hl2 => hl l (List.mem_cons_of_mem _ hl2))
    dsimp only at hrun hC2 hR2 hb2
    refine ⟨s2, ?_, hG2, hN2, hC2, hR2, ?_, ?_⟩
    · rw [join_lines_cons, feed_append, hfeed]
      simp only [feed]
      rw [hnl]
      exact hrun
    · rw [hy2]
      simp only [List.length_append, List.length_cons, List.length_nil]
      push_cast
      omega
    · rw [hb2]
      have hsub : n - 1 - rest.length = n - (rest.length + 1) := by omega
      simp [hsub]

theorem Dims.scroll {α : Type} {R C : Nat} {buf : List (List α)} (h : Dims R C buf)
    (hR : 0 < R) (v : α) : Dims R C (buf.tail ++ [List.replicate C v]) := by
  obtain ⟨hl, hr⟩ := h
  refine ⟨by simp [hl]; omega, ?_⟩
  intro row hrow
  rcases List.mem_append.mp hrow with h1 | h1
  · exact hr row (List.mem_of_mem_tail h1)
  · simp at h1; subst h1; simp

/-- The loop of `clear_screen` over rows `r .. r+n-1` inside both grids refills exactly
these rows. -/
theorem clear_rows_spec (n : Nat) :
    ∀ (r : Nat) (s : Term), r + n ≤ s.termBuf.length → r + n ≤ s.termColor.length →
      ∃ tb tc, clear_rows n r s = .ok { s with termBuf := tb, termColor := tc } ∧
        tb.length = s.termBuf.length ∧ tc.length = s.termColor.length ∧
        (∀ i, tb[i]? = if r ≤ i ∧ i < r + n then some (List.replicate s.COLS.toNat 32)
                       else s.termBuf[i]?) ∧
        (∀ i, tc[i]? = if r ≤ i ∧ i < r + n then some (List.replicate s.COLS.toNat white)
                       else s.termColor[i]?) := by
  induction n with
  | zero =>
    intro r s _ _
    refine ⟨s.termBuf, s.termColor, rfl, rfl, rfl, ?_, ?_⟩
    · intro i; split_ifs <;> first | rfl | (exfalso; omega)
    · intro i; split_ifs <;> first | rfl | (exfalso; omega)
  | succ n ih =>
    intro r s hb hc
    obtain ⟨tb, tc, hrun, hlb, hlc, hgb, hgc⟩ :=
      ih (r + 1)
        { s with termBuf := s.termBuf.set r (List.replicate s.COLS.toNat 32),
                 termColor := s.termColor.set r (List.replicate s.COLS.toNat white) }
        (by simp; omega) (by simp; omega)
    refine ⟨tb, tc, ?_, by simpa using hlb, by simpa using hlc, ?_, ?_⟩
    · have h1 : r < s.termBuf.length := by omega
      have h2 : r < s.termColor.length := by omega
      simp only [clear_rows, assign_row, if_pos h1, if_pos h2]
      exact hrun
    · intro i
      rw [hgb i]
      simp only [List.getElem?_set]
      split_ifs <;> first | rfl | (exfalso; omega)
    · intro i
      rw [hgc i]
      simp only [List.getElem?_set]
      split_ifs <;> first | rfl | (exfalso; omega)

/-- On a well-formed state `clear_screen` returns the blank screen with the cursor at the
origin and everything else unchanged. -/
theorem clear_screen_spec (s : Term) (hG : GridOK s) :
    clear_screen s
      = .ok { s with
              termBuf := List.replicate s.ROWS.toNat (List.replicate s.COLS.toNat 32)
              termColor := List.replicate s.ROWS.toNat (List.replicate s.COLS.toNat white)
              cursor_x := 0, cursor_y := 0 } := by
  obtain ⟨_, _, ⟨hbl, _⟩, ⟨hcl, _⟩⟩ := hG
  obtain ⟨tb, tc, hrun, hlb, hlc, hgb, hgc⟩ :=
    clear_rows_spec s.ROWS.toNat 0 s (by omega) (by omega)
  have htb : tb = List.replicate s.ROWS.toNat (List.replicate s.COLS.toNat 32) := by
    apply List.ext_getElem?
    intro i
    rw [hgb i, List.getElem?_replicate]
    by_cases hi : i < s.ROWS.toNat
    · simp [hi]
    · simp [hi, List.getElem?_eq_none (show s.termBuf.length ≤ i by omega)]
  have htc : tc = List.replicate s.ROWS.toNat (List.replicate s.COLS.toNat white) := by
    apply List.ext_getElem?
    intro i
    rw [hgc i, List.getElem?_replicate]
    by_cases hi : i < s.ROWS.toNat
    · simp [hi]
    · simp [hi, List.getElem?_eq_none (show s.termColor.length ≤ i by omega)]
  unfold clear_screen
  rw [hrun, htb, htc]

/-! ## Lemmas on `stoi` and `getline` -/

theorem nat_decimal_aux_digits (fuel : Nat) :
    ∀ (n : Nat) (acc : List Nat), (∀ c ∈ acc, isdigit c = true) →
      ∀ c ∈ nat_decimal_aux fuel n acc, isdigit c = true := by
  induction fuel with
  | zero => intro n acc h; simpa [nat_decimal_aux] using h
  | succ fuel ih =>
    intro n acc h
    unfold nat_decimal_aux
    split_ifs with hn
    · intro c hc
      rcases List.mem_cons.mp hc with rfl | hc
      · simp [isdigit]; omega
      · exact h c hc
    · apply ih
      intro c hc
      rcases List.mem_cons.mp hc with rfl | hc
      · simp [isdigit]; omega
      · exact h c hc

theorem nat_decimal_aux_ne_nil (fuel n : Nat) (acc : List Nat) (hf : 0 < fuel) :
    nat_decimal_aux fuel n acc ≠ [] := by
  induction fuel generalizing n acc with
  | zero => omega
  | succ fuel ih =>
    unfold nat_decimal_aux
    split_ifs with hn
    · simp
    · cases fuel with
      | zero => simp [nat_decimal_aux]
      | succ k => exact ih _ _ (by omega)

theorem foldl_digits (l : List Nat) (a : Int) :
    l.foldl (fun (a : Int) (d : Nat) => a * 10 + ((d : Int) - 48)) a
      = a * 10 ^ l.length + l.foldl (fun (a : Int) (d : Nat) => a * 10 + ((d : Int) - 48)) 0 := by
  induction l generalizing a with
  | nil => simp
  | cons d l ih =>
    simp only [List.foldl_cons, List.length_cons]
    rw [ih (a * 10 + ((d : Int) - 48)), ih (0 * 10 + ((d : Int) - 48))]
    ring

theorem digits_value_cons (d : Nat) (l : List Nat) :
    digits_value (d :: l) = ((d : Int) - 48) * 10 ^ l.length + digits_value l := by
  unfold digits_value
  simp only [List.foldl_cons]
  rw [foldl_digits]
  ring

theorem digits_value_aux (fuel : Nat) :
    ∀ (n : Nat) (acc : List Nat), n < fuel →
      digits_value (nat_decimal_aux fuel n acc)
        = (n : Int) * 10 ^ acc.length + digits_value acc := by
  induction fuel with
  | zero => intro n acc h; omega
  | succ fuel ih =>
    intro n acc h
    unfold nat_decimal_aux
    split_ifs with hn
    · rw [digits_value_cons]; push_cast; ring
    · rw [ih (n / 10) _ (by omega), digits_value_cons]
      have hdm : (n : Int) = 10 * ((n / 10 : Nat) : Int) + ((n % 10 : Nat) : Int) := by omega
      simp only [List.length_cons]
      push_cast
      push_cast at hdm
      linear_combination (-(10 : Int) ^ acc.length) * hdm

theorem digits_value_nat_decimal (n : Nat) : digits_value (nat_decimal n) = n := by
  unfold nat_decimal
  rw [digits_value_aux (n + 1) n [] (by omega)]
  simp [digits_value]

theorem nat_decimal_digits (n : Nat) : ∀ c ∈ nat_decimal n, isdigit c = true :=
  nat_decimal_aux_digits (n + 1) n [] (by simp)

theorem nat_decimal_ne_nil (n : Nat) : nat_decimal n ≠ [] :=
  nat_decimal_aux_ne_nil (n + 1) n [] (by omega)

theorem stoi_int_decimal (z : Int) (h1 : INT_MIN ≤ z) (h2 : z ≤ INT_MAX) :
    stoi (int_decimal z) = .ok z := by
  have htake : (nat_decimal z.natAbs).takeWhile isdigit = nat_decimal z.natAbs :=
    List.takeWhile_eq_self_iff.mpr (nat_decimal_digits _)
  have hval := digits_value_nat_decimal z.natAbs
  unfold INT_MIN at h1
  unfold INT_MAX at h2
  unfold int_decimal
  split_ifs with hz
  · simp [stoi, isspace, htake, hval, nat_decimal_ne_nil]
    rw [abs_of_neg hz, neg_neg, if_neg (by unfold INT_MIN INT_MAX; omega)]
  · rcases hl : nat_decimal z.natAbs with _ | ⟨d, rest⟩
    · exact absurd hl (nat_decimal_ne_nil _)
    · have hd : isdigit d = true := nat_decimal_digits z.natAbs d (by rw [hl]; simp)
      have hd2 : 48 ≤ d ∧ d ≤ 57 := by simpa [isdigit] using hd
      have hsp : isspace d = false := by simp [isspace]; omega
      have h45 : d ≠ 45 := by omega
      have h43 : d ≠ 43 := by omega
      rw [hl] at htake hval
      have hrange : ¬ ((z.natAbs : Int) < INT_MIN ∨ (z.natAbs : Int) > INT_MAX) := by
        unfold INT_MIN INT_MAX; omega
      have hzv : (z.natAbs : Int) = z := by omega
      simp [stoi, List.dropWhile, hsp, h45, h43, htake, hval, hrange, hzv]
      unfold INT_MIN INT_MAX; omega

theorem takeWhile_ne_append (l rest : List Nat) (d : Nat) (h : ∀ c ∈ l, c ≠ d) :
    (l ++ d :: rest).takeWhile (fun c => c != d) = l := by
  induction l with
  | nil => simp
  | cons a l ih =>
    have ha : (a != d) = true := by simpa using h a (by simp)
    simp [List.takeWhile_cons, ha, ih (fun c hc => h c (List.mem_cons_of_mem _ hc))]

theorem dropWhile_ne_append (l rest : List Nat) (d : Nat) (h : ∀ c ∈ l, c ≠ d) :
    (l ++ d :: rest).dropWhile (fun c => c != d) = d :: rest := by
  induction l with
  | nil => simp
  | cons a l ih =>
    have ha : (a != d) = true := by simpa using h a (by simp)
    simp [List.dropWhile_cons, ha, ih (fun c hc => h c (List.mem_cons_of_mem _ hc))]

theorem getline_delim (l rest : List Nat) (d : Nat) (h : ∀ c ∈ l, c ≠ d) :
    getline (l ++ d :: rest) d = some (l, rest) := by
  have h1 := takeWhile_ne_append l rest d h
  have h2 := dropWhile_ne_append l rest d h
  cases hl : l ++ d :: rest with
  | nil => simp at hl
  | cons a t =>
    rw [hl] at h1 h2
    simp [getline, h1, h2]

theorem getline_last (l : List Nat) (d : Nat) (hne : l ≠ []) (h : ∀ c ∈ l, c ≠ d) :
    getline l d = some (l, []) := by
  have h1 : l.takeWhile (fun c => c != d) = l :=
    List.takeWhile_eq_self_iff.mpr (fun c hc => by simpa using h c hc)
  have h2 : l.dropWhile (fun c => c != d) = [] :=
    List.dropWhile_eq_nil_iff.mpr (fun c hc => by simpa using h c hc)
  cases l with
  | nil => exact absurd rfl hne
  | cons a t => simp [getline, h1, h2]

theorem int_decimal_ne_nil (z : Int) : int_decimal z ≠ [] := by
  unfold int_decimal
  split_ifs
  · simp
  · exact nat_decimal_ne_nil _

theorem int_decimal_no_semicolon (z : Int) : ∀ c ∈ int_decimal z, c ≠ 59 := by
  intro c hc
  unfold int_decimal at hc
  have key : ∀ c ∈ nat_decimal z.natAbs, c ≠ 59 := by
    intro c hc
    have := nat_decimal_digits _ c hc
    have h2 : 48 ≤ c ∧ c ≤ 57 := by simpa [isdigit] using this
    omega
  split_ifs at hc
  · rcases List.mem_cons.mp hc with rfl | hc
    · decide
    · exact key c hc
  · exact key c hc

theorem handle_csi_H (s : Term) (params : List Nat) (final_byte : Nat)
    (hf : final_byte = 72 ∨ final_byte = 102) (hne : params ≠ []) :
    handle_csi_sequence s (params ++ [final_byte])
      = match getline params 59 with
        | some (a, rest) =>
          match getline rest 59 with
          | some (b, _) =>
            match stoi b with
            | .error e => .error e
            | .ok col =>
              match stoi a with
              | .error e => .error e
              | .ok row => .ok (set_cursor s row col)
          | none =>
            match stoi a with
            | .error e => .error e
            | .ok row => .ok (set_cursor s row 1)
        | none =>
          match stoi [] with
          | .error e => .error e
          | .ok row => .ok (set_cursor s row 1) := by
  have h109 : final_byte ≠ 109 := by omega
  simp [handle_csi_sequence, h109, hf, hne]

theorem int_wrap_id (v : Int) (h1 : INT_MIN ≤ v) (h2 : v ≤ INT_MAX) : int_wrap v = v := by
  unfold INT_MIN at h1
  unfold INT_MAX at h2
  unfold int_wrap
  omega

/-! ## Lemmas on the router -/

theorem on_term_ok {w w1 : World} {f : Term → Except Fault Term} (h : on_term w f = .ok w1) :
    ∃ t, f w.term = .ok t ∧ w1 = { w with term := t } := by
  unfold on_term at h
  cases hf : f w.term with
  | error e => rw [hf] at h; cases h
  | ok t => rw [hf] at h; cases h; exact ⟨t, rfl, rfl⟩

theorem echo_line_calls {w w1 : World} {str : List Nat} (h : echo_line w str = .ok w1) :
    w1.llm_calls = w.llm_calls := by
  obtain ⟨t, _, rfl⟩ := on_term_ok h
  rfl

theorem append_to_shell_buffer_calls {w w1 : World} {ch : Nat}
    (h : append_to_shell_buffer w ch = .ok w1) : w1.llm_calls = w.llm_calls := by
  obtain ⟨t, _, rfl⟩ := on_term_ok h
  rfl

theorem shell_backspace_calls {w w1 : World} (h : shell_backspace w = .ok w1) :
    w1.llm_calls = w.llm_calls := by
  unfold shell_backspace at h
  dsimp only at h
  split_ifs at h with h1 h2
  · obtain ⟨t, _, rfl⟩ := on_term_ok h
    rfl
  · cases h; rfl
  · cases h; rfl

theorem send_key_to_pty_calls (w : World) (str : List Nat) :
    (send_key_to_pty w str).llm_calls = w.llm_calls := by
  unfold send_key_to_pty
  split_ifs <;> rfl

theorem clear_input_line_calls {w w1 : World}
    (h : clear_input_line_visual_and_buffer w = .ok w1) : w1.llm_calls = w.llm_calls := by
  unfold clear_input_line_visual_and_buffer at h
  cases h1 : on_term w (fun t => blank_chars t.COLS.toNat 0 t) with
  | error e => rw [h1] at h; cases h
  | ok w2 =>
    rw [h1] at h
    cases h
    obtain ⟨t, _, rfl⟩ := on_term_ok h1
    rfl

theorem confirm_yes_calls {w w1 : World} (h : confirm_yes w = .ok w1) :
    w1.llm_calls = w.llm_calls := by
  unfold confirm_yes at h
  cases h1 : clear_input_line_visual_and_buffer (send_key_to_pty w (w.pending_ai_cmd ++ [10])) with
  | error e => simp [h1] at h
  | ok w2 =>
    simp only [h1] at h
    cases h2 : echo_line w2 w2.pending_ai_cmd with
    | error e => simp [h2] at h
    | ok w3 =>
      simp only [h2] at h
      rw [echo_line_calls h, echo_line_calls h2, clear_input_line_calls h1, send_key_to_pty_calls]

theorem confirm_no_calls {w w1 : World} (h : confirm_no w = .ok w1) :
    w1.llm_calls = w.llm_calls := by
  unfold confirm_no at h
  cases h1 : echo_line w (bytes "[AI cancelled]") with
  | error e => simp [h1] at h
  | ok w2 =>
    simp only [h1] at h
    rw [echo_line_calls h, send_key_to_pty_calls, echo_line_calls h1]

theorem echo_line_ok {w w1 : World} {str : List Nat} (h : echo_line w str = .ok w1) :
    ∃ t, w1 = { w with term := t } := by
  obtain ⟨t, _, rfl⟩ := on_term_ok h
  exact ⟨t, rfl⟩

theorem clear_input_line_ok {w w1 : World}
    (h : clear_input_line_visual_and_buffer w = .ok w1) :
    ∃ t, w1 = { w with term := t, shell_buffer := [] } := by
  unfold clear_input_line_visual_and_buffer at h
  cases h1 : on_term w (fun t => blank_chars t.COLS.toNat 0 t) with
  | error e => rw [h1] at h; cases h
  | ok w2 =>
    rw [h1] at h
    cases h
    obtain ⟨t, _, rfl⟩ := on_term_ok h1
    exact ⟨_, rfl⟩

theorem confirm_yes_ok {w w1 : World} (h : confirm_yes w = .ok w1) :
    ∃ t, w1 = { (send_key_to_pty w (w.pending_ai_cmd ++ [10])) with
                  term := t, shell_buffer := [] } := by
  unfold confirm_yes at h
  cases h1 : clear_input_line_visual_and_buffer (send_key_to_pty w (w.pending_ai_cmd ++ [10])) with
  | error e => simp [h1] at h
  | ok w2 =>
    simp only [h1] at h
    cases h2 : echo_line w2 w2.pending_ai_cmd with
    | error e => simp [h2] at h
    | ok w3 =>
      simp only [h2] at h
      obtain ⟨t1, rfl⟩ := clear_input_line_ok h1
      obtain ⟨t2, rfl⟩ := echo_line_ok h2
      obtain ⟨t3, rfl⟩ := echo_line_ok h
      exact ⟨t3, rfl⟩

theorem confirm_no_ok {w w1 : World} (h : confirm_no w = .ok w1) :
    ∃ t, w1 = { (send_key_to_pty w [3]) with term := t } := by
  unfold confirm_no at h
  cases h1 : echo_line w (bytes "[AI cancelled]") with
  | error e => simp [h1] at h
  | ok w2 =>
    simp only [h1] at h
    obtain ⟨t1, rfl⟩ := echo_line_ok h1
    obtain ⟨t2, rfl⟩ := echo_line_ok h
    refine ⟨t2, ?_⟩
    unfold send_key_to_pty
    split_ifs <;> rfl

/-- What the confirmation branch of `key_callback` has done when it returns: `Y` has
written the pending command and a newline to the open pty, `N` the byte 3, both have
reset the router; any other key has changed nothing. -/
theorem confirm_resolution_of_return (w w1 : World) (key action : Int) (mods : Nat)
    (hc : w.awaiting_confirm = true) (hact : action = GLFW_PRESS ∨ action = GLFW_REPEAT)
    (h : key_callback w key action mods = .ok w1) :
    (key = GLFW_KEY_Y → w.pending_ai_cmd ≠ [] → 0 ≤ w.master_fd →
      w1.pty_out = w.pty_out ++ [w.pending_ai_cmd ++ [10]]) ∧
    (key = GLFW_KEY_N → 0 ≤ w.master_fd → w1.pty_out = w.pty_out ++ [[3]]) ∧
    (key = GLFW_KEY_Y ∨ key = GLFW_KEY_N →
      w1.awaiting_confirm = false ∧ w1.input_blocked = false ∧ w1.pending_ai_cmd = []) ∧
    (key ≠ GLFW_KEY_Y → key ≠ GLFW_KEY_N → w1 = w) := by
  unfold key_callback at h
  rw [if_neg (not_not.mpr hact), if_pos hc] at h
  dsimp only at h
  split_ifs at h with hyn hy hp
  · -- Y, pending command not empty
    cases hcy : confirm_yes w with
    | error e => simp [hcy] at h
    | ok w2 =>
      simp only [hcy] at h
      cases h
      obtain ⟨t, rfl⟩ := confirm_yes_ok hcy
      refine ⟨fun _ _ hfd => ?_, fun hn => ?_, fun _ => ⟨rfl, rfl, rfl⟩,
        fun hny => absurd hy hny⟩
      · simp [send_key_to_pty, not_lt.mpr hfd]
      · rw [hy] at hn; exact absurd hn (by decide)
  · -- Y, pending command empty
    simp only at h
    cases h
    exact ⟨fun _ hne => absurd hne hp, fun hn => by rw [hy] at hn; exact absurd hn (by decide),
      fun _ => ⟨rfl, rfl, rfl⟩, fun hny => absurd hy hny⟩
  · -- N
    have hn : key = GLFW_KEY_N := by tauto
    cases hcn : confirm_no w with
    | error e => simp [hcn] at h
    | ok w2 =>
      simp only [hcn] at h
      cases h
      obtain ⟨t, rfl⟩ := confirm_no_ok hcn
      refine ⟨fun hk => absurd hk hy, fun _ hfd => ?_, fun _ => ⟨rfl, rfl, rfl⟩,
        fun _ hnn => absurd hn hnn⟩
      simp [send_key_to_pty, not_lt.mpr hfd]
  · cases h
    exact ⟨fun hk => absurd (Or.inl hk) hyn, fun hk _ => absurd (Or.inr hk) hyn,
      fun hk => absurd hk hyn, fun _ _ => rfl⟩

/-- The pickup of an empty candidate only clears the result: `input_blocked`,
`awaiting_confirm` and the screen stay as they were. -/
theorem main_ai_pickup_empty (w : World) (h1 : w.ai_ready = true) (h2 : w.ai_result = []) :
    main_ai_pickup w = .ok { w with ai_ready := false, ai_result := [] } := by
  simp [main_ai_pickup, h1, h2]

/-- While `input_blocked` is set, a character event changes nothing. -/
theorem char_callback_blocked (w : World) (codepoint : Nat) (h : w.input_blocked = true) :
    char_callback w codepoint = .ok w := by
  simp [char_callback, h]

/-- In `Osc` every byte other than BEL and backslash is appended to `osc_buf`. -/
theorem feed_osc (payload : List Nat) :
    ∀ (s : Term), s.pstate = .PS_OSC → (∀ b ∈ payload, b ≠ 7 ∧ b ≠ 92) →
      feed s payload = .ok { s with osc_buf := s.osc_buf ++ payload } := by
  induction payload with
  | nil => intro s _ _; simp [feed]
  | cons b l ih =>
    intro s hO hp
    have hb := hp b (by simp)
    obtain ⟨COLS, ROWS, tb0, tc0, cx, cy, fg, bg, ps, eb, ob⟩ := s
    dsimp only at hO
    subst hO
    simp only [feed, process_byte_ansi, if_neg hb.1, if_neg hb.2]
    rw [ih _ rfl (fun c hc => hp c (List.mem_cons_of_mem _ hc))]
    simp

theorem put_char_local_newline (s : Term) : put_char_local s 10 = next_line s := by
  simp [put_char_local]

/-- A line feed handled by `put_char_local` leaves the cursor in column 0. -/
theorem put_char_newline_col (s t : Term) (h : put_char_local s 10 = .ok t) :
    t.cursor_x = 0 := by
  rw [put_char_local_newline] at h
  unfold next_line at h
  dsimp only at h
  split_ifs at h
  · unfold evict_top_row at h
    split at h
    · cases h; rfl
    · cases h
  · cases h; rfl

/-- On well-formed grids a line feed handled by `put_char_local` returns. -/
theorem put_char_newline_total (s : Term) (hG : GridOK s) :
    ∃ t, put_char_local s 10 = .ok t := by
  obtain ⟨_, hR, ⟨hbl, _⟩, ⟨hcl, _⟩⟩ := hG
  rw [put_char_local_newline]
  unfold next_line
  dsimp only
  split_ifs
  · unfold evict_top_row
    obtain ⟨COLS, ROWS, tb0, tc0, cx, cy, fg, bg, ps, eb, ob⟩ := s
    dsimp only at hR hbl hcl ⊢
    cases tb0 with
    | nil => simp at hbl; omega
    | cons r0 tb1 =>
      cases tc0 with
      | nil => simp at hcl; omega
      | cons c0 tc1 => exact ⟨_, rfl⟩
  · exact ⟨_, rfl⟩

theorem handle_csi_J (s : Term) (params : List Nat) :
    handle_csi_sequence s (params ++ [74])
      = match csi_param params with
        | .error e => .error e
        | .ok p => if p = 2 then clear_screen s else .ok s := by
  simp [handle_csi_sequence]

theorem cleared_gridOK (s : Term) (hG : GridOK s) : GridOK (cleared s) :=
  ⟨hG.1, hG.2.1, dims_replicate _ _ 32, dims_replicate _ _ white⟩

theorem clear_screen_cleared (s : Term) (hG : GridOK s) : clear_screen s = .ok (cleared s) :=
  clear_screen_spec s hG

theorem cleared_cleared (s : Term) : cleared (cleared s) = cleared s := rfl

theorem getline_cases (ss : List Nat) (d : Nat) (hne : ss ≠ []) :
    ((∀ c ∈ ss, c ≠ d) ∧ getline ss d = some (ss, [])) ∨
    (∃ line rest, (∀ c ∈ line, c ≠ d) ∧ ss = line ++ d :: rest ∧
      getline ss d = some (line, rest)) := by
  by_cases h : ∀ c ∈ ss, c ≠ d
  · exact Or.inl ⟨h, getline_last ss d hne h⟩
  · right
    have hmem : d ∈ ss := by
      by_contra hd
      exact h (fun c hc hcd => hd (hcd ▸ hc))
    obtain ⟨line, rest, rfl, hnot⟩ := List.eq_append_cons_of_mem hmem
    have hline : ∀ c ∈ line, c ≠ d := fun c hc hcd => hnot (hcd ▸ hc)
    exact ⟨line, rest, hline, rfl, getline_delim line rest d hline⟩

/-- The `getline` loop of the worker finds the first piece of positive length of the
stream split at `'\n'`, and leaves `cmdline` empty when there is none. -/
theorem first_line_splitOn (fuel : Nat) :
    ∀ (ss : List Nat), ss.length < fuel →
      first_line fuel ss
        = ((ss.splitOn 10).find? (fun l => decide (0 < l.length))).getD [] := by
  induction fuel with
  | zero => intro ss h; omega
  | succ n ih =>
    intro ss hlen
    by_cases hne : ss = []
    · subst hne
      simp [first_line, getline, List.splitOn, List.splitOnP_nil]
    · rcases getline_cases ss 10 hne with ⟨hall, hg⟩ | ⟨line, rest, hline, rfl, hg⟩
      · have hsplit : ss.splitOn 10 = [ss] :=
          List.splitOnP_eq_single (fun x => x == 10) ss (fun x hx => by simpa using hall x hx)
        have hpos : 0 < ss.length := List.length_pos.mpr hne
        simp [first_line, hg, hne, hsplit, hpos]
      · have hsplit : (line ++ 10 :: rest).splitOn 10 = line :: rest.splitOn 10 :=
          List.splitOnP_first (fun x => x == 10) line (fun x hx => by simpa using hline x hx)
            10 (by simp) rest
        rw [hsplit]
        by_cases hl : line = []
        · subst hl
          have := ih rest (by simp at hlen; omega)
          simp only [List.nil_append] at hg
          simp [first_line, hg, this]
        · have hpos : 0 < line.length := List.length_pos.mpr hl
          simp [first_line, hg, hl, hpos]

/-! ## Lemmas on the SGR branch -/

theorem sgr_params_length (codes : List Int) : codes.length ≤ (sgr_params codes).length := by
  induction codes with
  | nil => simp [sgr_params]
  | cons c cs ih =>
    have hpos : 0 < (int_decimal c).length := List.length_pos.mpr (int_decimal_ne_nil c)
    cases cs with
    | nil => simpa [sgr_params] using hpos
    | cons c1 cs1 =>
      simp only [sgr_params, List.length_append, List.length_cons] at ih ⊢
      omega

theorem sgr_params_ne_nil (codes : List Int) (h : codes ≠ []) : sgr_params codes ≠ [] := by
  intro h0
  have := sgr_params_length codes
  rw [h0] at this
  cases codes with
  | nil => exact h rfl
  | cons c cs => simp at this

theorem sgr_codes_params (codes : List Int) :
    ∀ fuel : Nat, codes.length < fuel → (∀ c ∈ codes, INT_MIN ≤ c ∧ c ≤ INT_MAX) →
      sgr_codes fuel (sgr_params codes) = codes := by
  induction codes with
  | nil =>
    intro fuel hf _
    cases fuel with
    | zero => rfl
    | succ n => rfl
  | cons c cs ih =>
    intro fuel hf hr
    have hc := hr c (by simp)
    cases fuel with
    | zero => simp at hf
    | succ n =>
      cases cs with
      | nil =>
        have hg := getline_last (int_decimal c) 59 (int_decimal_ne_nil c) (int_decimal_no_semicolon c)
        have hnil : sgr_codes n [] = [] := by
          cases n with
          | zero => rfl
          | succ m => rfl
        simp [sgr_params, sgr_codes, hg, stoi_int_decimal c hc.1 hc.2, hnil]
      | cons c1 cs1 =>
        have hg := getline_delim (int_decimal c) (sgr_params (c1 :: cs1)) 59
          (int_decimal_no_semicolon c)
        have hrec := ih n (by simp at hf ⊢; omega) (fun x hx => hr x (List.mem_cons_of_mem _ hx))
        simp only [sgr_params, sgr_codes, hg, stoi_int_decimal c hc.1 hc.2, hrec]

theorem ansi_basic_color_palette (i : Int) (h0 : 0 ≤ i) (h7 : i ≤ 7) :
    ansi_basic_color i = ansi_map.getD i.toNat black := by
  unfold ansi_basic_color
  simp only [if_neg (not_lt.mpr h0), if_neg (not_lt.mpr h7), gt_iff_lt]

theorem sgr_apply_spec (s : Term) (code : Int) :
    sgr_apply s code
      = { s with cur_fg := (sgr_step_spec (s.cur_fg, s.cur_bg) code).1
                 cur_bg := (sgr_step_spec (s.cur_fg, s.cur_bg) code).2 } := by
  unfold sgr_apply sgr_step_spec
  split_ifs with h1 h2 h3 h4 h5
  · rfl
  · rw [ansi_basic_color_palette _ (by omega) (by omega)]
  · rw [ansi_basic_color_palette _ (by omega) (by omega)]
  · rfl
  · rfl
  · rfl

theorem sgr_foldl_spec (codes : List Int) :
    ∀ s : Term, codes.foldl sgr_apply s
      = { s with cur_fg := (codes.foldl sgr_step_spec (s.cur_fg, s.cur_bg)).1
                 cur_bg := (codes.foldl sgr_step_spec (s.cur_fg, s.cur_bg)).2 } := by
  induction codes with
  | nil => intro s; rfl
  | cons c cs ih =>
    intro s
    simp only [List.foldl_cons]
    rw [ih, sgr_apply_spec]

theorem feed_csi_params (l : List Nat) :
    ∀ (s : Term), s.pstate = .PS_CSI → (∀ b ∈ l, b < 64) →
      feed s l = .ok { s with esc_buf := s.esc_buf ++ l } := by
  induction l with
  | nil => intro s _ _; simp [feed]
  | cons b l ih =>
    intro s hC hp
    have hb := hp b (by simp)
    obtain ⟨COLS, ROWS, tb0, tc0, cx, cy, fg, bg, ps, eb, ob⟩ := s
    dsimp only at hC
    subst hC
    have hnot : ¬ (b ≥ 64 ∧ b ≤ 126) := by omega
    simp only [feed, process_byte_ansi, if_neg hnot]
    rw [ih _ rfl (fun c hc => hp c (List.mem_cons_of_mem _ hc))]
    simp

theorem int_decimal_lt_64 (z : Int) : ∀ c ∈ int_decimal z, c < 64 := by
  intro c hc
  unfold int_decimal at hc
  have key : ∀ c ∈ nat_decimal z.natAbs, c < 64 := by
    intro c hc
    have := nat_decimal_digits _ c hc
    have h2 : 48 ≤ c ∧ c ≤ 57 := by simpa [isdigit] using this
    omega
  split_ifs at hc
  · rcases List.mem_cons.mp hc with rfl | hc
    · decide
    · exact key c hc
  · exact key c hc

theorem sgr_params_lt_64 (codes : List Int) : ∀ c ∈ sgr_params codes, c < 64 := by
  induction codes with
  | nil => intro c hc; simp [sgr_params] at hc
  | cons z zs ih =>
    cases zs with
    | nil => simpa [sgr_params] using int_decimal_lt_64 z
    | cons z1 zs1 =>
      intro c hc
      simp only [sgr_params, List.mem_append, List.mem_cons] at hc
      rcases hc with h | h | h
      · exact int_decimal_lt_64 z c h
      · omega
      · exact ih c h

theorem handle_csi_m (s : Term) (params : List Nat) :
    handle_csi_sequence s (params ++ [109])
      = .ok ((if sgr_codes ((if params = [] then [48] else params).length + 1)
                  (if params = [] then [48] else params) = [] then [0]
              else sgr_codes ((if params = [] then [48] else params).length + 1)
                  (if params = [] then [48] else params)).foldl sgr_apply s) := by
  simp [handle_csi_sequence]

theorem handle_csi_m_codes (s : Term) (codes : List Int)
    (hr : ∀ c ∈ codes, INT_MIN ≤ c ∧ c ≤ INT_MAX) :
    handle_csi_sequence s (sgr_params codes ++ [109])
      = .ok { s with cur_fg := (sgr_fold_spec (s.cur_fg, s.cur_bg) codes).1
                     cur_bg := (sgr_fold_spec (s.cur_fg, s.cur_bg) codes).2 } := by
  rw [handle_csi_m]
  by_cases hc : codes = []
  · subst hc
    have h1 : sgr_codes 2 [48] = [0] := by decide
    simp only [sgr_params, if_true, List.length_singleton, h1, sgr_fold_spec]
    rw [if_neg (by simp), sgr_foldl_spec]
  · have hne := sgr_params_ne_nil codes hc
    have hcodes := sgr_codes_params codes ((sgr_params codes).length + 1)
      (Nat.lt_succ_of_le (sgr_params_length codes)) hr
    simp only [if_neg hne, hcodes, if_neg hc, sgr_fold_spec]
    rw [sgr_foldl_spec]

/-! ## Lemmas on the invariants of the grids -/

theorem put_cell_inv (P : Nat → Prop) (s : Term) (y x ch : Nat) (hG : GridOK s)
    (hP : CellsAll P s.termBuf) (hch : P ch) (hy : (y : Int) < s.ROWS)
    (hx : (x : Int) < s.COLS) :
    ∃ tb tc, put_cell s y x ch = .ok { s with termBuf := tb, termColor := tc } ∧
      Dims s.ROWS.toNat s.COLS.toNat tb ∧ Dims s.ROWS.toNat s.COLS.toNat tc ∧
      CellsAll P tb := by
  obtain ⟨h1, h2, hb, hc⟩ := hG
  refine ⟨_, _, put_cell_ok s y x ch ⟨h1, h2, hb, hc⟩ hy hx,
    hb.grid_set y x ch (by omega), hc.grid_set y x s.cur_fg (by omega), ?_⟩
  intro r c v hv
  rw [cell_grid_set hb y x ch (by omega) (by omega)] at hv
  split_ifs at hv
  · cases hv; exact hch
  · exact hP r c v hv

theorem cell_scroll (r0 : List Nat) (tb : List (List Nat)) (C r c v : Nat)
    (h : cell (tb ++ [List.replicate C 32]) r c = some v) :
    v = 32 ∨ cell (r0 :: tb) (r + 1) c = some v := by
  unfold cell at h ⊢
  by_cases hr : r < tb.length
  · right
    rw [List.getElem?_append_left hr] at h
    simpa using h
  · left
    rw [List.getElem?_append_right (by omega)] at h
    by_cases hr2 : r - tb.length = 0
    · rw [hr2] at h
      simp only [List.getElem?_cons_zero, Option.some_bind] at h
      rw [List.getElem?_replicate] at h
      split_ifs at h
      cases h; rfl
    · obtain ⟨k, hk⟩ := Nat.exists_eq_succ_of_ne_zero hr2
      rw [hk] at h
      simp at h

theorem evict_top_row_inv (P : Nat → Prop) (s : Term) (hG : GridOK s)
    (hP : CellsAll P s.termBuf) (h32 : P 32) :
    ∃ t, evict_top_row s = .ok t ∧ Keeps P s t := by
  obtain ⟨hC, hR, hb, hc⟩ := hG
  obtain ⟨COLS, ROWS, tb0, tc0, cx, cy, fg, bg, ps, eb, ob⟩ := s
  dsimp only at hC hR hb hc hP ⊢
  cases tb0 with
  | nil => exfalso; have := hb.1; simp at this; omega
  | cons r0 tb1 =>
    cases tc0 with
    | nil => exfalso; have := hc.1; simp at this; omega
    | cons c0 tc1 =>
      refine ⟨_, rfl, rfl, rfl, ⟨hC, hR, ?_, ?_⟩, ?_⟩
      · exact hb.scroll (by omega) 32
      · exact hc.scroll (by omega) white
      · intro r c v hv
        rcases cell_scroll r0 tb1 _ r c v hv with h | h
        · rw [h]; exact h32
        · exact hP _ _ _ h

theorem next_line_inv (P : Nat → Prop) (s : Term) (hG : GridOK s)
    (hP : CellsAll P s.termBuf) (h32 : P 32) :
    ∃ t, next_line s = .ok t ∧ Keeps P s t := by
  unfold next_line
  dsimp only
  split_ifs
  · exact evict_top_row_inv P { s with cursor_x := 0, cursor_y := s.cursor_y + 1 } hG hP h32
  · exact ⟨_, rfl, rfl, rfl, hG, hP⟩

theorem put_char_local_inv (P : Nat → Prop) (s : Term) (ch : Nat) (hG : GridOK s)
    (hC : CursorOK s) (hP : CellsAll P s.termBuf) (h32 : P 32)
    (huc : P (if ch < FIRST_CHAR ∨ ch > LAST_CHAR then 63 else ch)) :
    ∃ t, put_char_local s ch = .ok t ∧ Keeps P s t := by
  obtain ⟨hx0, hxC, hy0, hyR⟩ := hC
  obtain ⟨x, hx⟩ : ∃ x : Nat, s.cursor_x = x := ⟨s.cursor_x.toNat, by omega⟩
  obtain ⟨y, hy⟩ : ∃ y : Nat, s.cursor_y = y := ⟨s.cursor_y.toNat, by omega⟩
  by_cases h13 : ch = 13
  · exact ⟨s, by simp [put_char_local, h13], rfl, rfl, hG, hP⟩
  by_cases h10 : ch = 10
  · subst h10
    rw [put_char_local_newline]
    exact next_line_inv P s hG hP h32
  by_cases h9 : ch = 9
  · subst h9
    have hto : (s.cursor_x.tdiv 8 + 1) * 8 = (((x / 8 + 1) * 8 : Nat) : Int) := by
      rw [hx]
      have : (x : Int).tdiv 8 = ((x / 8 : Nat) : Int) := (Int.ofNat_tdiv x 8).symm
      rw [this]; push_cast; ring
    obtain ⟨tb, tc, hrun, hdb, hdc, hcb, _⟩ :=
      tab_loop_spec (((x / 8 + 1) * 8 : Nat) : Int) ((x / 8 + 1) * 8 - x) s x y hG hx hy
        (by omega) (by omega) (by omega)
    have hfuel : ((((x / 8 + 1) * 8 : Nat) : Int) - s.cursor_x).toNat = (x / 8 + 1) * 8 - x := by
      omega
    have hdef : put_char_local s 9
        = tab_loop ((s.cursor_x.tdiv 8 + 1) * 8)
            ((s.cursor_x.tdiv 8 + 1) * 8 - s.cursor_x).toNat s := by
      simp [put_char_local]
    rw [hdef, hto, hfuel, hrun]
    refine ⟨_, rfl, rfl, rfl, ⟨hG.1, hG.2.1, hdb, hdc⟩, ?_⟩
    intro r c v hv
    dsimp only at hv
    rw [hcb r c] at hv
    split_ifs at hv
    · cases hv; exact h32
    · exact hP r c v hv
  obtain ⟨COLS, ROWS, tb0, tc0, cx, cy, fg, bg, ps, eb, ob⟩ := s
  dsimp only at hx0 hxC hy0 hyR hx hy hP
  subst hx hy
  by_cases hbs : ch = 127 ∨ ch = 8
  · by_cases hpos : (x : Int) > 0
    · have hxm : (x : Int) - 1 = ((x - 1 : Nat) : Int) := by omega
      obtain ⟨tb, tc, hrun, hdb, hdc, hcells⟩ :=
        put_cell_inv P
          { COLS := COLS, ROWS := ROWS, termBuf := tb0, termColor := tc0,
            cursor_x := ((x - 1 : Nat) : Int), cursor_y := y, cur_fg := fg, cur_bg := bg,
            pstate := ps, esc_buf := eb, osc_buf := ob }
          y (x - 1) 32 hG hP h32 (by dsimp only; omega) (by dsimp only; omega)
      simp only [put_char_local, if_neg h13, if_neg h10, if_neg h9, if_pos hbs, if_pos hpos]
      rw [hxm, hrun]
      exact ⟨_, rfl, rfl, rfl, ⟨hG.1, hG.2.1, hdb, hdc⟩, hcells⟩
    · refine ⟨_, ?_, rfl, rfl, hG, hP⟩
      simp only [put_char_local, if_neg h13, if_neg h10, if_neg h9, if_pos hbs, if_neg hpos]
  · obtain ⟨tb, tc, hrun, hdb, hdc, hcells⟩ :=
      put_cell_inv P
        { COLS := COLS, ROWS := ROWS, termBuf := tb0, termColor := tc0,
          cursor_x := (x : Int), cursor_y := y, cur_fg := fg, cur_bg := bg,
          pstate := ps, esc_buf := eb, osc_buf := ob }
        y x (if ch < FIRST_CHAR ∨ ch > LAST_CHAR then 63 else ch) hG hP huc
        (by dsimp only; omega) (by dsimp only; omega)
    simp only [put_char_local, if_neg h13, if_neg h10, if_neg h9, if_neg hbs]
    rw [hrun]
    dsimp only
    split_ifs
    · obtain ⟨t, ht, h1, h2, h3, h4⟩ :=
        next_line_inv P
          { COLS := COLS, ROWS := ROWS, termBuf := tb, termColor := tc,
            cursor_x := (x : Int) + 1, cursor_y := y, cur_fg := fg, cur_bg := bg,
            pstate := ps, esc_buf := eb, osc_buf := ob }
          ⟨hG.1, hG.2.1, hdb, hdc⟩ hcells h32
      exact ⟨t, ht, h1, h2, h3, h4⟩
    · exact ⟨_, rfl, rfl, rfl, ⟨hG.1, hG.2.1, hdb, hdc⟩, hcells⟩

theorem clear_line_from_inv (P : Nat → Prop) (s : Term) (col : Nat) (hG : GridOK s)
    (hC : CursorOK s) (hP : CellsAll P s.termBuf) (h32 : P 32) (hcol : (col : Int) ≤ s.COLS) :
    ∃ t, clear_line_from s s.cursor_y col = .ok t ∧ Keeps P s t := by
  obtain ⟨hx0, hxC, hy0, hyR⟩ := hC
  obtain ⟨y, hy⟩ : ∃ y : Nat, s.cursor_y = y := ⟨s.cursor_y.toNat, by omega⟩
  have hrow : ¬ (s.cursor_y < 0 ∨ s.cursor_y ≥ s.ROWS) := by omega
  obtain ⟨tb, tc, hrun, hdb, hdc, hcb, _⟩ :=
    clear_cells_spec (s.COLS - col).toNat s y col hG (by omega) (by omega)
  simp only [clear_line_from, if_neg hrow]
  rw [hy, hrun]
  refine ⟨_, rfl, rfl, rfl, ⟨hG.1, hG.2.1, hdb, hdc⟩, ?_⟩
  intro r c v hv
  dsimp only at hv
  rw [hcb r c] at hv
  split_ifs at hv
  · cases hv; exact h32
  · exact hP r c v hv

theorem cleared_cells (P : Nat → Prop) (s : Term) (h32 : P 32) :
    CellsAll P (cleared s).termBuf := by
  intro r c v hv
  unfold cleared cell at hv
  dsimp only at hv
  rw [List.getElem?_replicate] at hv
  split_ifs at hv
  · simp only [Option.some_bind] at hv
    rw [List.getElem?_replicate] at hv
    split_ifs at hv
    cases hv; exact h32
  · simp at hv

theorem stoi_fault (str : List Nat) (e : Fault) (h : stoi str = .error e) :
    e = .invalid_argument ∨ e = .out_of_range := by
  unfold stoi at h
  dsimp only at h
  split_ifs at h <;> cases h <;> first | exact Or.inl rfl | exact Or.inr rfl

theorem sgr_foldl_keeps (P : Nat → Prop) (codes : List Int) (s : Term) (hG : GridOK s)
    (hP : CellsAll P s.termBuf) : Keeps P s (codes.foldl sgr_apply s) := by
  rw [sgr_foldl_spec]
  exact ⟨rfl, rfl, hG, hP⟩

theorem csi_param_fault (params : List Nat) (e : Fault) (h : csi_param params = .error e) :
    e = .invalid_argument ∨ e = .out_of_range := by
  unfold csi_param at h
  split_ifs at h
  exact stoi_fault params e h

/-- On well-formed grids with the cursor inside, `handle_csi_sequence` either returns a
state with the same dimensions, well-formed grids and cells satisfying `P`, or ends in an
exception of `std::stoi` in the `H`, `f`, `J` or `K` branch. -/
theorem handle_csi_inv (P : Nat → Prop) (s : Term) (params : List Nat) (fb : Nat)
    (hG : GridOK s) (hC : CursorOK s) (hP : CellsAll P s.termBuf) (h32 : P 32) :
    (∃ t, handle_csi_sequence s (params ++ [fb]) = .ok t ∧ Keeps P s t) ∨
    ((fb = 72 ∨ fb = 102 ∨ fb = 74 ∨ fb = 75) ∧
      (handle_csi_sequence s (params ++ [fb]) = .error .invalid_argument ∨
        handle_csi_sequence s (params ++ [fb]) = .error .out_of_range)) := by
  have hsame : Keeps P s s := ⟨rfl, rfl, hG, hP⟩
  have hcur : ∀ row col : Int, Keeps P s (set_cursor s row col) :=
    fun row col => ⟨rfl, rfl, hG, hP⟩
  have hstoi : ∀ (str : List Nat) (k : Int → Term), (∀ v, Keeps P s (k v)) →
      ((∃ t, (match stoi str with
              | .error e => (.error e : Except Fault Term)
              | .ok v => .ok (k v)) = .ok t ∧ Keeps P s t) ∨
        ((match stoi str with
              | .error e => (.error e : Except Fault Term)
              | .ok v => .ok (k v)) = .error .invalid_argument ∨
         (match stoi str with
              | .error e => (.error e : Except Fault Term)
              | .ok v => .ok (k v)) = .error .out_of_range)) := by
    intro str k hk
    cases hs : stoi str with
    | error e =>
      right
      rcases stoi_fault str e hs with h | h <;> subst h
      · exact Or.inl rfl
      · exact Or.inr rfl
    | ok v => exact Or.inl ⟨_, rfl, hk v⟩
  by_cases hm : fb = 109
  · subst hm
    left
    rw [handle_csi_m]
    exact ⟨_, rfl, sgr_foldl_keeps P _ s hG hP⟩
  by_cases hH : fb = 72 ∨ fb = 102
  · by_cases hne : params = []
    · left
      subst hne
      refine ⟨set_cursor s 1 1, ?_, hcur 1 1⟩
      rcases hH with h | h <;> subst h <;> rfl
    · rw [handle_csi_H s params fb hH hne]
      have hfb : fb = 72 ∨ fb = 102 ∨ fb = 74 ∨ fb = 75 := by omega
      cases hg : getline params 59 with
      | none =>
        dsimp only
        rcases hstoi [] (fun row => set_cursor s row 1) (fun v => hcur v 1) with h | h
        · exact Or.inl h
        · exact Or.inr ⟨hfb, h⟩
      | some ar =>
        obtain ⟨a, rest⟩ := ar
        dsimp only
        cases hg2 : getline rest 59 with
        | none =>
          dsimp only
          rcases hstoi a (fun row => set_cursor s row 1) (fun v => hcur v 1) with h | h
          · exact Or.inl h
          · exact Or.inr ⟨hfb, h⟩
        | some br =>
          obtain ⟨b, rest2⟩ := br
          dsimp only
          cases hb : stoi b with
          | error e =>
            right
            refine ⟨hfb, ?_⟩
            rcases stoi_fault b e hb with h | h <;> subst h
            · exact Or.inl rfl
            · exact Or.inr rfl
          | ok col =>
            dsimp only
            rcases hstoi a (fun row => set_cursor s row col) (fun v => hcur v col) with h | h
            · exact Or.inl h
            · exact Or.inr ⟨hfb, h⟩
  by_cases hJ : fb = 74
  · subst hJ
    rw [handle_csi_J]
    cases hp : csi_param params with
    | error e =>
      right
      refine ⟨by omega, ?_⟩
      rcases csi_param_fault params e hp with h | h <;> subst h
      · exact Or.inl rfl
      · exact Or.inr rfl
    | ok p =>
      left
      dsimp only
      split_ifs
      · exact ⟨_, clear_screen_cleared s hG, rfl, rfl, cleared_gridOK s hG, cleared_cells P s h32⟩
      · exact ⟨s, rfl, hsame⟩
  by_cases hK : fb = 75
  · subst hK
    rw [handle_csi_K]
    cases hp : csi_param params with
    | error e =>
      right
      refine ⟨by omega, ?_⟩
      rcases csi_param_fault params e hp with h | h <;> subst h
      · exact Or.inl rfl
      · exact Or.inr rfl
    | ok p =>
      left
      dsimp only
      have hx : s.cursor_x = (s.cursor_x.toNat : Int) := by have := hC.1; omega
      split_ifs
      · rw [hx]
        exact clear_line_from_inv P s s.cursor_x.toNat hG hC hP h32 (by have := hC.2.1; omega)
      · exact clear_line_from_inv P s 0 hG hC hP h32 (by have := hG.1; omega)
      · exact ⟨s, rfl, hsame⟩
  · left
    refine ⟨s, ?_, hsame⟩
    have h1 : ¬ (fb = 72 ∨ fb = 102) := hH
    simp [handle_csi_sequence, hm, h1, hJ, hK]

/-- On well-formed grids with the cursor inside, `process_byte_ansi` either returns a state
with the same dimensions, well-formed grids and cells satisfying `P`, or the parser is in
`PS_CSI`, the byte is one of `H`, `f`, `J`, `K` and `std::stoi` has thrown. -/
theorem process_byte_inv (P : Nat → Prop) (s : Term) (b : Nat) (hG : GridOK s)
    (hC : CursorOK s) (hP : CellsAll P s.termBuf) (h32 : P 32) (h63 : P 63)
    (hb : FIRST_CHAR ≤ b → b ≤ LAST_CHAR → P b) :
    (∃ t, process_byte_ansi s b = .ok t ∧ Keeps P s t) ∨
    (s.pstate = .PS_CSI ∧ (b = 72 ∨ b = 102 ∨ b = 74 ∨ b = 75) ∧
      (process_byte_ansi s b = .error .invalid_argument ∨
        process_byte_ansi s b = .error .out_of_range)) := by
  obtain ⟨COLS, ROWS, tb0, tc0, cx, cy, fg, bg, ps, eb, ob⟩ := s
  cases ps with
  | PS_NORMAL =>
    left
    by_cases h27 : b = 27
    · subst h27
      exact ⟨_, rfl, rfl, rfl, hG, hP⟩
    · have huc : P (if b < FIRST_CHAR ∨ b > LAST_CHAR then 63 else b) := by
        split_ifs with h
        · exact h63
        · exact hb (by omega) (by omega)
      simp only [process_byte_ansi, if_neg h27]
      exact put_char_local_inv P _ b hG hC hP h32 huc
  | PS_ESC =>
    left
    simp only [process_byte_ansi]
    split_ifs
    · exact ⟨_, rfl, rfl, rfl, hG, hP⟩
    · exact ⟨_, rfl, rfl, rfl, hG, hP⟩
    · exact ⟨_, rfl, rfl, rfl, hG, hP⟩
  | PS_CSI =>
    simp only [process_byte_ansi]
    split_ifs with hfin
    · rcases handle_csi_inv P
          { COLS := COLS, ROWS := ROWS, termBuf := tb0, termColor := tc0, cursor_x := cx,
            cursor_y := cy, cur_fg := fg, cur_bg := bg, pstate := .PS_CSI,
            esc_buf := eb ++ [b], osc_buf := ob } eb b hG hC hP h32 with h | h
      · obtain ⟨t, ht, h1, h2, h3, h4⟩ := h
        left
        rw [ht]
        exact ⟨_, rfl, h1, h2, h3.congr rfl rfl rfl rfl, h4⟩
      · right
        refine ⟨trivial, h.1, ?_⟩
        rcases h.2 with h2 | h2
        · left; rw [h2]
        · right; rw [h2]
    · exact Or.inl ⟨_, rfl, rfl, rfl, hG, hP⟩
  | PS_OSC =>
    left
    simp only [process_byte_ansi]
    split_ifs
    · exact ⟨_, rfl, rfl, rfl, hG, hP⟩
    · exact ⟨_, rfl, rfl, rfl, hG, hP⟩
    · exact ⟨_, rfl, rfl, rfl, hG, hP⟩

theorem cells_replicate (P : Nat → Prop) (R C u : Nat) (hu : P u) :
    CellsAll P (List.replicate R (List.replicate C u)) := by
  intro r c v hv
  unfold cell at hv
  rw [List.getElem?_replicate] at hv
  split_ifs at hv
  · simp only [Option.some_bind] at hv
    rw [List.getElem?_replicate] at hv
    split_ifs at hv
    cases hv; exact hu
  · simp at hv

theorem screen80x24_charsOK (x y : Int) : CharsOK (screen80x24 x y) :=
  cells_replicate _ 24 80 32 (by decide)

/-- A byte outside `FIRST_CHAR .. LAST_CHAR` that is not one of the control bytes tested
before the store is handled by `process_byte_ansi` exactly as `'?'` is. -/
theorem process_byte_placeholder (s : Term) (b : Nat) (hN : s.pstate = .PS_NORMAL)
    (hout : b < FIRST_CHAR ∨ LAST_CHAR < b)
    (hctl : b ≠ 27 ∧ b ≠ 13 ∧ b ≠ 10 ∧ b ≠ 9 ∧ b ≠ 127 ∧ b ≠ 8) :
    process_byte_ansi s b = process_byte_ansi s 63 := by
  obtain ⟨h27, h13, h10, h9, h127, h8⟩ := hctl
  have hbs : ¬ (b = 127 ∨ b = 8) := by omega
  have hout2 : b < FIRST_CHAR ∨ b > LAST_CHAR := hout
  obtain ⟨COLS, ROWS, tb0, tc0, cx, cy, fg, bg, ps, eb, ob⟩ := s
  dsimp only at hN
  subst hN
  simp only [process_byte_ansi, put_char_local, if_neg h27, if_neg h13, if_neg h10, if_neg h9,
    if_neg hbs, if_pos hout2]
  rfl

/-- A parameter outside the range of `int` and an empty item are both read as code 0
(the `catch(...)` of the SGR loop). -/
theorem sgr_codes_caught :
    sgr_codes 11 (bytes "2147483648") = [0] ∧ sgr_codes 7 (bytes "31;;44") = [31, 0, 44] := by
  decide

/-! ## Lemmas on unrecognised CSI sequences -/

theorem feed_csi_accumulate (l : List Nat) :
    ∀ (s : Term), s.pstate = .PS_CSI → (∀ b ∈ l, ¬ (b ≥ 64 ∧ b ≤ 126)) →
      feed s l = .ok { s with esc_buf := s.esc_buf ++ l } := by
  induction l with
  | nil => intro s _ _; simp [feed]
  | cons b l ih =>
    intro s hC hp
    have hb := hp b (by simp)
    obtain ⟨COLS, ROWS, tb0, tc0, cx, cy, fg, bg, ps, eb, ob⟩ := s
    dsimp only at hC
    subst hC
    simp only [feed, process_byte_ansi, if_neg hb]
    rw [ih _ rfl (fun c hc => hp c (List.mem_cons_of_mem _ hc))]
    simp

theorem handle_csi_other (s : Term) (params : List Nat) (fb : Nat)
    (h : fb ≠ 109 ∧ fb ≠ 72 ∧ fb ≠ 102 ∧ fb ≠ 74 ∧ fb ≠ 75) :
    handle_csi_sequence s (params ++ [fb]) = .ok s := by
  obtain ⟨h1, h2, h3, h4, h5⟩ := h
  simp [handle_csi_sequence, h1, h2, h3, h4, h5]

/-! ## Lemmas on the wrap at the last column -/

theorem evict_top_row_ok (s : Term) (hG : GridOK s) :
    evict_top_row s
      = .ok { s with termBuf := s.termBuf.tail ++ [List.replicate s.COLS.toNat 32],
                     termColor := s.termColor.tail ++ [List.replicate s.COLS.toNat white],
                     cursor_y := s.ROWS - 1 } := by
  obtain ⟨COLS, ROWS, tb0, tc0, cx, cy, fg, bg, ps, eb, ob⟩ := s
  obtain ⟨hC, hR, ⟨hbl, _⟩, ⟨hcl, _⟩⟩ := hG
  dsimp only at hC hR hbl hcl
  cases tb0 with
  | nil => simp at hbl; omega
  | cons r0 tb1 =>
    cases tc0 with
    | nil => simp at hcl; omega
    | cons c0 tc1 => rfl

theorem cell_tail_append {α : Type} (buf : List (List α)) (row : List α) (i c : Nat)
    (hi : i + 1 < buf.length) :
    cell (buf.tail ++ [row]) i c = cell buf (i + 1) c := by
  cases buf with
  | nil => simp at hi
  | cons r0 tb =>
    simp only [List.length_cons] at hi
    unfold cell
    rw [List.tail_cons, List.getElem?_append_left (by omega)]
    simp

theorem cell_tail_last {α : Type} (buf : List (List α)) (C : Nat) (v : α) (c : Nat)
    (hne : buf ≠ []) (hc : c < C) :
    cell (buf.tail ++ [List.replicate C v]) (buf.length - 1) c = some v := by
  cases buf with
  | nil => exact absurd rfl hne
  | cons r0 tb =>
    unfold cell
    simp only [List.tail_cons, List.length_cons, Nat.add_sub_cancel]
    rw [List.getElem?_append_right (le_refl _)]
    simp [hc]

/-- A byte that `put_char_local` stores in a cell, written in the last column: the cell
receives the byte (or `?`) in the current foreground, then the cursor goes to column 0 of
the next row, the top row being evicted when there is no next row. -/
theorem put_char_wrap (s : Term) (x y : Nat) (ch : Nat) (hG : GridOK s)
    (hx : s.cursor_x = x) (hy : s.cursor_y = y) (hx1 : (x : Int) + 1 = s.COLS)
    (hyR : (y : Int) < s.ROWS)
    (hch : ch ≠ 13 ∧ ch ≠ 10 ∧ ch ≠ 9 ∧ ch ≠ 127 ∧ ch ≠ 8) :
    put_char_local s ch
      = next_line { s with
          termBuf := grid_set s.termBuf y x
            (if ch < FIRST_CHAR ∨ ch > LAST_CHAR then 63 else ch)
          termColor := grid_set s.termColor y x s.cur_fg
          cursor_x := (x : Int) + 1 } := by
  obtain ⟨h13, h10, h9, h127, h8⟩ := hch
  have hput := put_cell_ok s y x (if ch < FIRST_CHAR ∨ ch > LAST_CHAR then 63 else ch) hG hyR
    (by omega)
  unfold put_char_local
  rw [if_neg h13, if_neg h10, if_neg h9, if_neg (by omega)]
  simp only [hx, hy, hput]
  rw [if_pos (by omega)]

/-! ## Lemmas on the shell quoting -/

theorem escape_foldl (s : List Nat) :
    ∀ acc : List Nat,
      s.foldl (fun (out : List Nat) (c : Nat) =>
          if c = 39 then out ++ [39, 92, 39, 39] else out ++ [c]) acc
        = acc ++ replace_quotes s := by
  induction s with
  | nil => intro acc; simp [replace_quotes]
  | cons c t ih =>
    intro acc
    simp only [List.foldl_cons, replace_quotes]
    rw [ih]
    split_ifs <;> simp

theorem escape_eq_replace (s : List Nat) : shell_escape_single_quotes s = replace_quotes s := by
  unfold shell_escape_single_quotes
  rw [escape_foldl]
  simp

theorem unquote_replace (s : List Nat) :
    sh_unquote .inside (replace_quotes s ++ [39]) = some s := by
  induction s with
  | nil => simp [replace_quotes, sh_unquote]
  | cons c t ih =>
    by_cases hc : c = 39
    · subst hc
      simp [replace_quotes, sh_unquote, ih]
    · simp [replace_quotes, sh_unquote, hc, ih]

theorem replace_quotes_length (s : List Nat) :
    (replace_quotes s).length = s.length + 3 * s.count 39 := by
  induction s with
  | nil => simp [replace_quotes]
  | cons c t ih =>
    by_cases hc : c = 39
    · subst hc
      simp only [replace_quotes, if_true, List.length_append, List.length_cons, List.length_nil,
        ih, List.count_cons_self]
      omega
    · have hc2 : (c == 39) = false := by simpa using hc
      simp only [replace_quotes, if_neg hc, List.length_append, List.length_cons,
        List.length_nil, ih, List.count_cons, hc2]
      simp
      omega

/-! ## Lemmas on the lines of the candidate -/

theorem getline_line_no_delim (ss : List Nat) (d : Nat) (line rest : List Nat)
    (h : getline ss d = some (line, rest)) : d ∉ line := by
  cases ss with
  | nil => simp [getline] at h
  | cons a t =>
    simp only [getline, Option.some.injEq, Prod.mk.injEq] at h
    obtain ⟨h1, _⟩ := h
    intro hm
    rw [← h1] at hm
    have := List.mem_takeWhile_imp hm
    simp at this

theorem first_line_no_newline (fuel : Nat) : ∀ ss : List Nat, 10 ∉ first_line fuel ss := by
  induction fuel with
  | zero => intro ss; simp [first_line]
  | succ n ih =>
    intro ss
    unfold first_line
    cases hg : getline ss 10 with
    | none => simp
    | some lr =>
      obtain ⟨line, rest⟩ := lr
      dsimp only
      split_ifs
      · exact getline_line_no_delim ss 10 line rest hg
      · exact ih rest

theorem first_line_nil (fuel : Nat) :
    ∀ ss : List Nat, ss.length < fuel → first_line fuel ss = [] → ∀ c ∈ ss, c = 10 := by
  induction fuel with
  | zero => intro ss h; omega
  | succ n ih =>
    intro ss hlen h c hc
    have hne : ss ≠ [] := List.ne_nil_of_mem hc
    unfold first_line at h
    rcases getline_cases ss 10 hne with ⟨_, hg⟩ | ⟨line, rest, _, hss, hg⟩
    · rw [hg] at h
      dsimp only at h
      rw [if_pos hne] at h
      exact absurd h hne
    · rw [hg] at h
      dsimp only at h
      by_cases hl : line = []
      · subst hl
        rw [if_neg (by simp)] at h
        rw [hss] at hc hlen
        simp only [List.nil_append, List.mem_cons, List.length_cons] at hc hlen
        rcases hc with rfl | hc
        · rfl
        · exact ih rest (by omega) h c hc
      · rw [if_pos hl] at h
        exact absurd h hl

theorem trim_trailing_all_newlines (o : List Nat) (h : ∀ c ∈ trim_trailing o, c = 10) :
    trim_trailing o = [] := by
  by_contra hne
  have hlast := List.rdropWhile_last_not (fun c => decide (c = 10 ∨ c = 13 ∨ c = 32 ∨ c = 9)) o hne
  have h10 := h _ (List.getLast_mem hne)
  apply hlast
  unfold trim_trailing at h10
  rw [h10]
  decide

/-- The candidate of the worker holds no line feed. -/
theorem candidate_no_newline (o : List Nat) : 10 ∉ candidate o := by
  unfold candidate
  dsimp only
  split_ifs with h
  · have hall := first_line_nil _ (trim_trailing o) (Nat.lt_succ_self _) h
    rw [trim_trailing_all_newlines o hall]
    simp
  · exact first_line_no_newline _ _

/-! ## Lemmas on the confirmation state -/

theorem append_to_shell_buffer_ok {w w1 : World} {ch : Nat}
    (h : append_to_shell_buffer w ch = .ok w1) :
    ∃ t, w1 = { w with shell_buffer := w.shell_buffer ++ [ch], term := t } := by
  obtain ⟨t, _, rfl⟩ := on_term_ok h
  exact ⟨t, rfl⟩

theorem shell_backspace_ok {w w1 : World} (h : shell_backspace w = .ok w1) :
    ∃ t sb, w1 = { w with shell_buffer := sb, term := t } := by
  unfold shell_backspace at h
  dsimp only at h
  split_ifs at h with h1 h2
  · obtain ⟨t, _, rfl⟩ := on_term_ok h
    exact ⟨t, _, rfl⟩
  · cases h; exact ⟨_, _, rfl⟩
  · cases h; exact ⟨w.term, w.shell_buffer, rfl⟩

theorem char_callback_ok {w w1 : World} {codepoint : Nat}
    (h : char_callback w codepoint = .ok w1) :
    ∃ t sb, w1 = { w with shell_buffer := sb, term := t } := by
  unfold char_callback at h
  split_ifs at h
  · cases h; exact ⟨w.term, w.shell_buffer, rfl⟩
  · cases h; exact ⟨w.term, w.shell_buffer, rfl⟩
  · exact shell_backspace_ok h
  · obtain ⟨t, rfl⟩ := append_to_shell_buffer_ok h
    exact ⟨t, _, rfl⟩
  · obtain ⟨t, rfl⟩ := append_to_shell_buffer_ok h
    exact ⟨t, _, rfl⟩

theorem send_key_to_pty_awaiting (w : World) (str : List Nat) :
    (send_key_to_pty w str).awaiting_confirm = w.awaiting_confirm := by
  unfold send_key_to_pty
  split_ifs <;> rfl

/-- A key event that finds `awaiting_confirm` false leaves it false. -/
theorem key_callback_not_awaiting {w w1 : World} {key action : Int} {mods : Nat}
    (h : key_callback w key action mods = .ok w1) (hc : w.awaiting_confirm = false) :
    w1.awaiting_confirm = false := by
  have hs := fun str => send_key_to_pty_awaiting w str
  unfold key_callback at h
  dsimp only at h
  split_ifs at h
  · simp_all
  · simp_all
  · simp_all
  · simp_all
  · obtain ⟨t, rfl⟩ := echo_line_ok h
    exact hc
  · obtain ⟨t, rfl⟩ := echo_line_ok h
    exact hc
  · cases he : echo_line (send_key_to_pty w (w.shell_buffer ++ [10])) [] with
    | error e => simp [he] at h
    | ok w2 =>
      simp only [he] at h
      cases h
      obtain ⟨t, rfl⟩ := echo_line_ok he
      exact (hs _).trans hc
  · obtain ⟨t, rfl⟩ := echo_line_ok h
    exact (hs _).trans hc
  · obtain ⟨t, sb, rfl⟩ := shell_backspace_ok h
    exact hc
  · cases h
    exact (hs _).trans hc
  · cases h
    exact (hs _).trans hc
  · obtain ⟨t, rfl⟩ := append_to_shell_buffer_ok h
    exact hc
  · cases h; exact hc
  · cases h; exact hc
  · cases h; exact hc

/-- What the result pickup has done to the confirmation state when it returns. -/
theorem main_ai_pickup_ok {w w1 : World} (h : main_ai_pickup w = .ok w1) :
    (w.ai_ready = true ∧ w.ai_result ≠ [] ∧ w1.awaiting_confirm = true ∧
      w1.pending_ai_cmd = w.ai_result ∧ w1.input_blocked = true ∧ w1.pty_out = w.pty_out ∧
      w1.master_fd = w.master_fd) ∨
    ((w.ai_ready = false ∨ w.ai_result = []) ∧ w1.awaiting_confirm = w.awaiting_confirm ∧
      w1.pending_ai_cmd = w.pending_ai_cmd ∧ w1.input_blocked = w.input_blocked ∧
      w1.pty_out = w.pty_out ∧ w1.master_fd = w.master_fd) := by
  unfold main_ai_pickup at h
  dsimp only at h
  split_ifs at h with hr hne
  · left
    cases h1 : echo_line { w with input_blocked := true, pending_ai_cmd := w.ai_result,
                                  awaiting_confirm := true }
        (bytes "[AI suggestion] " ++ w.ai_result) with
    | error e => simp [h1] at h
    | ok w2 =>
      simp only [h1] at h
      cases h2 : echo_line w2 (bytes "Execute? (y/n)") with
      | error e => simp [h2] at h
      | ok w3 =>
        simp only [h2] at h
        cases h
        obtain ⟨t1, rfl⟩ := echo_line_ok h1
        obtain ⟨t2, rfl⟩ := echo_line_ok h2
        exact ⟨hr, hne, rfl, rfl, rfl, rfl, rfl⟩
  · right
    cases h
    exact ⟨Or.inr (not_not.mp hne), rfl, rfl, rfl, rfl, rfl⟩
  · right
    cases h
    exact ⟨Or.inl (by simpa using hr), rfl, rfl, rfl, rfl, rfl⟩

/-- Every event on which the router returns preserves the confirmation-state invariant. -/
theorem router_step_confirmOK {w w1 : World} {e : RouterEvent}
    (h : router_step w e = .ok w1) (hI : ConfirmOK w) : ConfirmOK w1 := by
  cases e with
  | char_event codepoint =>
    obtain ⟨t, sb, rfl⟩ := char_callback_ok (show char_callback w codepoint = .ok w1 from h)
    exact hI
  | key_event key action mods =>
    have hk : key_callback w key action mods = .ok w1 := h
    by_cases hc : w.awaiting_confirm = true
    · by_cases hact : action = GLFW_PRESS ∨ action = GLFW_REPEAT
      · obtain ⟨_, _, hyn, hother⟩ := confirm_resolution_of_return w w1 key action mods hc hact hk
        by_cases hkey : key = GLFW_KEY_Y ∨ key = GLFW_KEY_N
        · intro ha
          rw [(hyn hkey).1] at ha
          cases ha
        · rw [hother (fun h1 => hkey (Or.inl h1)) (fun h1 => hkey (Or.inr h1))]
          exact hI
      · unfold key_callback at hk
        rw [if_pos hact] at hk
        cases hk
        exact hI
    · have hc2 : w.awaiting_confirm = false := by simpa using hc
      intro ha
      rw [key_callback_not_awaiting hk hc2] at ha
      cases ha
  | worker_done out =>
    cases h
    exact hI
  | pickup =>
    rcases main_ai_pickup_ok (show main_ai_pickup w = .ok w1 from h) with
      ⟨_, hne, _, hp, hb, _, _⟩ | ⟨_, ha, hp, hb, _, _⟩
    · intro _
      rw [hp]
      exact ⟨hne, hb⟩
    · intro ha1
      rw [ha] at ha1
      rw [hp, hb]
      exact hI ha1

theorem router_run_confirmOK (es : List RouterEvent) :
    ∀ w w1 : World, router_run w es = .ok w1 → ConfirmOK w → ConfirmOK w1 := by
  induction es with
  | nil =>
    intro w w1 h hI
    cases h
    exact hI
  | cons e es ih =>
    intro w w1 h hI
    unfold router_run at h
    cases hs : router_step w e with
    | error f => simp [hs] at h
    | ok w2 =>
      simp only [hs] at h
      exact ih w2 w1 h (router_step_confirmOK hs hI)

/-! ## Lemmas on the capture of the backend output -/

theorem candidate_eq_spec (out : List Nat) : candidate out = candidate_spec out := by
  have htrim : trim_trailing out = trimmed_output out := rfl
  unfold candidate candidate_spec
  simp only [htrim]
  rw [first_line_splitOn _ _ (Nat.lt_succ_self _)]
  cases hf : ((trimmed_output out).splitOn 10).find? (fun l => decide (0 < l.length)) with
  | none => simp
  | some l =>
    have hl := List.find?_some hf
    have hne : l ≠ [] := by
      intro h; subst h; simp at hl
    simp [hne]

theorem fgets_some (stream : List Nat) (hne : stream ≠ []) :
    ∃ n, 0 < n ∧ fgets 4096 stream = some (stream.take n, stream.drop n) := by
  cases stream with
  | nil => exact absurd rfl hne
  | cons a t =>
    refine ⟨_, ?_, rfl⟩
    dsimp only
    split_ifs
    · omega
    · simp

theorem c_str_no_nul (buf : List Nat) (h : 0 ∉ buf) : c_str buf = buf := by
  unfold c_str
  rw [List.takeWhile_eq_self_iff]
  intro c hc
  have : c ≠ 0 := fun h0 => h (h0 ▸ hc)
  simpa using this

/-- A pipe that delivers no NUL byte is read whole. -/
theorem read_pipe_no_nul (fuel : Nat) :
    ∀ (stream out : List Nat), stream.length < fuel → 0 ∉ stream →
      read_pipe fuel stream out = out ++ stream := by
  induction fuel with
  | zero => intro stream out h; omega
  | succ n ih =>
    intro stream out hlen h0
    by_cases hne : stream = []
    · subst hne
      simp [read_pipe, fgets]
    · obtain ⟨k, hk, hf⟩ := fgets_some stream hne
      have hlpos : 0 < stream.length := List.length_pos.mpr hne
      have h0t : 0 ∉ stream.take k := fun h => h0 (List.mem_of_mem_take h)
      have h0d : 0 ∉ stream.drop k := fun h => h0 (List.mem_of_mem_drop h)
      unfold read_pipe
      rw [hf]
      dsimp only
      rw [c_str_no_nul _ h0t, ih _ _ (by rw [List.length_drop]; omega) h0d,
        List.append_assoc, List.take_append_drop]

theorem run_llm_blocking_no_nul (o : List Nat) (h0 : 0 ∉ o) : run_llm_blocking (some o) = o := by
  unfold run_llm_blocking
  dsimp only
  rw [read_pipe_no_nul _ _ _ (Nat.lt_succ_self _) h0]
  simp

/-! ## The claims -/

/-- C1 (fails on the code). On an 80x24 screen with the cursor inside the grid at
column 72, a tab byte in `Normal` leaves `cursor_x = 80 = COLS`, outside `0 ≤ x < COLS`;
the next printable byte then indexes the row at column 80 and faults. -/
theorem tab_breaks_cursor_invariant :
    CursorOK (screen80x24 72 0) ∧
    (process_byte_ansi (screen80x24 72 0) 9).map (fun t => (t.cursor_x, t.COLS))
      = .ok (80, 80) ∧
    feed (screen80x24 72 0) [9, 65] = .error .out_of_bounds := by
  refine ⟨by simp [CursorOK, screen80x24], rfl, rfl⟩

/-- C2 (fails on the code). In every state the cursor-position sequence with the
parameters `;5` (empty row) and the erase sequences with the parameter `?2` end in an
uncaught `std::invalid_argument`, while the SGR branch, which has the `try`/`catch`,
reads the same `?2` as code 0. -/
theorem csi_unparsable_parameter_throws (s : Term) :
    handle_csi_sequence s [59, 53, 72] = .error .invalid_argument ∧
    handle_csi_sequence s [63, 50, 74] = .error .invalid_argument ∧
    handle_csi_sequence s [63, 50, 75] = .error .invalid_argument ∧
    handle_csi_sequence s [63, 50, 109] = .ok { s with cur_fg := white, cur_bg := black } ∧
    feed (screen80x24 0 0) [27, 91, 59, 53, 72] = .error .invalid_argument :=
  ⟨rfl, rfl, rfl, rfl, rfl⟩

/-- C3. Scrolling FIFO: on the screen `s` left by `clear_screen` (cursor at the origin)
with the parser in `Normal`, feeding `ROWS + 1` lines, each of fewer than `COLS` bytes in
`32..126`, joined by `'\n'`, returns; afterwards the buffer has exactly `ROWS` rows, row `i`
holds line `i + 1` followed by blanks (line 0 is gone), and `cursor_y = ROWS - 1`. -/
theorem scrolling_fifo (s0 s : Term) (lines : List (List Nat)) (hG : GridOK s0)
    (hclr : clear_screen s0 = .ok s) (hN : s.pstate = .PS_NORMAL)
    (hlen : lines.length = s.ROWS.toNat + 1)
    (hl : ∀ l ∈ lines, (l.length : Int) < s.COLS ∧ ∀ b ∈ l, 32 ≤ b ∧ b ≤ 126) :
    ∃ s1, feed s (join_lines lines) = .ok s1 ∧ s1.termBuf.length = s.ROWS.toNat ∧
      (∀ i, i < s.ROWS.toNat →
        s1.termBuf[i]? = (lines[i + 1]?).map (pad_line s.COLS.toNat)) ∧
      s1.cursor_y = s.ROWS - 1 := by
  rw [clear_screen_spec s0 hG] at hclr
  cases hclr
  dsimp only at hN hlen hl ⊢
  have hR : 0 < s0.ROWS := hG.2.1
  have hGs : GridOK { s0 with
      termBuf := List.replicate s0.ROWS.toNat (List.replicate s0.COLS.toNat 32)
      termColor := List.replicate s0.ROWS.toNat (List.replicate s0.COLS.toNat white)
      cursor_x := 0, cursor_y := 0 } :=
    ⟨hG.1, hG.2.1, dims_replicate _ _ 32, dims_replicate _ _ white⟩
  -- the lines are `l0 :: (mid ++ [last])`
  obtain ⟨l0, rest, rfl⟩ : ∃ l0 rest, lines = l0 :: rest := by
    cases lines with
    | nil => simp at hlen
    | cons a t => exact ⟨a, t, rfl⟩
  have hrest : rest ≠ [] := by
    intro h; subst h; simp at hlen; omega
  obtain ⟨mid, last, rfl⟩ : ∃ mid last, rest = mid ++ [last] :=
    ⟨rest.dropLast, rest.getLast hrest, (List.dropLast_append_getLast hrest).symm⟩
  have hmid : mid.length + 1 = s0.ROWS.toNat := by
    simp at hlen; omega
  -- the first `ROWS` lines fill the screen
  obtain ⟨s1, hrun1, hG1, hN1, hC1, hR1, hy1, hb1⟩ :=
    feed_lines mid l0 _ [] (s0.ROWS.toNat - 1) hGs hN rfl rfl
      (by dsimp only; rw [Nat.sub_add_cancel (by omega)]; simp) (by omega)
      (fun l hl2 => hl l (by
        rcases List.mem_cons.mp hl2 with h | h
        · simp [h]
        · simp [h]))
  dsimp only at hC1 hR1 hb1
  have hsub : s0.ROWS.toNat - 1 - mid.length = 0 := by omega
  rw [hsub] at hb1
  simp only [List.nil_append, List.replicate_zero, List.append_nil, List.map_cons] at hb1
  -- the line feed after them scrolls
  have hnl := process_newline_scroll s1 hG1 hN1 (by rw [hy1, hR1]; simp; omega)
  have hG2 : GridOK { s1 with
      termBuf := s1.termBuf.tail ++ [List.replicate s1.COLS.toNat 32]
      termColor := s1.termColor.tail ++ [List.replicate s1.COLS.toNat white]
      cursor_x := 0, cursor_y := s1.ROWS - 1 } :=
    ⟨hG1.1, hG1.2.1, hG1.2.2.1.scroll (by rw [hR1]; omega) 32,
      hG1.2.2.2.scroll (by rw [hR1]; omega) white⟩
  -- the last line goes into the fresh bottom row
  obtain ⟨s3, hrun3, _, _, hC3, hR3, hy3, hb3⟩ :=
    feed_lines [] last _ (mid.map (pad_line s0.COLS.toNat)) 0 hG2 hN1 rfl
      (by dsimp only; rw [hR1]; simp; omega)
      (by dsimp only; rw [hb1, hC1]; simp)
      (by simp)
      (fun l hl2 => by
        have := hl l (by simp at hl2; simp [hl2])
        dsimp only
        rw [hC1]
        exact this)
  dsimp only at hC3 hR3 hy3 hb3
  rw [join_lines_single] at hrun3
  refine ⟨s3, ?_, ?_, ?_, ?_⟩
  · rw [join_lines_concat, feed_append, hrun1]
    simp only [feed]
    rw [hnl]
    exact hrun3
  · rw [hb3]; simp; omega
  · intro i _
    have hfin : s3.termBuf = (mid ++ [last]).map (pad_line s0.COLS.toNat) := by
      rw [hb3, hC1]; simp
    rw [hfin, List.getElem?_map, List.getElem?_cons_succ]
  · rw [hy3]; simp; omega

/-- C3, instance: the 25 lines `A` .. `Y` on a blank 80x24 screen; the top row ends up
holding `B`. -/
theorem scrolling_fifo_witness :
    ∃ s1, feed (screen80x24 0 0) (join_lines lines25) = .ok s1 ∧ s1.termBuf.length = 24 ∧
      s1.termBuf[0]? = some (pad_line 80 [66]) ∧ s1.cursor_y = 23 := by
  obtain ⟨s1, h1, h2, h3, h4⟩ :=
    scrolling_fifo (screen80x24 0 0) (screen80x24 0 0) lines25 (screen80x24_gridOK 0 0) rfl rfl
      rfl (by decide)
  exact ⟨s1, h1, h2, h3 0 (by decide), h4⟩

/-- C4 (fails as stated). For `row = INT_MIN`, written in decimal, the subtraction
`row-1` leaves the `int` range: on an 80x24 screen the handler puts the cursor on row 23,
whereas `clamp(row-1, 0, ROWS-1)` is 0. -/
theorem cursor_position_int_min :
    (handle_csi_sequence (screen80x24 0 0)
        (int_decimal (-2147483648) ++ [59] ++ int_decimal 1 ++ [72])).map
        (fun t => (t.cursor_y, t.cursor_x)) = .ok (23, 0) ∧
    clamp (-2147483648 - 1) 0 ((screen80x24 0 0).ROWS - 1) = 0 :=
  ⟨rfl, rfl⟩

/-- C4 (amended). For all integers `row` and `col` with `INT_MIN < row, col ≤ INT_MAX`,
written in decimal as the parameters `row;col` of a CSI sequence with final byte `H` or
`f`, the handler returns, sets `cursor_y = clamp(row-1, 0, ROWS-1)` and
`cursor_x = clamp(col-1, 0, COLS-1)`, and changes nothing else. -/
theorem cursor_position (s : Term) (row col : Int) (final_byte : Nat)
    (hf : final_byte = 72 ∨ final_byte = 102)
    (hr1 : INT_MIN < row) (hr2 : row ≤ INT_MAX) (hc1 : INT_MIN < col) (hc2 : col ≤ INT_MAX) :
    handle_csi_sequence s (int_decimal row ++ [59] ++ int_decimal col ++ [final_byte])
      = .ok { s with cursor_y := clamp (row - 1) 0 (s.ROWS - 1),
                     cursor_x := clamp (col - 1) 0 (s.COLS - 1) } := by
  have hne : int_decimal row ++ [59] ++ int_decimal col ≠ [] := by simp
  have hg1 : getline (int_decimal row ++ [59] ++ int_decimal col) 59
      = some (int_decimal row, int_decimal col) := by
    rw [List.append_assoc]
    exact getline_delim _ _ 59 (int_decimal_no_semicolon row)
  have hg2 : getline (int_decimal col) 59 = some (int_decimal col, []) :=
    getline_last _ 59 (int_decimal_ne_nil col) (int_decimal_no_semicolon col)
  have hw1 : int_wrap (row - 1) = row - 1 :=
    int_wrap_id _ (by unfold INT_MIN at *; omega) (by unfold INT_MAX at *; omega)
  have hw2 : int_wrap (col - 1) = col - 1 :=
    int_wrap_id _ (by unfold INT_MIN at *; omega) (by unfold INT_MAX at *; omega)
  rw [handle_csi_H s _ final_byte hf hne, hg1]
  simp only [hg2, stoi_int_decimal col (le_of_lt hc1) hc2, stoi_int_decimal row (le_of_lt hr1) hr2,
    set_cursor, hw1, hw2]

/-- C4, instance: the request `999;999` on an 80x24 screen puts the cursor at row 23,
column 79. -/
theorem cursor_position_witness :
    int_decimal 999 ++ [59] ++ int_decimal 999 ++ [72] = bytes "999;999H" ∧
    handle_csi_sequence (screen80x24 0 0) (bytes "999;999H")
      = .ok { (screen80x24 0 0) with cursor_y := 23, cursor_x := 79 } :=
  ⟨rfl, cursor_position (screen80x24 0 0) 999 999 72 (Or.inl rfl) (by decide) (by decide)
    (by decide) (by decide)⟩

/-- C5. Tab stop: with the cursor at column `x < COLS` of row `y`, `put_char_local('\t')`
returns, sets `cursor_x` to `min((x/8 + 1)*8, COLS)`, changes no other variable than the
two grids, and in the grids writes a space with the current foreground into the cells of
row `y` from column `x` up to the new `cursor_x - 1`, every other cell keeping its content;
from column 3 the cursor goes to 8 and from column 8 to 16 (the grid being that wide). -/
theorem tab_stop (s : Term) (x y : Nat) (hG : GridOK s) (hx : s.cursor_x = x)
    (hy : s.cursor_y = y) (hxC : (x : Int) < s.COLS) (hyR : (y : Int) < s.ROWS) :
    ∃ tb tc,
      put_char_local s 9
        = .ok { s with termBuf := tb, termColor := tc,
                       cursor_x := min (((x / 8 + 1) * 8 : Nat) : Int) s.COLS } ∧
      Dims s.ROWS.toNat s.COLS.toNat tb ∧ Dims s.ROWS.toNat s.COLS.toNat tc ∧
      (∀ r c, cell tb r c
        = if r = y ∧ x ≤ c ∧ (c : Int) < min (((x / 8 + 1) * 8 : Nat) : Int) s.COLS
          then some 32 else cell s.termBuf r c) ∧
      (∀ r c, cell tc r c
        = if r = y ∧ x ≤ c ∧ (c : Int) < min (((x / 8 + 1) * 8 : Nat) : Int) s.COLS
          then some s.cur_fg else cell s.termColor r c) ∧
      (x = 3 → 8 ≤ s.COLS → min (((x / 8 + 1) * 8 : Nat) : Int) s.COLS = 8) ∧
      (x = 8 → 16 ≤ s.COLS → min (((x / 8 + 1) * 8 : Nat) : Int) s.COLS = 16) := by
  have hto : (s.cursor_x.tdiv 8 + 1) * 8 = (((x / 8 + 1) * 8 : Nat) : Int) := by
    rw [hx]
    have : (x : Int).tdiv 8 = ((x / 8 : Nat) : Int) := (Int.ofNat_tdiv x 8).symm
    rw [this]; push_cast; ring
  obtain ⟨tb, tc, hrun, hdb, hdc, hcb, hcc⟩ :=
    tab_loop_spec (((x / 8 + 1) * 8 : Nat) : Int) ((x / 8 + 1) * 8 - x) s x y hG hx hy hyR
      (by omega) (by omega)
  refine ⟨tb, tc, ?_, hdb, hdc, ?_, ?_, ?_, ?_⟩
  · have hfuel : ((((x / 8 + 1) * 8 : Nat) : Int) - s.cursor_x).toNat = (x / 8 + 1) * 8 - x := by
      omega
    have hdef : put_char_local s 9
        = tab_loop ((s.cursor_x.tdiv 8 + 1) * 8)
            ((s.cursor_x.tdiv 8 + 1) * 8 - s.cursor_x).toNat s := by
      simp [put_char_local]
    rw [hdef, hto, hfuel]
    exact hrun
  · intro r c
    rw [hcb r c]
    split_ifs <;> first | rfl | (exfalso; omega)
  · intro r c
    rw [hcc r c]
    split_ifs <;> first | rfl | (exfalso; omega)
  · intro h3 h8; subst h3; omega
  · intro h3 h8; subst h3; omega

/-- C5, instance: a tab at column 3 of row 0 of a blank 80x24 screen. -/
theorem tab_stop_witness :
    ∃ tb tc,
      put_char_local (screen80x24 3 0) 9
        = .ok { (screen80x24 3 0) with
                  termBuf := tb, termColor := tc,
                  cursor_x := min (((3 / 8 + 1) * 8 : Nat) : Int) (screen80x24 3 0).COLS } ∧
      Dims (screen80x24 3 0).ROWS.toNat (screen80x24 3 0).COLS.toNat tb ∧
      Dims (screen80x24 3 0).ROWS.toNat (screen80x24 3 0).COLS.toNat tc ∧
      (∀ r c, cell tb r c
        = if r = 0 ∧ 3 ≤ c ∧
              (c : Int) < min (((3 / 8 + 1) * 8 : Nat) : Int) (screen80x24 3 0).COLS
          then some 32 else cell (screen80x24 3 0).termBuf r c) ∧
      (∀ r c, cell tc r c
        = if r = 0 ∧ 3 ≤ c ∧
              (c : Int) < min (((3 / 8 + 1) * 8 : Nat) : Int) (screen80x24 3 0).COLS
          then some (screen80x24 3 0).cur_fg else cell (screen80x24 3 0).termColor r c) ∧
      (3 = 3 → 8 ≤ (screen80x24 3 0).COLS
        → min (((3 / 8 + 1) * 8 : Nat) : Int) (screen80x24 3 0).COLS = 8) ∧
      (3 = 8 → 16 ≤ (screen80x24 3 0).COLS
        → min (((3 / 8 + 1) * 8 : Nat) : Int) (screen80x24 3 0).COLS = 16) :=
  tab_stop (screen80x24 3 0) 3 0 (screen80x24_gridOK 3 0) rfl rfl (by decide) (by decide)

/-- C7. SGR round trip: from `Normal` with the cursor at `(x, y)`, `x + 2 < COLS`, the
bytes `ESC [ 3 1 m H i ESC [ 0 m` are consumed without fault; afterwards cell `(y, x)` holds
`H` and cell `(y, x+1)` holds `i`, both in the red palette colour `ansi_basic_color(1)`,
every other cell is unchanged, the current foreground is white (and the background
black), the parser is in `Normal` and the cursor is at `(x+2, y)`. -/
theorem sgr_round_trip (s : Term) (x y : Nat) (hG : GridOK s) (hN : s.pstate = .PS_NORMAL)
    (hx : s.cursor_x = x) (hy : s.cursor_y = y) (hx2 : (x : Int) + 2 < s.COLS)
    (hyR : (y : Int) < s.ROWS) :
    ∃ tb tc,
      feed s [27, 91, 51, 49, 109, 72, 105, 27, 91, 48, 109]
        = .ok { s with termBuf := tb, termColor := tc, cursor_x := (x : Int) + 2,
                       cur_fg := white, cur_bg := black, pstate := .PS_NORMAL,
                       esc_buf := [] } ∧
      (∀ r c, cell tb r c
        = if r = y ∧ c = x then some 72 else if r = y ∧ c = x + 1 then some 105
          else cell s.termBuf r c) ∧
      (∀ r c, cell tc r c
        = if r = y ∧ (c = x ∨ c = x + 1) then some (ansi_basic_color 1)
          else cell s.termColor r c) := by
  obtain ⟨COLS, ROWS, tb0, tc0, cx, cy, fg, bg, ps, eb, ob⟩ := s
  dsimp only at hN hx hy hx2 hyR
  subst hN hx hy
  have hsplit : [27, 91, 51, 49, 109, 72, 105, 27, 91, 48, 109]
      = [27, 91, 51, 49, 109] ++ ([72, 105] ++ [27, 91, 48, 109]) := rfl
  have hG1 : GridOK
      { COLS := COLS, ROWS := ROWS, termBuf := tb0, termColor := tc0,
        cursor_x := x, cursor_y := y, cur_fg := ansi_basic_color 1, cur_bg := bg,
        pstate := .PS_NORMAL, esc_buf := [], osc_buf := ob } := hG
  have hH := process_byte_plain _ x y 72 hG1 rfl rfl rfl (by dsimp only; omega) hyR
    (by decide) (by decide)
  have hG2 := hG1.put y x 72 (ansi_basic_color 1) hyR
  have hi := process_byte_plain
    { COLS := COLS, ROWS := ROWS, termBuf := grid_set tb0 y x 72,
      termColor := grid_set tc0 y x (ansi_basic_color 1),
      cursor_x := (x : Int) + 1, cursor_y := y, cur_fg := ansi_basic_color 1, cur_bg := bg,
      pstate := .PS_NORMAL, esc_buf := [], osc_buf := ob }
    (x + 1) y 105 hG2 rfl (by simp) rfl (by dsimp only; push_cast; omega) hyR
    (by decide) (by decide)
  dsimp only at hH hi
  have h72 : (if 72 < FIRST_CHAR ∨ 72 > LAST_CHAR then 63 else 72) = 72 := by decide
  have h105 : (if 105 < FIRST_CHAR ∨ 105 > LAST_CHAR then 63 else 105) = 105 := by decide
  rw [h72] at hH
  rw [h105] at hi
  refine ⟨grid_set (grid_set tb0 y x 72) y (x + 1) 105,
    grid_set (grid_set tc0 y x (ansi_basic_color 1)) y (x + 1) (ansi_basic_color 1), ?_, ?_, ?_⟩
  · rw [hsplit, feed_append, feed_sgr_31 _ rfl]
    simp only []
    rw [feed_append]
    simp only [feed]
    rw [hH]
    simp only []
    rw [hi]
    simp only []
    have h0 := fun t h => feed_sgr_0 t h
    simp only [feed] at h0
    rw [h0 _ rfl]
    simp only [Except.ok.injEq, Term.mk.injEq, true_and, and_true]
    omega
  · intro r c
    rw [cell_grid_set (hG2.2.2.1) y (x + 1) 105 (by dsimp only; omega) (by dsimp only; omega),
      cell_grid_set (hG.2.2.1) y x 72 (by dsimp only; omega) (by dsimp only; omega)]
    split_ifs <;> first | rfl | (exfalso; omega)
  · intro r c
    rw [cell_grid_set (hG2.2.2.2) y (x + 1) _ (by dsimp only; omega) (by dsimp only; omega),
      cell_grid_set (hG.2.2.2) y x _ (by dsimp only; omega) (by dsimp only; omega)]
    split_ifs <;> first | rfl | (exfalso; omega)

/-- C7, instance: the round trip at the origin of a blank 80x24 screen. -/
theorem sgr_round_trip_witness :
    ∃ tb tc,
      feed (screen80x24 0 0) [27, 91, 51, 49, 109, 72, 105, 27, 91, 48, 109]
        = .ok { (screen80x24 0 0) with
                  termBuf := tb, termColor := tc, cursor_x := 2,
                  cur_fg := white, cur_bg := black, pstate := .PS_NORMAL, esc_buf := [] } ∧
      cell tb 0 0 = some 72 ∧ cell tb 0 1 = some 105 ∧
      cell tc 0 0 = some (ansi_basic_color 1) ∧ cell tc 0 1 = some (ansi_basic_color 1) := by
  obtain ⟨tb, tc, h, hb, hc⟩ :=
    sgr_round_trip (screen80x24 0 0) 0 0 (screen80x24_gridOK 0 0) rfl rfl rfl
      (by decide) (by decide)
  refine ⟨tb, tc, h, ?_, ?_, ?_, ?_⟩
  · rw [hb]; simp
  · rw [hb]; simp
  · rw [hc]; simp
  · rw [hc]; simp

/-- C8 (fails on the code). Awaiting confirmation of the pending command `ESC [ ; H`
with an open pty, the key `Y` does not bring the router back to `Normal`: echoing the
command through the parser ends in an uncaught `std::invalid_argument`. -/
theorem confirm_yes_throws :
    world_confirm_esc.awaiting_confirm = true ∧ world_confirm_esc.pending_ai_cmd ≠ [] ∧
    0 ≤ world_confirm_esc.master_fd ∧
    key_callback world_confirm_esc GLFW_KEY_Y GLFW_PRESS 0 = .error .invalid_argument :=
  ⟨rfl, by decide, by decide, rfl⟩

/-- C9 (fails on the code). After the request `ls` was dispatched and the main loop has
picked up an empty candidate, `awaiting_confirm` is false but `input_blocked` is still
true, and a following character event `x` leaves the edit buffer `ls` as it was. -/
theorem empty_candidate_keeps_input_blocked :
    run_empty_candidate.map
        (fun w => (w.awaiting_confirm, w.input_blocked, w.ai_ready, w.shell_buffer))
      = .ok (false, true, false, [108, 115]) ∧
    (and_then run_empty_candidate (fun w => char_callback w 120)).map
        (fun w => w.shell_buffer)
      = .ok [108, 115] :=
  ⟨rfl, rfl⟩

/-- C10 (fails as stated). After the request `ls` was dispatched and before any result
is consumed, a second Shift+Enter starts a second worker. -/
theorem second_dispatch_in_flight :
    run_dispatch.map (fun w => (w.input_blocked, w.awaiting_confirm, w.llm_calls))
      = .ok (true, false, [[108, 115]]) ∧
    run_second_dispatch.map (fun w => w.llm_calls) = .ok [[108, 115], [108, 115]] :=
  ⟨rfl, rfl⟩

/-- C10 (amended). For a key event on which the callback returns: no AI request is
started when the router awaits confirmation, nor when the event is not Shift+Enter; the
only gate on key events is `awaiting_confirm`, so with `awaiting_confirm` false (also while
a request is in flight) a pressed Shift+Enter with a non-empty `current_line` starts one
more request, for that line. -/
theorem key_event_starts_no_request (w w1 : World) (key action : Int) (mods : Nat)
    (h : key_callback w key action mods = .ok w1) :
    ((w.awaiting_confirm = true ∨
        ¬ (key = GLFW_KEY_ENTER ∧ has_mod mods GLFW_MOD_SHIFT = true)) →
      w1.llm_calls = w.llm_calls) ∧
    (w.awaiting_confirm = false → (action = GLFW_PRESS ∨ action = GLFW_REPEAT) →
      key = GLFW_KEY_ENTER → has_mod mods GLFW_MOD_SHIFT = true →
      current_line w.shell_buffer ≠ [] →
      w1.llm_calls = w.llm_calls ++ [current_line w.shell_buffer]) := by
  unfold key_callback at h
  dsimp only at h
  split_ifs at h
  · refine ⟨fun _ => ?_, fun hf => ?_⟩
    · cases hc : confirm_yes w with
      | error e => simp [hc] at h
      | ok w2 =>
        simp only [hc] at h; cases h; exact (confirm_yes_calls hc : w2.llm_calls = _)
    · simp_all
  · refine ⟨fun _ => by cases h; rfl, fun hf => by simp_all⟩
  · refine ⟨fun _ => ?_, fun hf => by simp_all⟩
    cases hc : confirm_no w with
    | error e => simp [hc] at h
    | ok w2 => simp only [hc] at h; cases h; exact (confirm_no_calls hc : w2.llm_calls = _)
  · refine ⟨fun _ => by cases h; rfl, fun hf => by simp_all⟩
  · exact ⟨fun _ => echo_line_calls h, fun _ _ _ _ hne => by simp_all⟩
  · rename_i hnc hse _
    refine ⟨fun hgate => ?_, fun _ _ _ _ _ => ?_⟩
    · rcases hgate with hg | hg
      · exact absurd hg hnc
      · exact absurd hse hg
    · rw [echo_line_calls h]
      rfl
  · rename_i hnse _ _
    refine ⟨fun _ => ?_, fun _ _ hk hm _ => absurd ⟨hk, hm⟩ hnse⟩
    cases he : echo_line (send_key_to_pty w (w.shell_buffer ++ [10])) [] with
    | error e => simp [he] at h
    | ok w2 =>
      simp only [he] at h
      cases h
      show w2.llm_calls = w.llm_calls
      rw [echo_line_calls he, send_key_to_pty_calls]
  · rename_i hnse _ _
    exact ⟨fun _ => by rw [echo_line_calls h, send_key_to_pty_calls],
      fun _ _ hk hm _ => absurd ⟨hk, hm⟩ hnse⟩
  · rename_i hne _
    exact ⟨fun _ => shell_backspace_calls h, fun _ _ hk _ _ => absurd hk hne⟩
  · rename_i hne _ _
    exact ⟨fun _ => by cases h; exact send_key_to_pty_calls w [3],
      fun _ _ hk _ _ => absurd hk hne⟩
  · rename_i hne _ _ _
    exact ⟨fun _ => by cases h; exact send_key_to_pty_calls w [4],
      fun _ _ hk _ _ => absurd hk hne⟩
  · rename_i hne _ _ _ _
    exact ⟨fun _ => append_to_shell_buffer_calls h, fun _ _ hk _ _ => absurd hk hne⟩
  · rename_i hne _ _ _ _ _
    exact ⟨fun _ => by cases h; rfl, fun _ _ hk _ _ => absurd hk hne⟩
  · rename_i hne _ _ _ _ _
    exact ⟨fun _ => by cases h; rfl, fun _ _ hk _ _ => absurd hk hne⟩
  · rename_i hact
    exact ⟨fun _ => by cases h; rfl, fun _ ha _ _ _ => absurd ha hact⟩

/-- C10, instance: awaiting confirmation of `ls -la`, the key `Y` returns and the list of
started requests is still the single request `list files`. -/
theorem key_event_starts_no_request_witness :
    (final_state (key_callback world_confirm_ls GLFW_KEY_Y GLFW_PRESS 0) world0).llm_calls
      = world_confirm_ls.llm_calls :=
  (key_event_starts_no_request world_confirm_ls _ GLFW_KEY_Y GLFW_PRESS 0 rfl).1 (Or.inl rfl)

/-- C11 (fails on the code). With the edit buffer made of two spaces, Shift+Enter in
`Normal` starts a request for the untrimmed two spaces and blocks character input,
where the claim has no request and `input_blocked` false. -/
theorem all_space_line_is_dispatched :
    current_line [32, 32] = [32, 32] ∧
    run_spaces_dispatch.map (fun w => (w.shell_buffer, w.llm_calls, w.input_blocked))
      = .ok ([32, 32], [[32, 32]], true) :=
  ⟨rfl, rfl⟩

/-- C12 (fails as stated). The OSC payload `A \ B` holds no BEL and no ESC, yet its lone
backslash ends the sequence: the parser is back in `Normal` and `B` is on the screen. -/
theorem osc_lone_backslash :
    (feed (screen80x24 0 0) [27, 93, 65, 92, 66]).map
        (fun t => (t.pstate, cell t.termBuf 0 0, t.cursor_x))
      = .ok (.PS_NORMAL, some 66, 1) :=
  rfl

/-- C12 (amended). From `Normal`, after `ESC ]` every payload byte other than BEL (7) and
backslash (92), ESC included, is accumulated: the parser is in `Osc` and nothing but
`osc_buf` has changed; a following BEL, or a following backslash, empties `osc_buf` and
returns the parser to `Normal` with the screen, the cursor and the colours unchanged. -/
theorem osc_termination (s : Term) (payload : List Nat) (hN : s.pstate = .PS_NORMAL)
    (hp : ∀ b ∈ payload, b ≠ 7 ∧ b ≠ 92) :
    feed s ([27, 93] ++ payload) = .ok { s with pstate := .PS_OSC, osc_buf := payload } ∧
    feed s ([27, 93] ++ payload ++ [7]) = .ok { s with pstate := .PS_NORMAL, osc_buf := [] } ∧
    feed s ([27, 93] ++ payload ++ [92])
      = .ok { s with pstate := .PS_NORMAL, osc_buf := [] } := by
  obtain ⟨COLS, ROWS, tb0, tc0, cx, cy, fg, bg, ps, eb, ob⟩ := s
  dsimp only at hN
  subst hN
  have hopen : feed
      { COLS := COLS, ROWS := ROWS, termBuf := tb0, termColor := tc0, cursor_x := cx,
        cursor_y := cy, cur_fg := fg, cur_bg := bg, pstate := .PS_NORMAL, esc_buf := eb,
        osc_buf := ob } ([27, 93] ++ payload)
      = .ok { COLS := COLS, ROWS := ROWS, termBuf := tb0, termColor := tc0, cursor_x := cx,
              cursor_y := cy, cur_fg := fg, cur_bg := bg, pstate := .PS_OSC, esc_buf := eb,
              osc_buf := payload } := by
    rw [feed_append]
    simp only [feed, process_byte_ansi]
    simp only [show ¬ ((27 : Nat) = 27) = False from by simp, show ((93 : Nat) = 91) = False from by simp]
    simp only [if_true, if_false]
    rw [feed_osc payload _ rfl hp]
    simp
  refine ⟨hopen, ?_, ?_⟩
  · rw [feed_append, hopen]
    simp [feed, process_byte_ansi]
  · rw [feed_append, hopen]
    simp [feed, process_byte_ansi]

/-- C12, instance: the payload `A ESC B` on a blank 80x24 screen. -/
theorem osc_termination_witness :
    feed (screen80x24 0 0) ([27, 93] ++ [65, 27, 66])
      = .ok { (screen80x24 0 0) with pstate := .PS_OSC, osc_buf := [65, 27, 66] } ∧
    feed (screen80x24 0 0) ([27, 93] ++ [65, 27, 66] ++ [7])
      = .ok { (screen80x24 0 0) with pstate := .PS_NORMAL, osc_buf := [] } ∧
    feed (screen80x24 0 0) ([27, 93] ++ [65, 27, 66] ++ [92])
      = .ok { (screen80x24 0 0) with pstate := .PS_NORMAL, osc_buf := [] } :=
  osc_termination (screen80x24 0 0) [65, 27, 66] rfl (by decide)

/-- C17 (fails as stated). While the request `ls` is in flight (`input_blocked` true,
`awaiting_confirm` false) a Backspace key removes the last byte of the edit buffer, and a
Tab key appends a tab to it and moves the cursor from column 0 to column 8. -/
theorem edit_keys_in_flight :
    run_dispatch.map
        (fun w => (w.input_blocked, w.awaiting_confirm, w.shell_buffer, w.term.cursor_x))
      = .ok (true, false, [108, 115], 0) ∧
    run_backspace_in_flight.map (fun w => w.shell_buffer) = .ok [108] ∧
    run_tab_in_flight.map (fun w => (w.shell_buffer, w.term.cursor_x))
      = .ok ([108, 115, 9], 8) :=
  ⟨rfl, rfl, rfl⟩

/-- C17 (amended). A character event changes nothing while `input_blocked` is set (in
`AwaitingAi` and in `AwaitingConfirm`); a Backspace or Tab key event changes nothing
while `awaiting_confirm` is set.  Key events are not gated by `input_blocked`, so in
`AwaitingAi` Backspace and Tab edit as in `Normal`. -/
theorem editing_ignored (w : World) (codepoint : Nat) (key action : Int) (mods : Nat) :
    (w.input_blocked = true → char_callback w codepoint = .ok w) ∧
    (w.awaiting_confirm = true → (key = GLFW_KEY_BACKSPACE ∨ key = GLFW_KEY_TAB) →
      key_callback w key action mods = .ok w) := by
  refine ⟨fun h => by simp [char_callback, h], fun hc hk => ?_⟩
  have hyn : ¬ (key = GLFW_KEY_Y ∨ key = GLFW_KEY_N) := by
    rcases hk with h | h <;> subst h <;> decide
  unfold key_callback
  split_ifs <;> rfl

/-- C17, instance: awaiting confirmation of `ls -la`, the character `a` and the Backspace
key are both ignored. -/
theorem editing_ignored_witness :
    char_callback world_confirm_ls 97 = .ok world_confirm_ls ∧
    key_callback world_confirm_ls GLFW_KEY_BACKSPACE GLFW_PRESS 0 = .ok world_confirm_ls :=
  ⟨(editing_ignored world_confirm_ls 97 GLFW_KEY_BACKSPACE GLFW_PRESS 0).1 rfl,
    (editing_ignored world_confirm_ls 97 GLFW_KEY_BACKSPACE GLFW_PRESS 0).2 rfl (Or.inl rfl)⟩

/-- C18 (fails on the code). In every state: no parameter puts the cursor at row 1,
column 1 (the origin), the single parameter `7` at row 7, column 1, but the parameters
`;5` (row missing) end in an uncaught `std::invalid_argument` instead of row 1, column 5. -/
theorem cursor_position_missing_row (s : Term) :
    handle_csi_sequence s [72] = .ok (set_cursor s 1 1) ∧
    handle_csi_sequence s [102] = .ok (set_cursor s 1 1) ∧
    handle_csi_sequence s [55, 72] = .ok (set_cursor s 7 1) ∧
    handle_csi_sequence s [59, 53, 72] = .error .invalid_argument ∧
    handle_csi_sequence s [59, 53, 102] = .error .invalid_argument ∧
    ((set_cursor (screen80x24 3 4) 1 1).cursor_y, (set_cursor (screen80x24 3 4) 1 1).cursor_x)
      = (0, 0) ∧
    ((set_cursor (screen80x24 3 4) 7 1).cursor_y, (set_cursor (screen80x24 3 4) 7 1).cursor_x)
      = (6, 0) :=
  ⟨rfl, rfl, rfl, rfl, rfl, rfl, rfl⟩

/-- C19 (fails as stated). With `ls` typed and an OSC sequence of the shell still open,
a plain Enter writes `ls` and a newline to the pty and empties the edit buffer, but the
echoed newline is swallowed by the parser: the cursor stays on row 0, where
`put_char_local('\n')` would move it to row 1. -/
theorem enter_echo_swallowed :
    run_typed_osc_open.map (fun w => (w.awaiting_confirm, w.input_blocked, w.term.cursor_y))
      = .ok (false, false, 0) ∧
    run_enter_osc_open.map
        (fun w => (w.pty_out, w.shell_buffer, w.term.cursor_y, w.term.pstate, w.term.osc_buf))
      = .ok ([[108, 115, 10]], [], 0, .PS_OSC, [10]) ∧
    (and_then run_typed_osc_open (fun w => on_term w (fun t => put_char_local t 10))).map
        (fun w => w.term.cursor_y)
      = .ok 1 :=
  ⟨rfl, rfl, rfl⟩

/-- C19 (amended). In router state `Normal` with an open pty, the ANSI parser in `Normal`
and well-formed grids, a pressed Enter without Shift returns, writes exactly the edit
buffer followed by `'\n'` to the pty (just `'\n'` when the buffer is empty), leaves the
edit buffer empty, and changes the screen exactly as `put_char_local('\n')` does. -/
theorem plain_enter (w : World) (action : Int) (mods : Nat)
    (hact : action = GLFW_PRESS ∨ action = GLFW_REPEAT) (hconf : w.awaiting_confirm = false)
    (hshift : has_mod mods GLFW_MOD_SHIFT = false) (hfd : 0 ≤ w.master_fd)
    (hN : w.term.pstate = .PS_NORMAL) (hG : GridOK w.term) :
    ∃ t, put_char_local w.term 10 = .ok t ∧
      key_callback w GLFW_KEY_ENTER action mods
        = .ok { w with pty_out := w.pty_out ++ [w.shell_buffer ++ [10]],
                       shell_buffer := [], term := t } := by
  obtain ⟨t, ht⟩ := put_char_newline_total w.term hG
  have hcol := put_char_newline_col w.term t ht
  refine ⟨t, ht, ?_⟩
  have hproc : process_byte_ansi w.term 10 = .ok t := by
    unfold process_byte_ansi
    rw [hN]
    simpa using ht
  have hfd2 : ¬ w.master_fd < 0 := by omega
  unfold key_callback
  rw [if_neg (not_not.mpr hact), if_neg (by simp [hconf]), if_neg (by simp [hshift]), if_pos rfl]
  by_cases hb : w.shell_buffer = []
  · rw [if_neg (not_not.mpr hb)]
    simp [echo_line, on_term, send_key_to_pty, hfd2, feed, hproc, hb]
  · rw [if_pos hb]
    simp only [echo_line, on_term, send_key_to_pty, if_neg hfd2, feed, List.nil_append, hproc]
    obtain ⟨COLS, ROWS, tb0, tc0, cx, cy, fg, bg, ps, eb, ob⟩ := t
    dsimp only at hcol
    subst hcol
    rfl

/-- C19, instance: `ls` typed on a blank 80x24 screen, then Enter. -/
theorem plain_enter_witness :
    ∃ t, put_char_local (screen80x24 2 0) 10 = .ok t ∧
      key_callback { world0 with term := screen80x24 2 0, shell_buffer := [108, 115] }
          GLFW_KEY_ENTER GLFW_PRESS 0
        = .ok { world0 with pty_out := [] ++ [[108, 115] ++ [10]], shell_buffer := [],
                            term := t } :=
  plain_enter { world0 with term := screen80x24 2 0, shell_buffer := [108, 115] }
    GLFW_PRESS 0 (Or.inl rfl) rfl rfl (by decide) rfl (screen80x24_gridOK 2 0)

/-- C15 (fails as stated). The backend prints `ls`, a NUL byte, ` -la` and a line feed:
`fgets` stores the whole line, `out += buf` appends it as a C string, up to the NUL, and
the worker stores the candidate `ls`, where the first line of positive length of the
trimmed backend output is `ls`, NUL, ` -la`. -/
theorem candidate_nul_cut :
    run_llm_blocking (some [108, 115, 0, 32, 45, 108, 97, 10]) = [108, 115] ∧
    (worker_thread world0 (some [108, 115, 0, 32, 45, 108, 97, 10])).ai_result = [108, 115] ∧
    candidate_spec [108, 115, 0, 32, 45, 108, 97, 10] = [108, 115, 0, 32, 45, 108, 97] := by
  exact ⟨by decide, by decide, by decide⟩

/-- C15 (amended). Candidate extraction: for every backend output `o` without NUL byte,
`run_llm_blocking` returns `o` itself, and the candidate the worker stores in `ai_result`
(with `ai_ready` set) is the candidate in the words of the claim (`candidate_spec`: first
line of positive length of the trimmed output, the whole trimmed output when there is
none).  Whatever `popen` gives, the stored candidate is `candidate_spec` of the string
that `run_llm_blocking` returns.  For `o = "ls -la\n"` it is `"ls -la"`. -/
theorem candidate_extraction (o : List Nat) (w : World) (h0 : 0 ∉ o) :
    run_llm_blocking (some o) = o ∧
    (worker_thread w (some o)).ai_result = candidate_spec o ∧
    (worker_thread w (some o)).ai_ready = true ∧
    (∀ pipe : Option (List Nat),
      (worker_thread w pipe).ai_result = candidate_spec (run_llm_blocking pipe)) ∧
    (∀ out : List Nat, candidate out = candidate_spec out) ∧
    (worker_thread w (some (bytes "ls -la\n"))).ai_result = bytes "ls -la" := by
  have hcap := run_llm_blocking_no_nul o h0
  refine ⟨hcap, ?_, rfl, fun pipe => candidate_eq_spec _, candidate_eq_spec, rfl⟩
  show candidate (run_llm_blocking (some o)) = candidate_spec o
  rw [hcap]
  exact candidate_eq_spec o

/-- C15, instance: the backend prints `ls -la` and a line feed. -/
theorem candidate_extraction_witness :
    run_llm_blocking (some (bytes "ls -la\n")) = bytes "ls -la\n" ∧
    (worker_thread world0 (some (bytes "ls -la\n"))).ai_result
      = candidate_spec (bytes "ls -la\n") ∧
    candidate_spec (bytes "ls -la\n") = bytes "ls -la" :=
  ⟨(candidate_extraction (bytes "ls -la\n") world0 (by decide)).1,
    (candidate_extraction (bytes "ls -la\n") world0 (by decide)).2.1, by decide⟩

/-- C16 (fails as stated). The codes 44 and 99999999999, written `44;99999999999`: by the
fold of the claim the second code changes nothing and the background stays blue, but
`std::stoi` throws `std::out_of_range` on it, the `catch(...)` of the loop reads it as
code 0, and the handler returns with the background reset to black. -/
theorem sgr_code_out_of_range :
    sgr_params [44, 99999999999] = bytes "44;99999999999" ∧
    (handle_csi_sequence (screen80x24 0 0) (sgr_params [44, 99999999999] ++ [109])).map
        (fun t => (t.cur_fg, t.cur_bg))
      = .ok (white, black) ∧
    sgr_fold_spec ((screen80x24 0 0).cur_fg, (screen80x24 0 0).cur_bg) [44, 99999999999]
      = (white, ⟨0, 0, 78⟩) := by
  exact ⟨by decide, rfl, by decide⟩

/-- C16 (amended). SGR semantics: for every list of codes in the range of `int`, written as
`;`-separated decimal parameters of a CSI sequence with final byte `m`, the handler
returns the state in which the current foreground and background are the left-to-right
fold of the per-code rule over the codes (an empty parameter string acting as the single
code 0) and everything else, the grids and the cursor included, is as before; the same
holds for the bytes `ESC [ params m` fed through the parser from `Normal`. -/
theorem sgr_semantics (s : Term) (codes : List Int)
    (hr : ∀ c ∈ codes, INT_MIN ≤ c ∧ c ≤ INT_MAX) :
    handle_csi_sequence s (sgr_params codes ++ [109])
      = .ok { s with cur_fg := (sgr_fold_spec (s.cur_fg, s.cur_bg) codes).1
                     cur_bg := (sgr_fold_spec (s.cur_fg, s.cur_bg) codes).2 } ∧
    (s.pstate = .PS_NORMAL →
      feed s ([27, 91] ++ sgr_params codes ++ [109])
        = .ok { s with cur_fg := (sgr_fold_spec (s.cur_fg, s.cur_bg) codes).1
                       cur_bg := (sgr_fold_spec (s.cur_fg, s.cur_bg) codes).2
                       esc_buf := [], pstate := .PS_NORMAL }) ∧
    sgr_params [] = [] ∧
    sgr_fold_spec (s.cur_fg, s.cur_bg) [] = (white, black) := by
  refine ⟨handle_csi_m_codes s codes hr, fun hN => ?_, rfl, rfl⟩
  obtain ⟨COLS, ROWS, tb0, tc0, cx, cy, fg, bg, ps, eb, ob⟩ := s
  dsimp only at hN
  subst hN
  have hh := handle_csi_m_codes
    { COLS := COLS, ROWS := ROWS, termBuf := tb0, termColor := tc0, cursor_x := cx,
      cursor_y := cy, cur_fg := fg, cur_bg := bg, pstate := .PS_CSI,
      esc_buf := sgr_params codes ++ [109], osc_buf := ob } codes hr
  have hacc := feed_csi_params (sgr_params codes)
    { COLS := COLS, ROWS := ROWS, termBuf := tb0, termColor := tc0, cursor_x := cx,
      cursor_y := cy, cur_fg := fg, cur_bg := bg, pstate := .PS_CSI,
      esc_buf := [], osc_buf := ob } rfl (sgr_params_lt_64 codes)
  rw [List.append_assoc, feed_append]
  simp only [feed, process_byte_ansi]
  simp only [show ¬ ((27 : Nat) = 27) = False from by simp, if_true, if_false]
  rw [feed_append, hacc]
  simp only [feed, process_byte_ansi, List.nil_append]
  rw [if_pos (by decide), hh]

/-- C16, instance: the codes 31 and 44 on a blank 80x24 screen give a red foreground on
a blue background. -/
theorem sgr_semantics_witness :
    (∀ c ∈ [(31 : Int), 44], INT_MIN ≤ c ∧ c ≤ INT_MAX) ∧
    sgr_params [31, 44] = [51, 49, 59, 52, 52] ∧
    handle_csi_sequence (screen80x24 0 0) (sgr_params [31, 44] ++ [109])
      = .ok { (screen80x24 0 0) with
              cur_fg := (sgr_fold_spec ((screen80x24 0 0).cur_fg, (screen80x24 0 0).cur_bg)
                          [31, 44]).1
              cur_bg := (sgr_fold_spec ((screen80x24 0 0).cur_fg, (screen80x24 0 0).cur_bg)
                          [31, 44]).2 } ∧
    sgr_fold_spec (white, black) [31, 44] = (⟨78, 0, 0⟩, ⟨0, 0, 78⟩) :=
  ⟨by decide, by decide,
    (sgr_semantics (screen80x24 0 0) [31, 44] (by decide)).1, by decide⟩

/-- C13. Grid-size invariant: if both grids have exactly `ROWS` rows of exactly `COLS`
cells and the cursor is in bounds, then for any byte in any parser state the state
returned by `process_byte_ansi` has the same `ROWS` and `COLS` and both its grids still
have exactly `ROWS` rows of exactly `COLS` cells; and the call does return, except in
`PS_CSI` on a final byte `H`, `f`, `J` or `K` whose parameter makes `std::stoi` throw. -/
theorem grid_size_invariant (s : Term) (b : Nat) (hG : GridOK s) (hC : CursorOK s) :
    (∀ t, process_byte_ansi s b = .ok t →
      t.ROWS = s.ROWS ∧ t.COLS = s.COLS ∧
      Dims s.ROWS.toNat s.COLS.toNat t.termBuf ∧
      Dims s.ROWS.toNat s.COLS.toNat t.termColor) ∧
    ((∃ t, process_byte_ansi s b = .ok t) ∨
      (s.pstate = .PS_CSI ∧ (b = 72 ∨ b = 102 ∨ b = 74 ∨ b = 75) ∧
        (process_byte_ansi s b = .error .invalid_argument ∨
          process_byte_ansi s b = .error .out_of_range))) := by
  rcases process_byte_inv (fun _ => True) s b hG hC (fun _ _ _ _ => trivial) trivial trivial
      (fun _ _ => trivial) with ⟨t, ht, h1, h2, h3, _⟩ | ⟨hcsi, hb, herr⟩
  · refine ⟨fun t1 ht1 => ?_, Or.inl ⟨t, ht⟩⟩
    rw [ht] at ht1
    cases ht1
    obtain ⟨_, _, hdb, hdc⟩ := h3
    rw [h1, h2] at hdb hdc
    exact ⟨h2, h1, hdb, hdc⟩
  · refine ⟨fun t1 ht1 => ?_, Or.inr ⟨hcsi, hb, herr⟩⟩
    rcases herr with h | h <;> rw [h] at ht1 <;> cases ht1

/-- C13, instance: the letter `A` written in the last cell of a blank 80x24 screen wraps
and scrolls; the cursor ends in column 0 of row 23 and both grids still have 24 rows of
80 cells. -/
theorem grid_size_invariant_witness :
    (process_byte_ansi (screen80x24 79 23) 65).map (fun t => (t.cursor_x, t.cursor_y))
      = .ok (0, 23) ∧
    ∃ t, process_byte_ansi (screen80x24 79 23) 65 = .ok t ∧
      t.ROWS = 24 ∧ t.COLS = 80 ∧ Dims 24 80 t.termBuf ∧ Dims 24 80 t.termColor := by
  have h := grid_size_invariant (screen80x24 79 23) 65 (screen80x24_gridOK 79 23)
    ⟨by decide, by decide, by decide, by decide⟩
  refine ⟨rfl, ?_⟩
  rcases h.2 with ⟨t, ht⟩ | ⟨hc, _⟩
  · exact ⟨t, ht, h.1 t ht⟩
  · cases hc

/-- C20. Cell-content invariant: if the grids are well-formed, the cursor is in bounds and
every cell of the character grid holds a byte in 32..126, then for any byte in any parser
state every cell of the state returned by `process_byte_ansi` still holds a byte in
32..126, and the call does return, except in `PS_CSI` on a final byte `H`, `f`, `J` or `K`
whose parameter makes `std::stoi` throw.  In `Normal`, a byte outside 32..126 that reaches
the store (any but ESC, CR, LF, TAB, BS and DEL) is handled exactly as `'?'` is, and with
room to the right of the cursor the cell under the cursor then holds `'?'` (63). -/
theorem cell_content_invariant (s : Term) (b : Nat) (hG : GridOK s) (hC : CursorOK s)
    (hP : CharsOK s) :
    (∀ t, process_byte_ansi s b = .ok t → CharsOK t) ∧
    ((∃ t, process_byte_ansi s b = .ok t) ∨
      (s.pstate = .PS_CSI ∧ (b = 72 ∨ b = 102 ∨ b = 74 ∨ b = 75) ∧
        (process_byte_ansi s b = .error .invalid_argument ∨
          process_byte_ansi s b = .error .out_of_range))) ∧
    (s.pstate = .PS_NORMAL → (b < FIRST_CHAR ∨ LAST_CHAR < b) →
      (b ≠ 27 ∧ b ≠ 13 ∧ b ≠ 10 ∧ b ≠ 9 ∧ b ≠ 127 ∧ b ≠ 8) →
      process_byte_ansi s b = process_byte_ansi s 63 ∧
      (s.cursor_x + 1 < s.COLS →
        ∃ t, process_byte_ansi s b = .ok t ∧
          cell t.termBuf s.cursor_y.toNat s.cursor_x.toNat = some 63)) := by
  have hplace : s.pstate = .PS_NORMAL → (b < FIRST_CHAR ∨ LAST_CHAR < b) →
      (b ≠ 27 ∧ b ≠ 13 ∧ b ≠ 10 ∧ b ≠ 9 ∧ b ≠ 127 ∧ b ≠ 8) →
      process_byte_ansi s b = process_byte_ansi s 63 ∧
      (s.cursor_x + 1 < s.COLS →
        ∃ t, process_byte_ansi s b = .ok t ∧
          cell t.termBuf s.cursor_y.toNat s.cursor_x.toNat = some 63) := by
    intro hN hout hctl
    refine ⟨process_byte_placeholder s b hN hout hctl, fun hroom => ?_⟩
    obtain ⟨hx0, hxC, hy0, hyR⟩ := hC
    have hrun := process_byte_plain s s.cursor_x.toNat s.cursor_y.toNat b hG hN (by omega)
      (by omega) (by omega) (by omega) ⟨hctl.2.1, hctl.2.2.1, hctl.2.2.2.1, hctl.2.2.2.2.1,
        hctl.2.2.2.2.2⟩ hctl.1
    refine ⟨_, hrun, ?_⟩
    dsimp only
    rw [cell_grid_set hG.2.2.1 _ _ _ (by omega) (by omega)]
    have hout2 : b < FIRST_CHAR ∨ b > LAST_CHAR := hout
    simp [hout2]
  rcases process_byte_inv (fun v => FIRST_CHAR ≤ v ∧ v ≤ LAST_CHAR) s b hG hC hP
      (by decide) (by decide) (fun h1 h2 => ⟨h1, h2⟩) with ⟨t, ht, _, _, _, h4⟩ | ⟨hcsi, hb, herr⟩
  · refine ⟨fun t1 ht1 => ?_, Or.inl ⟨t, ht⟩, hplace⟩
    rw [ht] at ht1
    cases ht1
    exact h4
  · refine ⟨fun t1 ht1 => ?_, Or.inr ⟨hcsi, hb, herr⟩, hplace⟩
    rcases herr with h | h <;> rw [h] at ht1 <;> cases ht1

/-- C20, instance: the byte 200 written at column 5 of row 3 of a blank 80x24 screen is
stored as `'?'`, and every cell of the resulting grid holds a byte in 32..126. -/
theorem cell_content_invariant_witness :
    ∃ t, process_byte_ansi (screen80x24 5 3) 200 = .ok t ∧ cell t.termBuf 3 5 = some 63 ∧
      CharsOK t := by
  have h := cell_content_invariant (screen80x24 5 3) 200 (screen80x24_gridOK 5 3)
    ⟨by decide, by decide, by decide, by decide⟩ (screen80x24_charsOK 5 3)
  obtain ⟨t, ht, hcell⟩ := (h.2.2 rfl (by decide) (by decide)).2 (by decide)
  exact ⟨t, ht, hcell, h.1 t ht⟩

/-- C21. Unrecognised CSI sequences are consumed without effect: from parser state
`Normal`, for every string of parameter bytes none of which lies in 0x40..0x7E and every
final byte in 0x40..0x7E other than `m`, `H`, `f`, `J` and `K`, feeding
`ESC [ parameters final` returns, leaves the parser in `Normal` with an empty `esc_buf`,
and leaves every other variable (grids, cursor, current colours) as it was. -/
theorem unrecognised_csi_consumed (s : Term) (params : List Nat) (fb : Nat)
    (hN : s.pstate = .PS_NORMAL) (hp : ∀ b ∈ params, ¬ (b ≥ 64 ∧ b ≤ 126))
    (hf : fb ≥ 64 ∧ fb ≤ 126)
    (hother : fb ≠ 109 ∧ fb ≠ 72 ∧ fb ≠ 102 ∧ fb ≠ 74 ∧ fb ≠ 75) :
    feed s ([27, 91] ++ params ++ [fb])
      = .ok { s with esc_buf := [], pstate := .PS_NORMAL } := by
  obtain ⟨COLS, ROWS, tb0, tc0, cx, cy, fg, bg, ps, eb, ob⟩ := s
  dsimp only at hN
  subst hN
  have hacc := feed_csi_accumulate params
    { COLS := COLS, ROWS := ROWS, termBuf := tb0, termColor := tc0, cursor_x := cx,
      cursor_y := cy, cur_fg := fg, cur_bg := bg, pstate := .PS_CSI,
      esc_buf := [], osc_buf := ob } rfl hp
  have hh := handle_csi_other
    { COLS := COLS, ROWS := ROWS, termBuf := tb0, termColor := tc0, cursor_x := cx,
      cursor_y := cy, cur_fg := fg, cur_bg := bg, pstate := .PS_CSI,
      esc_buf := params ++ [fb], osc_buf := ob } params fb hother
  rw [List.append_assoc, feed_append]
  simp only [feed, process_byte_ansi]
  simp only [show ¬ ((27 : Nat) = 27) = False from by simp, if_true, if_false]
  rw [feed_append, hacc]
  simp only [feed, process_byte_ansi, List.nil_append]
  rw [if_pos hf, hh]

/-- C21, instance: `ESC [ 5 A` (cursor up, not implemented) on a blank 80x24 screen with
the cursor at column 3 of row 4. -/
theorem unrecognised_csi_consumed_witness :
    feed (screen80x24 3 4) ([27, 91] ++ [53] ++ [65])
      = .ok { (screen80x24 3 4) with esc_buf := [], pstate := .PS_NORMAL } :=
  unrecognised_csi_consumed (screen80x24 3 4) [53] 65 rfl (by decide) (by decide) (by decide)

/-- C22. Printable insertion and wrap: for every byte `b` other than CR, LF, tab, 0x08 and
0x7F, on well-formed grids with the cursor at `(x, y)` in bounds, `put_char_local(b)`
returns and stores `b` (`'?'` when `b` is outside 32..126) with the current foreground at
cell `(y, x)`, every other cell keeping its content.  With `x + 1 < COLS` the cursor
becomes `(x+1, y)`.  With `x = COLS-1` and `y + 1 < ROWS` the cursor becomes `(0, y+1)`.
With `x = COLS-1` and `y = ROWS-1` the rows of the grids then shift up by one (row `i`
is the former row `i+1`), the bottom row is blank (white spaces), the grids keep their
size and the cursor is `(0, ROWS-1)`.  No other variable changes. -/
theorem printable_insertion (s : Term) (x y b : Nat) (hG : GridOK s)
    (hx : s.cursor_x = x) (hy : s.cursor_y = y) (hxC : (x : Int) < s.COLS)
    (hyR : (y : Int) < s.ROWS) (hb : b ≠ 13 ∧ b ≠ 10 ∧ b ≠ 9 ∧ b ≠ 8 ∧ b ≠ 127) :
    (∀ r c, cell (grid_set s.termBuf y x (if b < FIRST_CHAR ∨ b > LAST_CHAR then 63 else b)) r c
        = if r = y ∧ c = x then some (if b < FIRST_CHAR ∨ b > LAST_CHAR then 63 else b)
          else cell s.termBuf r c) ∧
    (∀ r c, cell (grid_set s.termColor y x s.cur_fg) r c
        = if r = y ∧ c = x then some s.cur_fg else cell s.termColor r c) ∧
    ((x : Int) + 1 < s.COLS →
      put_char_local s b
        = .ok { s with
                termBuf := grid_set s.termBuf y x
                  (if b < FIRST_CHAR ∨ b > LAST_CHAR then 63 else b)
                termColor := grid_set s.termColor y x s.cur_fg
                cursor_x := (x : Int) + 1 }) ∧
    ((x : Int) + 1 = s.COLS → (y : Int) + 1 < s.ROWS →
      put_char_local s b
        = .ok { s with
                termBuf := grid_set s.termBuf y x
                  (if b < FIRST_CHAR ∨ b > LAST_CHAR then 63 else b)
                termColor := grid_set s.termColor y x s.cur_fg
                cursor_x := 0, cursor_y := (y : Int) + 1 }) ∧
    ((x : Int) + 1 = s.COLS → (y : Int) + 1 = s.ROWS →
      ∃ tb tc,
        put_char_local s b
          = .ok { s with termBuf := tb, termColor := tc, cursor_x := 0,
                         cursor_y := s.ROWS - 1 } ∧
        Dims s.ROWS.toNat s.COLS.toNat tb ∧ Dims s.ROWS.toNat s.COLS.toNat tc ∧
        (∀ i c : Nat, (i : Int) + 1 < s.ROWS →
          cell tb i c
            = cell (grid_set s.termBuf y x (if b < FIRST_CHAR ∨ b > LAST_CHAR then 63 else b))
                (i + 1) c ∧
          cell tc i c = cell (grid_set s.termColor y x s.cur_fg) (i + 1) c) ∧
        (∀ c : Nat, (c : Int) < s.COLS →
          cell tb y c = some 32 ∧ cell tc y c = some white)) := by
  obtain ⟨h13, h10, h9, h8, h127⟩ := hb
  have hch : b ≠ 13 ∧ b ≠ 10 ∧ b ≠ 9 ∧ b ≠ 127 ∧ b ≠ 8 := ⟨h13, h10, h9, h127, h8⟩
  obtain ⟨hC0, hR0, hdb, hdc⟩ := hG
  have hG : GridOK s := ⟨hC0, hR0, hdb, hdc⟩
  have hGput := hG.put y x (if b < FIRST_CHAR ∨ b > LAST_CHAR then 63 else b) s.cur_fg hyR
  refine ⟨fun r c => cell_grid_set hdb y x _ (by omega) (by omega) r c,
    fun r c => cell_grid_set hdc y x _ (by omega) (by omega) r c,
    fun h1 => put_char_plain s x y b hG hx hy h1 hyR hch, fun h1 h2 => ?_, fun h1 h2 => ?_⟩
  · rw [put_char_wrap s x y b hG hx hy h1 hyR hch]
    unfold next_line
    dsimp only
    rw [if_neg (by omega), hy]
  · rw [put_char_wrap s x y b hG hx hy h1 hyR hch]
    unfold next_line
    dsimp only
    rw [if_pos (by omega)]
    have hev := evict_top_row_ok
      { s with
        termBuf := grid_set s.termBuf y x (if b < FIRST_CHAR ∨ b > LAST_CHAR then 63 else b)
        termColor := grid_set s.termColor y x s.cur_fg
        cursor_x := 0, cursor_y := s.cursor_y + 1 }
      (hGput.congr rfl rfl rfl rfl)
    rw [hev]
    dsimp only
    obtain ⟨_, _, hpb, hpc⟩ := hGput
    dsimp only at hpb hpc
    have hlb : (grid_set s.termBuf y x
        (if b < FIRST_CHAR ∨ b > LAST_CHAR then 63 else b)).length = s.ROWS.toNat := hpb.1
    have hlc : (grid_set s.termColor y x s.cur_fg).length = s.ROWS.toNat := hpc.1
    have hyl : y = s.ROWS.toNat - 1 := by omega
    refine ⟨(grid_set s.termBuf y x (if b < FIRST_CHAR ∨ b > LAST_CHAR then 63 else b)).tail
        ++ [List.replicate s.COLS.toNat 32],
      (grid_set s.termColor y x s.cur_fg).tail ++ [List.replicate s.COLS.toNat white],
      rfl, hpb.scroll (by omega) 32, hpc.scroll (by omega) white, ?_, ?_⟩
    · intro i c hi
      have hib : i + 1 < (grid_set s.termBuf y x
          (if b < FIRST_CHAR ∨ b > LAST_CHAR then 63 else b)).length := by rw [hlb]; omega
      have hic : i + 1 < (grid_set s.termColor y x s.cur_fg).length := by rw [hlc]; omega
      exact ⟨cell_tail_append _ _ i c hib, cell_tail_append _ _ i c hic⟩
    · intro c hc
      have hb1 := cell_tail_last (grid_set s.termBuf y x
        (if b < FIRST_CHAR ∨ b > LAST_CHAR then 63 else b)) s.COLS.toNat 32 c
        (by intro h0; rw [h0] at hlb; simp at hlb; omega) (by omega)
      have hc1 := cell_tail_last (grid_set s.termColor y x s.cur_fg) s.COLS.toNat white c
        (by intro h0; rw [h0] at hlc; simp at hlc; omega) (by omega)
      rw [hlb, ← hyl] at hb1
      rw [hlc, ← hyl] at hc1
      exact ⟨hb1, hc1⟩

/-- C22, instance: the letter `A` at column 5 of row 3 of a blank 80x24 screen. -/
theorem printable_insertion_witness :
    put_char_local (screen80x24 5 3) 65
      = .ok { (screen80x24 5 3) with
              termBuf := grid_set (screen80x24 5 3).termBuf 3 5
                (if 65 < FIRST_CHAR ∨ 65 > LAST_CHAR then 63 else 65)
              termColor := grid_set (screen80x24 5 3).termColor 3 5 (screen80x24 5 3).cur_fg
              cursor_x := ((5 : Nat) : Int) + 1 } :=
  (printable_insertion (screen80x24 5 3) 5 3 65 (screen80x24_gridOK 5 3) rfl rfl (by decide)
    (by decide) (by decide)).2.2.1 (by decide)

/-- C25. Quote escaping round trip: for every string `s`, `shell_escape_single_quotes(s)`
is `s` with each single quote replaced by the four characters `'\''` and every other
character copied; the text made of a single quote, the escaped string and a single quote,
read under the single-quote rules, yields exactly `s`; the output has length
`|s| + 3 * (number of single quotes in s)`; and this quoted text is the argument of `echo`
in the command line of `run_llm_blocking`.  For `it's` the output is `it'\''s`. -/
theorem quote_escaping_round_trip (s : List Nat) :
    shell_escape_single_quotes s = replace_quotes s ∧
    sh_unquote .outside ([39] ++ shell_escape_single_quotes s ++ [39]) = some s ∧
    (shell_escape_single_quotes s).length = s.length + 3 * s.count 39 ∧
    llm_command s
      = bytes "echo " ++ ([39] ++ shell_escape_single_quotes s ++ [39])
          ++ bytes " | ollama run qwen2.5:7b 2>/dev/null" ∧
    shell_escape_single_quotes [105, 116, 39, 115] = [105, 116, 39, 92, 39, 39, 115] := by
  refine ⟨escape_eq_replace s, ?_, ?_, ?_, rfl⟩
  · rw [escape_eq_replace]
    simp only [List.singleton_append, List.cons_append, sh_unquote, if_true]
    exact unquote_replace s
  · rw [escape_eq_replace]
    exact replace_quotes_length s
  · simp [llm_command]

/-- C23. The AI candidate is a single line: for every string `o` that `run_llm_blocking`
can return (every string at all, so whatever it has captured of the backend output) the
candidate computed by the worker holds no `'\n'`, so `candidate ++ "\n"` holds exactly one; and when
the candidate is not empty, the pty is open, the main loop has picked the result up and
the key `Y` is then pressed (both calls returning), the pending command is that candidate
and the one buffer written to the pty is the candidate followed by `'\n'`. -/
theorem candidate_single_line (o : List Nat) (w w1 w2 : World) (action : Int) (mods : Nat) :
    10 ∉ candidate o ∧ (candidate o ++ [10]).count 10 = 1 ∧
    (candidate o ≠ [] → 0 ≤ w.master_fd → (action = GLFW_PRESS ∨ action = GLFW_REPEAT) →
      main_ai_pickup (worker_finish w o) = .ok w1 →
      key_callback w1 GLFW_KEY_Y action mods = .ok w2 →
      w1.awaiting_confirm = true ∧ w1.pending_ai_cmd = candidate o ∧
      w2.pty_out = w.pty_out ++ [candidate o ++ [10]]) := by
  have hno := candidate_no_newline o
  refine ⟨hno, ?_, fun hne hfd hact h1 h2 => ?_⟩
  · rw [List.count_append, List.count_eq_zero.mpr hno]
    rfl
  · rcases main_ai_pickup_ok h1 with ⟨_, _, ha, hp, _, hout, hfd1⟩ | ⟨hcase, _⟩
    · have hp1 : w1.pending_ai_cmd = candidate o := hp
      have hout1 : w1.pty_out = w.pty_out := hout
      have hfd2 : w1.master_fd = w.master_fd := hfd1
      obtain ⟨hy, _, _, _⟩ := confirm_resolution_of_return w1 w2 GLFW_KEY_Y action mods ha hact h2
      have hw := hy rfl (by rw [hp1]; exact hne) (by rw [hfd2]; exact hfd)
      rw [hw, hp1, hout1]
      exact ⟨ha, rfl, rfl⟩
    · rcases hcase with hr | hr
      · cases hr
      · exact absurd hr hne

/-- C23, instance: `run_llm_blocking` returns `ls -la` and a line feed; picked up and accepted
with `Y`, the single buffer written to the pty is `ls -la` followed by a line feed. -/
theorem candidate_single_line_witness :
    (final_state (main_ai_pickup (worker_finish world0 (bytes "ls -la\n"))) world0).pending_ai_cmd
      = candidate (bytes "ls -la\n") ∧
    (final_state
        (key_callback
          (final_state (main_ai_pickup (worker_finish world0 (bytes "ls -la\n"))) world0)
          GLFW_KEY_Y GLFW_PRESS 0) world0).pty_out
      = world0.pty_out ++ [candidate (bytes "ls -la\n") ++ [10]] ∧
    candidate (bytes "ls -la\n") ++ [10] = [108, 115, 32, 45, 108, 97, 10] :=
  ⟨((candidate_single_line (bytes "ls -la\n") world0
        (final_state (main_ai_pickup (worker_finish world0 (bytes "ls -la\n"))) world0)
        (final_state
          (key_callback
            (final_state (main_ai_pickup (worker_finish world0 (bytes "ls -la\n"))) world0)
            GLFW_KEY_Y GLFW_PRESS 0) world0)
        GLFW_PRESS 0).2.2 (by decide) (by decide) (Or.inl rfl) rfl rfl).2.1,
    ((candidate_single_line (bytes "ls -la\n") world0
        (final_state (main_ai_pickup (worker_finish world0 (bytes "ls -la\n"))) world0)
        (final_state
          (key_callback
            (final_state (main_ai_pickup (worker_finish world0 (bytes "ls -la\n"))) world0)
            GLFW_KEY_Y GLFW_PRESS 0) world0)
        GLFW_PRESS 0).2.2 (by decide) (by decide) (Or.inl rfl) rfl rfl).2.2,
    rfl⟩

/-- C24. Confirmation-state invariant: in every state reached from a state with
`awaiting_confirm` false, `pending_ai_cmd` empty and `input_blocked` false by a sequence
of character events, key events, worker completions and result pickups,
`awaiting_confirm = true` implies that `pending_ai_cmd` is not empty and that
`input_blocked` is true. -/
theorem confirmation_state_invariant (w0 w : World) (events : List RouterEvent)
    (h0 : w0.awaiting_confirm = false) (_hp : w0.pending_ai_cmd = [])
    (_hb : w0.input_blocked = false) (hrun : router_run w0 events = .ok w)
    (ha : w.awaiting_confirm = true) :
    w.pending_ai_cmd ≠ [] ∧ w.input_blocked = true := by
  have hI0 : ConfirmOK w0 := by
    intro h
    rw [h0] at h
    cases h
  exact router_run_confirmOK events w0 w hrun hI0 ha

/-- C24, instance: after `ls`, Shift+Enter, the worker's completion with `ls -la` and the
pickup, the router awaits confirmation of `ls -la` with the input blocked. -/
theorem confirmation_state_invariant_witness :
    (final_state (router_run world0 events_suggestion) world0).awaiting_confirm = true ∧
    (final_state (router_run world0 events_suggestion) world0).pending_ai_cmd
      = [108, 115, 32, 45, 108, 97] ∧
    (final_state (router_run world0 events_suggestion) world0).pending_ai_cmd ≠ [] ∧
    (final_state (router_run world0 events_suggestion) world0).input_blocked = true :=
  ⟨rfl, rfl,
    confirmation_state_invariant world0
      (final_state (router_run world0 events_suggestion) world0) events_suggestion
      rfl rfl rfl rfl rfl⟩

end CerebroShell
